import Mathlib

/-!
# CitySimulator: collision-rectangle merging and world loading

A shallow embedding of

* `CollisionMap::mergeAdjacentTiles` / `CollisionMap::mergeHelper`, `isCollidable`,
  `CollisionMap::findCollidableTiles` and the world borders of `CollisionMap::load`
  (`src/CitySimulator/src/world.cpp`, `src/CitySimulator/src/world.hpp`), and
* `WorldService::WorldLoader` (`src/CitySimulator/src/world/world_loading.cpp`,
  `src/CitySimulator/include/service/world_service.hpp`).

Conventions of the embedding.

* `sf::FloatRect` coordinates are modelled by `Int`: every rectangle the merger sees is
  built from integer tile indices times the tile size, and on such values the float
  operations used (`+`, `-`, `min`, `max`, squaring, comparison) are exact.
* `Constants::tileSizef` is not defined in the sources at hand; it is the parameter `ts`.
  `Constants::tileSize` is the parameter `tileSize` of `worldBorders`.
* `std::sort` is modelled by a stable insertion sort driven by the comparator of the source.
* C++ `int` is modelled by `Int` (no overflow is modelled; `-INT_MIN` is undefined in C++).
-/

namespace CitySimulator

/-! ## Rectangle merger (`world.cpp`) -/

/-- An `sf::FloatRect` with integral coordinates. -/
structure Rect where
  left : Int
  top : Int
  width : Int
  height : Int
  deriving DecidableEq, Repr

/-- Comparator `compareRectsHorizontally` (world.cpp 35-44): by `top`, then by `left`. -/
def compareRectsHorizontally (a b : Rect) : Bool :=
  if a.top < b.top then true
  else if b.top < a.top then false
  else if a.left < b.left then true
  else if b.left < a.left then false
  else false

/-- Comparator `compareRectsVertically` (world.cpp 46-55): by `left`, then by `top`. -/
def compareRectsVertically (a b : Rect) : Bool :=
  if a.left < b.left then true
  else if b.left < a.left then false
  else if a.top < b.top then true
  else if b.top < a.top then false
  else false

/-- Insertion of `a` into a list sorted for the comparator `lt`: `a` goes in front of the
first element that is not smaller than `a`. -/
def orderedInsert (lt : Rect → Rect → Bool) (a : Rect) : List Rect → List Rect
  | [] => [a]
  | b :: l => if lt b a then b :: orderedInsert lt a l else a :: b :: l

/-- Model of `std::sort(rects.begin(), rects.end(), lt)`: a stable insertion sort. -/
def sortRects (lt : Rect → Rect → Bool) : List Rect → List Rect
  | [] => []
  | a :: l => orderedInsert lt a (sortRects lt l)

/-- The sentinel `sf::FloatRect(-100.f, -100.f, 0.f, 0.f)` pushed by `mergeHelper`
(world.cpp 129). -/
def sentinel : Rect := ⟨-100, -100, 0, 0⟩

/-- The callback `nextRowFunc` of `mergeHelper` (world.cpp 100-120): `true` means that the
candidate `rect` starts a new accumulator. With `moveOnIfFar` the test is on the squared
distance of the two origins, otherwise on closed-rectangle contact and equal dimensions. -/
def nextRowFunc (ts : Int) (moveOnIfFar : Bool) (lastRect rect : Rect) : Bool :=
  if moveOnIfFar then
    decide ((rect.left - lastRect.left) ^ 2 + (rect.top - lastRect.top) ^ 2 > ts * ts)
  else
    !(decide (lastRect.left ≤ rect.left + rect.width) &&
      decide (rect.left ≤ lastRect.left + lastRect.width) &&
      decide (lastRect.top ≤ rect.top + rect.height) &&
      decide (rect.top ≤ lastRect.top + lastRect.height) &&
      decide (lastRect.width = rect.width) && decide (lastRect.height = rect.height))

/-- The "stretch current" step of `mergeHelper` (world.cpp 149-153). The assignments are
sequential: `width` and `height` are computed from the already updated `left` and `top`. -/
def stretch (current rect : Rect) : Rect :=
  let left := min current.left rect.left
  let top := min current.top rect.top
  let width := max (left + current.width) (rect.left + rect.width) - left
  let height := max (top + current.height) (rect.top + rect.height) - top
  ⟨left, top, width, height⟩

/-- The loop of `mergeHelper` (world.cpp 131-156) once `current` is set. `current` is the
accumulator (the value behind the pointer `current`), `lastRect` the value behind
`lastRect`, which is always an unmodified element of `rectsCopy`. The result is the list
of rectangles pushed to `rects`; the accumulator left at the end is not pushed. -/
def sweep (far : Rect → Rect → Bool) : Rect → Rect → List Rect → List Rect
  | _, _, [] => []
  | current, lastRect, rect :: rest =>
    if far lastRect rect then current :: sweep far rect rect rest
    else sweep far (stretch current rect) rect rest

/-- Function `CollisionMap::mergeHelper` (world.cpp 98-157): the rectangles are copied, the
sentinel is appended, and the copy is swept. -/
def mergeHelper (ts : Int) (rects : List Rect) (moveOnIfFar : Bool) : List Rect :=
  match rects ++ [sentinel] with
  | [] => []
  | first :: rest => sweep (nextRowFunc ts moveOnIfFar) first first rest

/-- Function `CollisionMap::mergeAdjacentTiles` (world.cpp 87-96). -/
def mergeAdjacentTiles (ts : Int) (rects : List Rect) : List Rect :=
  let rows := mergeHelper ts (sortRects compareRectsHorizontally rects) true
  mergeHelper ts (sortRects compareRectsVertically rows) false

/-- The rectangle pushed by `findCollidableTiles` (world.cpp 70-75) for the tile `(x, y)`:
origin `(x * ts, y * ts)`, size `ts` by `ts`. -/
def unitTile (ts : Int) (x y : Nat) : Rect :=
  ⟨(x : Int) * ts, (y : Int) * ts, ts, ts⟩

/-- Lists of rectangles as `findCollidableTiles` produces them: pairwise distinct unit
tiles at non-negative tile coordinates. -/
def UnitTiles (ts : Int) (rects : List Rect) : Prop :=
  rects.Nodup ∧ ∀ r ∈ rects, ∃ x y : Nat, r = unitTile ts x y

/-- Containment of rectangle `a` in rectangle `b`. -/
def Rect.within (a b : Rect) : Prop :=
  b.left ≤ a.left ∧ b.top ≤ a.top ∧
    a.left + a.width ≤ b.left + b.width ∧ a.top + a.height ≤ b.top + b.height

instance (a b : Rect) : Decidable (Rect.within a b) := by
  unfold Rect.within; infer_instance

/-- The grid cell `(x, y)` is covered by rectangle `r`. -/
def Rect.coversCell (ts : Int) (r : Rect) (x y : Nat) : Prop :=
  Rect.within (unitTile ts x y) r

instance (ts : Int) (r : Rect) (x y : Nat) : Decidable (Rect.coversCell ts r x y) := by
  unfold Rect.coversCell; infer_instance

/-! ## World loader (`world_loading.cpp`, `world_service.hpp`) -/

/-- World identifiers (`WorldID`, a C++ `int`). -/
abbrev WorldID := Int

/-- An `sf::Vector2i`. -/
structure Vector2i where
  x : Int
  y : Int
  deriving DecidableEq, Repr

/-- An `sf::IntRect`. -/
structure IntRect where
  left : Int
  top : Int
  width : Int
  height : Int
  deriving DecidableEq, Repr

/-- A `Location`: a world and a tile in it (the key and value type of the connection
table, world_service.hpp 9). -/
structure Location where
  world : WorldID
  tile : Vector2i
  deriving DecidableEq, Repr

/-- The table `WorldConnectionTable` (`std::unordered_map<Location, Location>`), kept as
the list of its entries in insertion order. -/
abbrev WorldConnectionTable := List (Location × Location)

/-- The enumeration `DoorTag` (world_service.hpp 41-65). -/
inductive DoorTag
  | DOORTAG_WORLD_ID
  | DOORTAG_WORLD_SHARE
  | DOORTAG_WORLD_NAME
  | DOORTAG_UNKNOWN
  deriving DecidableEq, Repr

/-- The struct `UnloadedBuilding` (world_service.hpp 34-39). -/
structure UnloadedBuilding where
  insideWorldID : WorldID
  insideWorldName : String
  bounds : IntRect
  deriving DecidableEq, Repr

/-- The struct `UnloadedDoor` (world_service.hpp 67-76). -/
structure UnloadedDoor where
  tile : Vector2i
  doorID : Int
  doorTag : DoorTag
  worldName : String
  worldShare : String
  worldID : WorldID
  deriving DecidableEq, Repr

/-- What the loader needs of a `World` object: `new World(worldID, path)`. -/
structure World where
  id : WorldID
  name : String
  deriving DecidableEq, Repr

/-- The struct `LoadedWorld` (world_service.hpp 78-90); `world` is a pointer, `none`
standing for `nullptr`. The parsed map `tmx` is kept in the environment. -/
structure LoadedWorld where
  world : Option World
  doors : List UnloadedDoor
  buildings : List UnloadedBuilding
  deriving DecidableEq, Repr

/-- Method `LoadedWorld::failed` (world_service.hpp 86-89). -/
def LoadedWorld.failed (w : LoadedWorld) : Bool := w.world.isNone

/-- A `TMX::PropertyObject` as `loadWorld` reads it: for each property, its value when
`hasProperty` holds. The numeric properties are given after `boost::lexical_cast`. -/
structure PropertyObject where
  buildingWorld : Option String
  doorID : Option Int
  doorWorldID : Option WorldID
  doorWorld : Option String
  doorWorldShareSpecifier : Option String
  doorWorldShareSource : Option String
  dimensions : Vector2i
  deriving DecidableEq, Repr

/-- A `TMX::TileWrapper` of a layer: whether its type is `TILE_PROPERTY_SHAPE`, its pixel
position and its property object. -/
structure TileWrapper where
  isPropertyShape : Bool
  position : Vector2i
  property : PropertyObject
  deriving DecidableEq, Repr

/-- A `TMX::Layer`: its name and items. -/
structure Layer where
  name : String
  items : List TileWrapper
  deriving DecidableEq, Repr

/-- A `TMX::TileMap`: its layers. -/
structure TileMap where
  layers : List Layer
  deriving DecidableEq, Repr

/-- The collaborators of the loader that are not part of the sources at hand:
`Config::getResource`, `Utils::joinPaths`, the map parser `TMX::TileMap::load` (assumed to
return), the constant `Constants::tilesetResolution`, and the value found in an
`UnloadedDoor::worldID` that was never assigned (`UnloadedDoor d;` leaves it
indeterminate). -/
structure Env where
  getResource : String → String
  joinPaths : String → String → String
  tmxLoad : String → TileMap
  tilesetResolution : Int
  indeterminateWorldID : WorldID

/-- Calls of `Logger::logError` made by the loader, one constructor per message. -/
inductive LogError
  | failedMainWorld
  | doorNotInBuilding (x y : Int)
  | unknownShareTag (doorID : Int) (worldShare : String)
  | cannotFindBuildingWorld (worldName : String) (doorID : Int)
  | noDoorTag (doorID : Int)
  | worldNotLoaded (worldID : WorldID)
  | noPartnerDoor (worldID : WorldID) (doorID : Int) (inWorld : WorldID)
  deriving DecidableEq, Repr

/-- Ways in which a run of the model leaves the defined behaviour of the program:
a null pointer is dereferenced, or the recursion budget of the model is used up. -/
inductive Fault
  | nullDereference
  | outOfFuel
  deriving DecidableEq, Repr

/-- The state of a `WorldLoader` (world_service.hpp 92-95): the ID counter, the map
`loadedWorlds` (entries in insertion order), and the errors logged so far. -/
structure WorldLoader where
  lastWorldID : WorldID
  loadedWorlds : List (WorldID × LoadedWorld)
  errors : List LogError
  deriving DecidableEq, Repr

/-- Constructor `WorldLoader::WorldLoader` (world_loading.cpp 6-8). -/
def WorldLoader.init : WorldLoader := ⟨0, [], []⟩

/-- Appends an error to the log. -/
def WorldLoader.logError (s : WorldLoader) (e : LogError) : WorldLoader :=
  ⟨s.lastWorldID, s.loadedWorlds, s.errors ++ [e]⟩

/-- Method `WorldLoader::getLoadedWorld` (world_loading.cpp 295-299). -/
def getLoadedWorld (s : WorldLoader) (id : WorldID) : Option LoadedWorld :=
  s.loadedWorlds.lookup id

/-- Writes `w` through a reference to the entry of `loadedWorlds` with key `id`; with no
such entry, the entry is created (`loadedWorlds.emplace`). -/
def storeWorld (id : WorldID) (w : LoadedWorld) :
    List (WorldID × LoadedWorld) → List (WorldID × LoadedWorld)
  | [] => [(id, w)]
  | (k, v) :: rest => if k == id then (k, w) :: rest else (k, v) :: storeWorld id w rest

/-- Method `WorldLoader::getWorldFilePath` (world_loading.cpp 319-328). -/
def getWorldFilePath (env : Env) (name : String) (isBuilding : Bool) : String :=
  env.joinPaths (env.getResource (if isBuilding then "world.buildings" else "world.root"))
    (name ++ ".tmx")

/-- The tile of a layer item: its pixel position divided by
`Constants::tilesetResolution`, truncated (world_loading.cpp 251-252). -/
def tilePosition (env : Env) (tile : TileWrapper) : Vector2i :=
  ⟨Int.tdiv tile.position.x env.tilesetResolution,
    Int.tdiv tile.position.y env.tilesetResolution⟩

/-- The bounds of a building marker in tiles (world_loading.cpp 233-238). -/
def buildingBounds (env : Env) (tile : TileWrapper) : IntRect :=
  ⟨Int.tdiv tile.position.x env.tilesetResolution,
    Int.tdiv tile.position.y env.tilesetResolution,
    Int.tdiv tile.property.dimensions.x env.tilesetResolution,
    Int.tdiv tile.property.dimensions.y env.tilesetResolution⟩

/-- The door branch of `loadWorld` (world_loading.cpp 249-283): the `UnloadedDoor` built
from a tile whose property object has the door ID `doorID`. -/
def loadDoor (env : Env) (tile : TileWrapper) (doorID : Int) : UnloadedDoor :=
  let p := tile.property
  let d : UnloadedDoor :=
    ⟨tilePosition env tile, doorID, DoorTag.DOORTAG_UNKNOWN, "", "", env.indeterminateWorldID⟩
  -- preloaded
  let d : UnloadedDoor :=
    match p.doorWorldID with
    | some id => ⟨d.tile, d.doorID, DoorTag.DOORTAG_WORLD_ID, d.worldName, d.worldShare, id⟩
    | none => d
  -- unloaded, else sharing
  let d : UnloadedDoor :=
    match p.doorWorld with
    | some n => ⟨d.tile, d.doorID, DoorTag.DOORTAG_WORLD_NAME, n, d.worldShare, d.worldID⟩
    | none =>
      match p.doorWorldShareSpecifier with
      | some sh =>
        ⟨d.tile, d.doorID, DoorTag.DOORTAG_WORLD_SHARE, d.worldName, sh, d.worldID⟩
      | none => d
  -- share source
  match p.doorWorldShareSource with
  | some sh => ⟨d.tile, d.doorID, d.doorTag, d.worldName, sh, d.worldID⟩
  | none => d

/-- One iteration of the loop over the items of the buildings layer in `loadWorld`
(world_loading.cpp 223-285). The state is the world being filled and the ID counter
(`generateWorldID`, world_loading.cpp 290-293, returns the counter and increments it). -/
def loadItem (env : Env) (acc : LoadedWorld × WorldID) (tile : TileWrapper) :
    LoadedWorld × WorldID :=
  if !tile.isPropertyShape then acc
  else
    match tile.property.buildingWorld with
    | some insideWorldName =>
      (⟨acc.1.world, acc.1.doors,
          acc.1.buildings ++ [⟨acc.2, insideWorldName, buildingBounds env tile⟩]⟩,
        acc.2 + 1)
    | none =>
      match tile.property.doorID with
      | some doorID =>
        (⟨acc.1.world, acc.1.doors ++ [loadDoor env tile doorID], acc.1.buildings⟩, acc.2)
      | none => acc

/-- Method `WorldLoader::loadWorld(name, isBuilding, worldID)` (world_loading.cpp 196-288).
The entry with key `worldID` is created unless present (`emplace`), its `world` is set to
a new `World`, and the buildings and doors of the layer named "buildings" are appended.
The returned reference is the entry with key `worldID` of the resulting loader. -/
def loadWorldWithID (env : Env) (name : String) (isBuilding : Bool) (worldID : WorldID)
    (s : WorldLoader) : WorldLoader :=
  let entry : LoadedWorld := (getLoadedWorld s worldID).getD ⟨none, [], []⟩
  let path := getWorldFilePath env name isBuilding
  let loadedWorld : LoadedWorld := ⟨some ⟨worldID, path⟩, entry.doors, entry.buildings⟩
  match (env.tmxLoad path).layers.find? (fun layer => layer.name == "buildings") with
  | none => ⟨s.lastWorldID, storeWorld worldID loadedWorld s.loadedWorlds, s.errors⟩
  | some buildingLayer =>
    let r := buildingLayer.items.foldl (loadItem env) (loadedWorld, s.lastWorldID)
    ⟨r.2, storeWorld worldID r.1 s.loadedWorlds, s.errors⟩

/-- Method `WorldLoader::loadWorld(name, isBuilding)` (world_loading.cpp 190-194): the ID
comes from `generateWorldID`. Returns the key of the loaded entry and the new loader. -/
def loadWorld (env : Env) (name : String) (isBuilding : Bool) (s : WorldLoader) :
    WorldID × WorldLoader :=
  (s.lastWorldID,
    loadWorldWithID env name isBuilding s.lastWorldID
      ⟨s.lastWorldID + 1, s.loadedWorlds, s.errors⟩)

/-- The containment test of `findDoorBuilding` (world_loading.cpp 310-311). -/
def boundsContain (bounds : IntRect) (tile : Vector2i) : Bool :=
  decide (bounds.left ≤ tile.x) && decide (bounds.left + bounds.width ≥ tile.x) &&
    decide (bounds.top ≤ tile.y) && decide (bounds.top + bounds.height ≥ tile.y)

/-- Method `WorldLoader::findDoorBuilding` (world_loading.cpp 302-316). -/
def findDoorBuilding (world : LoadedWorld) (door : UnloadedDoor) : Option UnloadedBuilding :=
  world.buildings.find? (fun building => boundsContain building.bounds door.tile)

/-- Method `WorldLoader::findPartnerDoor` (world_loading.cpp 130-138). -/
def findPartnerDoor (world : LoadedWorld) (doorID : Int) : Option UnloadedDoor :=
  world.doors.find? (fun door => decide (door.doorID = -doorID))

/-- Writes `f door` through a reference to door number `i` of the world with key `key`. -/
def modifyDoor (s : WorldLoader) (key : WorldID) (i : Nat) (f : UnloadedDoor → UnloadedDoor) :
    WorldLoader :=
  match getLoadedWorld s key with
  | none => s
  | some w =>
    ⟨s.lastWorldID,
      storeWorld key ⟨w.world, w.doors.modify f i, w.buildings⟩ s.loadedWorlds, s.errors⟩

/-- The loop "transfer building IDs to doors" of `loadWorlds` (world_loading.cpp 36-49)
over the doors of the main world, for the door numbers listed. The flag is `false` when
some door is in no building (`loadWorlds` then returns `nullptr`), with the error logged
in the loader. -/
def transferBuildingIDs (key : WorldID) : List Nat → WorldLoader → WorldLoader × Bool
  | [], s => (s, true)
  | i :: rest, s =>
    match getLoadedWorld s key with
    | none => (s, true)
    | some mainWorld =>
      match mainWorld.doors.get? i with
      | none => (s, true)
      | some door =>
        match findDoorBuilding mainWorld door with
        | none => (s.logError (LogError.doorNotInBuilding door.tile.x door.tile.y), false)
        | some owningBuilding =>
          transferBuildingIDs key rest
            (modifyDoor s key i (fun d =>
              ⟨d.tile, d.doorID, DoorTag.DOORTAG_WORLD_ID, d.worldName, d.worldShare,
                owningBuilding.insideWorldID⟩))

/-- The body of the loop over `world.doors` in `discoverAndLoadAllWorlds`
(world_loading.cpp 72-127), for the door numbers listed; `recurse` is the recursive call of
line 126, `key` the key of `world` in `loadedWorlds`, and the state is the loader with the
set `visitedWorlds`. -/
def discoverDoors (env : Env)
    (recurse : WorldID → WorldLoader × List WorldID → Except Fault (WorldLoader × List WorldID))
    (key : WorldID) :
    List Nat → WorldLoader × List WorldID → Except Fault (WorldLoader × List WorldID)
  | [], st => .ok st
  | i :: rest, (s, visited) =>
    match getLoadedWorld s key with
    | none => .error Fault.nullDereference
    | some world =>
      match world.doors.get? i with
      | none => .ok (s, visited)
      | some door =>
        -- only positive IDs load worlds
        if door.doorID ≤ 0 then discoverDoors env recurse key rest (s, visited)
        else
          match door.doorTag with
          | DoorTag.DOORTAG_WORLD_SHARE =>
            match world.doors.find? (fun d =>
                decide (d.doorTag ≠ DoorTag.DOORTAG_WORLD_SHARE) &&
                  d.worldShare == door.worldShare) with
            | none =>
              discoverDoors env recurse key rest
                (s.logError (LogError.unknownShareTag door.doorID door.worldShare), visited)
            | some otherDoor =>
              let s1 := modifyDoor s key i (fun d =>
                ⟨d.tile, d.doorID, d.doorTag, d.worldName, d.worldShare, otherDoor.worldID⟩)
              match getLoadedWorld s1 otherDoor.worldID with
              | none => .error Fault.nullDereference
              | some _ =>
                match recurse otherDoor.worldID (s1, visited) with
                | .error e => .error e
                | .ok st => discoverDoors env recurse key rest st
          | DoorTag.DOORTAG_WORLD_NAME =>
            let r := loadWorld env door.worldName true s
            match getLoadedWorld r.2 r.1 with
            | none => .error Fault.nullDereference
            | some loadedWorld =>
              if loadedWorld.failed then
                discoverDoors env recurse key rest
                  (r.2.logError (LogError.cannotFindBuildingWorld door.worldName door.doorID),
                    visited)
              else
                match loadedWorld.world with
                | none => .error Fault.nullDereference
                | some w =>
                  let s1 := modifyDoor r.2 key i (fun d =>
                    ⟨d.tile, d.doorID, d.doorTag, d.worldName, d.worldShare, w.id⟩)
                  match recurse r.1 (s1, visited) with
                  | .error e => .error e
                  | .ok st => discoverDoors env recurse key rest st
          | DoorTag.DOORTAG_UNKNOWN =>
            .ok (s.logError (LogError.noDoorTag door.doorID), visited)
          | DoorTag.DOORTAG_WORLD_ID =>
            match getLoadedWorld s door.worldID with
            | none => .error Fault.nullDereference
            | some _ =>
              match recurse door.worldID (s, visited) with
              | .error e => .error e
              | .ok st => discoverDoors env recurse key rest st

/-- Method `WorldLoader::discoverAndLoadAllWorlds` (world_loading.cpp 64-128). The
reference `world` is given by its key in `loadedWorlds`; the first argument bounds the
depth of the recursion. -/
def discoverAndLoadAllWorlds (env : Env) :
    Nat → WorldID → WorldLoader × List WorldID → Except Fault (WorldLoader × List WorldID)
  | 0, _, _ => .error Fault.outOfFuel
  | fuel + 1, key, (s, visited) =>
    match getLoadedWorld s key with
    | none => .error Fault.nullDereference
    | some world =>
      match world.world with
      | none => .error Fault.nullDereference
      | some w =>
        if w.id ∈ visited then .ok (s, visited)
        else
          discoverDoors env (discoverAndLoadAllWorlds env fuel) key
            (List.range world.doors.length) (s, w.id :: visited)

/-- A `TreeNode<World>`: the `parent` pointer, the `value` pointer and the children. The
parent pointer is reduced to what `connectDoors` reads through it: `none` is the null
pointer, and `some v` points to a node whose `value` is `v`. -/
inductive WorldTreeNode
  | mk (parent : Option (Option World)) (value : Option World)
      (children : List WorldTreeNode)

/-- The parent pointer of a tree node. -/
def WorldTreeNode.parent : WorldTreeNode → Option (Option World)
  | .mk p _ _ => p

/-- The value of a tree node. -/
def WorldTreeNode.value : WorldTreeNode → Option World
  | .mk _ v _ => v

/-- The children of a tree node. -/
def WorldTreeNode.children : WorldTreeNode → List WorldTreeNode
  | .mk _ _ c => c

/-- The state threaded through `connectDoors`: the connection table, the set
`visitedWorlds` and the errors logged. -/
structure ConnectState where
  connectionLookup : WorldConnectionTable
  visitedWorlds : List WorldID
  errors : List LogError
  deriving DecidableEq, Repr

/-- The call `connectionLookup.emplace(src, dst)`: inserted unless the key is present. -/
def emplaceConnection (table : WorldConnectionTable) (src dst : Location) :
    WorldConnectionTable :=
  if table.any (fun e => e.1 == src) then table else table ++ [(src, dst)]

/-- The body of the loop over `world.doors` in `connectDoors` (world_loading.cpp 147-187);
`recurse` is the recursive call of line 184, and `parent`, `value` and `children` are the
fields of `currentNode`. A new child node gets `&currentNode` as parent pointer (line 180)
and the world of the neighbour as value (line 181). Returns the children of `currentNode`
and the state. -/
def connectDoorsLoop (loader : WorldLoader)
    (recurse : WorldTreeNode → LoadedWorld → ConnectState →
      Except Fault (WorldTreeNode × ConnectState))
    (parent : Option (Option World)) (value : Option World) (world : LoadedWorld) :
    List UnloadedDoor → List WorldTreeNode → ConnectState →
      Except Fault (List WorldTreeNode × ConnectState)
  | [], children, cs => .ok (children, cs)
  | door :: rest, children, cs =>
    let neighbourID : Except Fault WorldID :=
      if door.doorID > 0 then .ok door.worldID
      else
        match parent with
        | some (some p) => .ok p.id
        | _ => .error Fault.nullDereference
    match neighbourID with
    | .error e => .error e
    | .ok nid =>
      match getLoadedWorld loader nid with
      | none =>
        .ok (children, ⟨cs.connectionLookup, cs.visitedWorlds,
          cs.errors ++ [LogError.worldNotLoaded door.worldID]⟩)
      | some childWorld =>
        match findPartnerDoor childWorld door.doorID with
        | none =>
          match world.world with
          | none => .error Fault.nullDereference
          | some w =>
            .ok (children, ⟨cs.connectionLookup, cs.visitedWorlds,
              cs.errors ++ [LogError.noPartnerDoor door.worldID door.doorID w.id]⟩)
        | some targetDoor =>
          match world.world, childWorld.world with
          | some w, some c =>
            let cs1 : ConnectState :=
              ⟨emplaceConnection cs.connectionLookup ⟨w.id, door.tile⟩ ⟨c.id, targetDoor.tile⟩,
                cs.visitedWorlds, cs.errors⟩
            if door.doorID > 0 then
              match recurse (WorldTreeNode.mk (some value) childWorld.world []) childWorld
                  cs1 with
              | .error e => .error e
              | .ok (childNode, cs2) =>
                connectDoorsLoop loader recurse parent value world rest
                  (children ++ [childNode]) cs2
            else connectDoorsLoop loader recurse parent value world rest children cs1
          | _, _ => .error Fault.nullDereference

/-- Method `WorldLoader::connectDoors` (world_loading.cpp 140-188). The first argument
bounds the depth of the recursion; the result is the updated `currentNode` and state. -/
def connectDoors (loader : WorldLoader) :
    Nat → WorldTreeNode → LoadedWorld → ConnectState →
      Except Fault (WorldTreeNode × ConnectState)
  | 0, _, _, _ => .error Fault.outOfFuel
  | fuel + 1, currentNode, world, cs =>
    match world.world with
    | none => .error Fault.nullDereference
    | some w =>
      if w.id ∈ cs.visitedWorlds then .ok (currentNode, cs)
      else
        match connectDoorsLoop loader (connectDoors loader fuel) currentNode.parent
            currentNode.value world world.doors currentNode.children
            ⟨cs.connectionLookup, w.id :: cs.visitedWorlds, cs.errors⟩ with
        | .error e => .error e
        | .ok (children, cs1) =>
          .ok (WorldTreeNode.mk currentNode.parent currentNode.value children, cs1)

/-- What `loadWorlds` leaves behind: the returned pointer (`none` for `nullptr`), the
loader, the connection table and the tree root; `connectVisited` is the final content of
the local set `visitedWorlds` of the connection pass. -/
structure LoadResult where
  result : Option World
  loader : WorldLoader
  connectionLookup : WorldConnectionTable
  treeRoot : WorldTreeNode
  connectVisited : List WorldID

/-- The loop "allocate main world building IDs" of `loadWorlds` (world_loading.cpp 24-34). -/
def loadBuildings (env : Env) : List UnloadedBuilding → WorldLoader → WorldLoader
  | [], s => s
  | building :: rest, s =>
    loadBuildings env rest
      (loadWorldWithID env building.insideWorldName true building.insideWorldID s)

/-- Method `WorldLoader::loadWorlds` (world_loading.cpp 11-61); `fuel` bounds the depth of
both recursions. Of `treeRoot` only the value is assigned (line 22). -/
def loadWorlds (env : Env) (fuel : Nat) (mainWorldName : String)
    (connectionLookup : WorldConnectionTable) (treeRoot : WorldTreeNode) (s : WorldLoader) :
    Except Fault LoadResult :=
  -- load main world
  let r := loadWorld env mainWorldName false s
  match getLoadedWorld r.2 r.1 with
  | none => .error Fault.nullDereference
  | some mainWorld =>
    if mainWorld.failed then
      .ok ⟨none, r.2.logError LogError.failedMainWorld, connectionLookup, treeRoot, []⟩
    else
      let root := WorldTreeNode.mk treeRoot.parent mainWorld.world treeRoot.children
      -- allocate main world building IDs
      let s1 := loadBuildings env mainWorld.buildings r.2
      -- transfer building IDs to doors
      match getLoadedWorld s1 r.1 with
      | none => .error Fault.nullDereference
      | some mainWorld1 =>
        let t := transferBuildingIDs r.1 (List.range mainWorld1.doors.length) s1
        if !t.2 then .ok ⟨none, t.1, connectionLookup, root, []⟩
        else
          -- load all worlds recursively without connecting doors
          match discoverAndLoadAllWorlds env fuel r.1 (t.1, []) with
          | .error e => .error e
          | .ok (s2, _) =>
            match getLoadedWorld s2 r.1 with
            | none => .error Fault.nullDereference
            | some mainWorld2 =>
              -- connect up the doors
              match connectDoors s2 fuel root mainWorld2
                  ⟨connectionLookup, [], s2.errors⟩ with
              | .error e => .error e
              | .ok (root1, cs) =>
                .ok ⟨mainWorld2.world, ⟨s2.lastWorldID, s2.loadedWorlds, cs.errors⟩,
                  cs.connectionLookup, root1, cs.visitedWorlds⟩

/-- Tile `(x', y')` is one of the eight neighbours of tile `(x, y)`. -/
def EightNeighbours (x y x' y' : Nat) : Prop :=
  (x' ≠ x ∨ y' ≠ y) ∧ x' ≤ x + 1 ∧ x ≤ x' + 1 ∧ y' ≤ y + 1 ∧ y ≤ y' + 1

/-- A rectangle at least two tiles wide or two tiles high. -/
def Big (ts : Int) (r : Rect) : Prop := 2 * ts ≤ r.width ∨ 2 * ts ≤ r.height

/-- In the first sweep, candidate `b` after `a` either starts a new accumulator or
stretches the one-tile accumulator `a` to a rectangle of two tiles. -/
def Step (ts : Int) (a b : Rect) : Prop :=
  nextRowFunc ts true a b = true ∨ Big ts (stretch a b)

/-! ## Example maps -/

/-- A building marker of the buildings layer: pixel position, pixel dimensions and the
name of the interior map. -/
def buildingMarker (x y w h : Int) (insideWorldName : String) : TileWrapper :=
  ⟨true, ⟨x, y⟩, ⟨some insideWorldName, none, none, none, none, none, ⟨w, h⟩⟩⟩

/-- A door marker of the buildings layer: pixel position, door ID and the optional
world-id, world-name and share properties. -/
def doorMarker (x y : Int) (doorID : Int) (worldID : Option WorldID)
    (worldName share : Option String) : TileWrapper :=
  ⟨true, ⟨x, y⟩, ⟨none, some doorID, worldID, worldName, share, none, ⟨0, 0⟩⟩⟩

/-- A map whose only layer is a buildings layer with the given items. -/
def buildingsMap (items : List TileWrapper) : TileMap := ⟨[⟨"buildings", items⟩]⟩

/-- Example map files. Each outdoor map has one building of 4 by 4 tiles at tile (2, 2)
with a door of ID 1 at tile (3, 6); the interiors differ. -/
def exampleFiles (path : String) : TileMap :=
  if path = "world/town.tmx" then
    buildingsMap [buildingMarker 32 32 64 64 "shop", doorMarker 48 96 1 none none none]
  else if path = "buildings/shop.tmx" then
    buildingsMap [doorMarker 16 32 (-1) none none none]
  else if path = "world/town_unknown.tmx" then
    buildingsMap [buildingMarker 32 32 64 64 "untagged", doorMarker 48 96 1 none none none]
  else if path = "buildings/untagged.tmx" then
    buildingsMap [doorMarker 16 32 (-1) none none none, doorMarker 64 32 2 none none none]
  else if path = "world/town_alley.tmx" then
    buildingsMap [buildingMarker 32 32 64 64 "alley", doorMarker 48 96 1 none none none]
  else if path = "buildings/alley.tmx" then
    buildingsMap [doorMarker 16 32 (-1) none none none,
      doorMarker 64 32 2 none none (some "alley"), doorMarker 80 32 3 none none (some "alley")]
  else if path = "world/town_exit.tmx" then
    buildingsMap [buildingMarker 32 32 64 64 "exit", doorMarker 48 96 1 none none none]
  else if path = "buildings/exit.tmx" then
    buildingsMap [doorMarker 64 32 (-5) none none none, doorMarker 16 32 (-1) none none none]
  else ⟨[]⟩

/-- Example collaborators: resources "world.root" and "world.buildings" are the
directories "world" and "buildings", paths are joined with a slash, the tileset resolution
is 16, and an unassigned world ID reads as 77. -/
def exampleEnv : Env :=
  ⟨fun key => if key = "world.buildings" then "buildings" else "world",
    fun root file => root ++ "/" ++ file, exampleFiles, 16, 77⟩

/-- A tree root as `WorldService` holds it before loading: no parent, no value, no
children. -/
def emptyRoot : WorldTreeNode := WorldTreeNode.mk none none []

/-! ## Notions used to state the properties of the connection table -/

/-- Every entry of `loadedWorlds` holds a `World` whose ID is the key of the entry. -/
def WellKeyed (s : WorldLoader) : Prop :=
  ∀ k lw, getLoadedWorld s k = some lw → ∃ n, lw.world = some ⟨k, n⟩

/-- The number of doors of the world loaded under `id` (0 when there is none). -/
def doorCount (s : WorldLoader) (id : WorldID) : Nat :=
  match getLoadedWorld s id with
  | some lw => lw.doors.length
  | none => 0

/-- The number of doors of the worlds loaded under the IDs listed. -/
def sumDoors (s : WorldLoader) (ids : List WorldID) : Nat :=
  (ids.map (doorCount s)).sum

/-- The errors logged by `connectDoors`. -/
def LogError.isConnectError : LogError → Bool
  | LogError.worldNotLoaded _ => true
  | LogError.noPartnerDoor _ _ _ => true
  | _ => false

/-- A connection `e` leads from a door of a loaded world, keyed by the world ID and the
tile of the door, to the partner door (the first door with the negated ID) in a loaded
world, which for a door of positive ID is the world `door.worldID`. (What the world is for
a door of another ID is said by `ValidEntry`.) -/
def PartnerEntry (s : WorldLoader) (e : Location × Location) : Prop :=
  ∃ (k : WorldID) (lw : LoadedWorld) (door : UnloadedDoor) (c : WorldID) (cw : LoadedWorld)
    (target : UnloadedDoor),
    getLoadedWorld s k = some lw ∧ door ∈ lw.doors ∧ e.1 = ⟨k, door.tile⟩ ∧
    getLoadedWorld s c = some cw ∧ (0 < door.doorID → c = door.worldID) ∧
    findPartnerDoor cw door.doorID = some target ∧ e.2 = ⟨c, target.tile⟩

/-- The errors logged by a part of the connection pass: the log is extended, by errors of
`connectDoors` only. -/
def ErrorsExtended (cs cs' : ConnectState) : Prop :=
  ∃ extra, cs'.errors = cs.errors ++ extra ∧ ∀ e ∈ extra, LogError.isConnectError e = true

/-- Invariant of the connection pass: the key of every connection is a tile of a visited
world, and no world is visited twice. -/
def ConnectInv (cs : ConnectState) : Prop :=
  (∀ e ∈ cs.connectionLookup, e.1.world ∈ cs.visitedWorlds) ∧ cs.visitedWorlds.Nodup

/-- State `cs'` extends state `cs`: worlds `newV` were visited and connections `added` were
inserted, one for each door of `ds` (doors of the world with key `k`) and one for each door
of the worlds of `newV`. Each connection added is valid, and its key lies in world `k`
(when `ds` is not empty) or in a world of `newV`. -/
def Extends (loader : WorldLoader) (k : WorldID) (ds : List UnloadedDoor)
    (cs cs' : ConnectState) : Prop :=
  ∃ (newV : List WorldID) (added : WorldConnectionTable),
    cs'.visitedWorlds = newV ++ cs.visitedWorlds ∧
    cs'.connectionLookup = cs.connectionLookup ++ added ∧
    added.length = ds.length + sumDoors loader newV ∧
    (∀ e ∈ added, PartnerEntry loader e ∧ ((e.1.world = k ∧ ds ≠ []) ∨ e.1.world ∈ newV)) ∧
    (∀ d ∈ ds, ∃ e ∈ added, e.1 = ⟨k, d.tile⟩) ∧
    (∀ id ∈ newV, ∀ lw, getLoadedWorld loader id = some lw →
      ∀ d ∈ lw.doors, ∃ e ∈ added, e.1 = ⟨id, d.tile⟩)

/-! ## Collidable tiles, world borders, ID allocation and more example maps -/

/-- The enumeration `BlockType` (world.hpp 10-36). -/
inductive BlockType
  | BLANK | GRASS | DIRT | ROAD | PAVEMENT | SAND | WATER | COBBLESTONE | TREE | FENCE
  | SLIDING_DOOR | BUILDING_WALL | BUILDING_WINDOW_ON | BUILDING_WINDOW_OFF | BUILDING_ROOF
  | BUILDING_EDGE | BUILDING_ROOF_CORNER | WOODEN_FLOOR | ENTRANCE_MAT | RUG | RUG_CORNER
  | RUG_EDGE | LAST
  deriving DecidableEq, Repr

/-- The static set `collidables` of `isCollidable` (world.cpp 8-9). -/
def collidables : List BlockType :=
  [BlockType.WATER, BlockType.TREE, BlockType.BUILDING_WALL, BlockType.BUILDING_EDGE,
    BlockType.BUILDING_ROOF, BlockType.BUILDING_ROOF_CORNER]

/-- Function `isCollidable` (world.cpp 6-11). -/
def isCollidable (blockType : BlockType) : Bool := collidables.contains blockType

/-- Method `CollisionMap::findCollidableTiles` (world.cpp 57-85): rows `y` from 0 below
`worldTileSize.y`, in each row columns `x` from 0 below `worldTileSize.x`; a rectangle of
one tile is pushed to `rectsRet` for every tile whose block of the terrain layer
(`container->getBlockAt`) is collidable. -/
def findCollidableTiles (ts : Int) (worldTileSize : Vector2i)
    (getBlockAt : Vector2i → BlockType) (rectsRet : List Rect) : List Rect :=
  rectsRet ++ (List.range worldTileSize.y.toNat).flatMap (fun (y : Nat) =>
    ((List.range worldTileSize.x.toNat).filter
      (fun (x : Nat) => isCollidable (getBlockAt ⟨x, y⟩))).map (fun x => unitTile ts x y))

/-- The world borders appended by `CollisionMap::load` (world.cpp 211-218);
`Constants::tileSize` is the parameter `tileSize`, `worldSize` is `container->pixelSize`. -/
def worldBorders (tileSize : Int) (worldSize : Vector2i) : List Rect :=
  let borderThickness := tileSize
  let padding := Int.tdiv tileSize 4
  [⟨-borderThickness - padding, 0, borderThickness, worldSize.y⟩,
    ⟨0, -borderThickness - padding, worldSize.y, borderThickness⟩,
    ⟨worldSize.x + padding, 0, borderThickness, worldSize.y⟩,
    ⟨0, worldSize.y + padding, worldSize.y, borderThickness⟩]

/-- Method `WorldLoader::generateWorldID` (world_loading.cpp 290-293): returns the counter
and increments it. -/
def generateWorldID (s : WorldLoader) : WorldID × WorldLoader :=
  (s.lastWorldID, ⟨s.lastWorldID + 1, s.loadedWorlds, s.errors⟩)

/-- A door marker with the optional world-name and share-source properties. -/
def sourceDoorMarker (x y : Int) (doorID : Int) (worldName source : Option String) :
    TileWrapper :=
  ⟨true, ⟨x, y⟩, ⟨none, some doorID, none, worldName, none, source, ⟨0, 0⟩⟩⟩

/-- More example map files, on top of `exampleFiles`. The outdoor maps have one building
of 4 by 4 tiles at tile (2, 2). -/
def districtFiles (path : String) : TileMap :=
  if path = "world/town_edge.tmx" then
    buildingsMap [buildingMarker 32 32 64 64 "shop", doorMarker 96 48 1 none none none]
  else if path = "world/town_hall.tmx" then
    buildingsMap [buildingMarker 32 32 64 64 "hall", doorMarker 48 96 1 none none none,
      doorMarker 64 96 2 none none none]
  else if path = "buildings/hall.tmx" then
    buildingsMap [doorMarker 16 32 (-1) none none none, doorMarker 32 32 (-2) none none none]
  else if path = "world/town_loop.tmx" then
    buildingsMap [buildingMarker 32 32 64 64 "loop", doorMarker 48 96 1 none none none]
  else if path = "buildings/loop.tmx" then
    buildingsMap [doorMarker 16 32 (-1) none none none,
      doorMarker 64 32 2 none (some "loop") none]
  else if path = "world/town_ring.tmx" then
    buildingsMap [buildingMarker 32 32 64 64 "ring", doorMarker 48 96 1 none none none]
  else if path = "buildings/ring.tmx" then
    buildingsMap [doorMarker 16 32 (-1) none none none,
      doorMarker 64 32 2 (some 0) none none, doorMarker 80 32 3 (some 1) none none]
  else if path = "world/town_twins.tmx" then
    buildingsMap [buildingMarker 32 32 64 64 "twins", doorMarker 48 96 1 none none none]
  else if path = "buildings/twins.tmx" then
    buildingsMap [doorMarker 16 32 (-1) none none none,
      doorMarker 64 32 2 none (some "back") none, doorMarker 80 32 3 none (some "back") none]
  else if path = "buildings/back.tmx" then
    buildingsMap [doorMarker 16 32 (-2) none none none, doorMarker 32 32 (-3) none none none]
  else if path = "world/town_far.tmx" then
    buildingsMap [buildingMarker 32 32 64 64 "shop", doorMarker 112 48 1 none none none]
  else if path = "world/town_late.tmx" then
    buildingsMap [buildingMarker 32 32 64 64 "late", doorMarker 48 96 1 none none none]
  else if path = "buildings/late.tmx" then
    buildingsMap [doorMarker 16 32 (-1) none none none,
      doorMarker 64 32 2 none none (some "yard"),
      sourceDoorMarker 80 32 3 (some "back") (some "yard")]
  else exampleFiles path

/-- The collaborators of `exampleEnv` with the map files of `districtFiles`; an unassigned
world ID reads as `unassigned`. -/
def districtEnv (unassigned : WorldID) : Env :=
  ⟨exampleEnv.getResource, exampleEnv.joinPaths, districtFiles, 16, unassigned⟩

/-! ## Notions used to state the properties of the ID allocation -/

/-- The keys of `loadedWorlds`, in insertion order. -/
def loadedKeys (s : WorldLoader) : List WorldID := s.loadedWorlds.map Prod.fst

/-- Every key of `loadedWorlds` is an ID that `generateWorldID` has returned: it lies
between 0 and the counter. -/
def KeysBelow (s : WorldLoader) : Prop :=
  ∀ e ∈ s.loadedWorlds, 0 ≤ e.1 ∧ e.1 < s.lastWorldID

/-- The interior world IDs of the buildings recorded in all loaded worlds. -/
def buildingIDs (s : WorldLoader) : List WorldID :=
  s.loadedWorlds.flatMap (fun e => e.2.buildings.map (fun b => b.insideWorldID))

/-- The ID allocation is sound: no key of `loadedWorlds` occurs twice, every key and every
interior world ID of a building is below the counter, and no two buildings of the loaded
worlds have the same interior world ID. -/
def Allocated (s : WorldLoader) : Prop :=
  (loadedKeys s).Nodup ∧ KeysBelow s ∧ (buildingIDs s).Nodup ∧
    ∀ id ∈ buildingIDs s, 0 ≤ id ∧ id < s.lastWorldID

instance (s : WorldLoader) : Decidable (KeysBelow s) := by
  unfold KeysBelow; infer_instance

instance (s : WorldLoader) : Decidable (Allocated s) := by
  unfold Allocated; infer_instance

/-- No door of positive ID of a loaded world has the named-world tag. -/
def NoNamedDoors (s : WorldLoader) : Prop :=
  ∀ e ∈ s.loadedWorlds, ∀ d ∈ e.2.doors, 0 < d.doorID →
    d.doorTag ≠ DoorTag.DOORTAG_WORLD_NAME

instance (s : WorldLoader) : Decidable (NoNamedDoors s) := by
  unfold NoNamedDoors; infer_instance

/-- The number of loaded worlds whose key is not in the set `visited`. -/
def unvisited (s : WorldLoader) (visited : List WorldID) : Nat :=
  (loadedKeys s).countP (fun k => decide (k ∉ visited))

/-- What a run of the discovery may end with when it does not run out of fuel: a state in
which every entry has its key as world ID, no door of positive ID has the named-world tag,
the keys are `keys` and the worlds of `visited` are visited; or a null dereference. -/
def DiscoveryEnds (keys : List WorldID) (visited : List WorldID) :
    Except Fault (WorldLoader × List WorldID) → Prop
  | .ok st => WellKeyed st.1 ∧ NoNamedDoors st.1 ∧ loadedKeys st.1 = keys ∧ visited ⊆ st.2
  | .error e => e = Fault.nullDereference

/-- The write `door.worldID = id` of the discovery. -/
def setWorldID (id : WorldID) (d : UnloadedDoor) : UnloadedDoor :=
  ⟨d.tile, d.doorID, d.doorTag, d.worldName, d.worldShare, id⟩

/-- Door `door` of world `main` is resolved in loader `s`: it has the direct-world-id tag
and the world ID of the first building of `main` whose bounds contain its tile, and the
interior map of that building is loaded under that ID. -/
def DoorResolved (env : Env) (s : WorldLoader) (main : LoadedWorld) (door : UnloadedDoor) :
    Prop :=
  door.doorTag = DoorTag.DOORTAG_WORLD_ID ∧
  ∃ b, findDoorBuilding main door = some b ∧ door.worldID = b.insideWorldID ∧
    ∃ interior, getLoadedWorld s b.insideWorldID = some interior ∧
      interior.world = some ⟨b.insideWorldID, getWorldFilePath env b.insideWorldName true⟩

/-- Every door of the world registered under ID 0 is resolved. -/
def MainDoorsResolved (env : Env) (s : WorldLoader) : Prop :=
  ∃ main, getLoadedWorld s 0 = some main ∧ ∀ door ∈ main.doors, DoorResolved env s main door

/-! ## Notions used to state the properties of the world tree -/

mutual
/-- The values of the nodes of a tree, the root first. -/
def WorldTreeNode.worlds : WorldTreeNode → List (Option World)
  | .mk _ v cs => v :: worldsOfNodes cs
/-- The values of the nodes of a list of trees. -/
def worldsOfNodes : List WorldTreeNode → List (Option World)
  | [] => []
  | n :: ns => n.worlds ++ worldsOfNodes ns
end

/-- The bounding box of two rectangles, in the words of the specification: the minimum of
the lefts and of the tops, the maximum of the right edges and of the bottom edges. -/
def boundingBox (a b : Rect) : Rect :=
  ⟨min a.left b.left, min a.top b.top,
    max (a.left + a.width) (b.left + b.width) - min a.left b.left,
    max (a.top + a.height) (b.top + b.height) - min a.top b.top⟩

/-- The unit tiles `(x, y)`, `(x + 1, y)`, ... of a run of `n` tiles of row `y`. -/
def rowTiles (ts : Int) (x y : Nat) : Nat → List Rect
  | 0 => []
  | n + 1 => unitTile ts x y :: rowTiles ts (x + 1) y n

/-- The unit tiles of the solid block of `w` by `h` tiles whose top-left tile is
`(x0, y0)`, row by row, as `findCollidableTiles` pushes them. -/
def blockTiles (ts : Int) (x0 y0 w : Nat) : Nat → List Rect
  | 0 => []
  | h + 1 => rowTiles ts x0 y0 w ++ blockTiles ts x0 (y0 + 1) w h

/-- The rectangles of the `h` rows of a block of width `w` tiles, from row `y` on. -/
def rowRects (ts : Int) (x0 y w : Nat) : Nat → List Rect
  | 0 => []
  | h + 1 => ⟨(x0 : Int) * ts, (y : Int) * ts, (w : Int) * ts, ts⟩ :: rowRects ts x0 (y + 1) w h

/-- Further example map files, on top of `districtFiles`. The outdoor maps have one building
of 4 by 4 tiles at tile (2, 2). -/
def suburbFiles (path : String) : TileMap :=
  if path = "world/town_nested.tmx" then
    buildingsMap [buildingMarker 32 32 64 64 "nested", doorMarker 48 96 1 none none none]
  else if path = "buildings/nested.tmx" then
    buildingsMap [doorMarker 16 32 (-1) none none none, buildingMarker 64 64 32 32 "cellar"]
  else if path = "world/town_back.tmx" then
    buildingsMap [buildingMarker 32 32 64 64 "shop", doorMarker 48 96 1 none none none,
      doorMarker 64 96 (-2) none none none]
  else if path = "world/town_stray.tmx" then
    buildingsMap [buildingMarker 32 32 64 64 "stray", doorMarker 48 96 1 none none none]
  else if path = "buildings/stray.tmx" then
    buildingsMap [doorMarker 16 32 (-1) none none none, doorMarker 64 32 2 (some 9) none none]
  else districtFiles path

/-- The collaborators of `exampleEnv` with the map files of `suburbFiles`; an unassigned
world ID reads as 77. -/
def suburbEnv : Env :=
  ⟨exampleEnv.getResource, exampleEnv.joinPaths, suburbFiles, 16, 77⟩

/-! ## Notions used to state the properties of the parent pointers -/

mutual
/-- The nodes of a tree in the order in which `connectDoors` creates them (a node before
its children, the children in turn, each with its subtree): for each node the parent
pointer and the value. -/
def WorldTreeNode.links : WorldTreeNode → List (Option (Option World) × Option World)
  | .mk p v cs => (p, v) :: linksOfNodes cs
/-- The nodes of a list of trees, in the order of their creation. -/
def linksOfNodes : List WorldTreeNode → List (Option (Option World) × Option World)
  | [] => []
  | n :: ns => n.links ++ linksOfNodes ns
end

mutual
/-- Below this node every node has a parent, and the parent is the node that holds it
among its children: the parent pointer of every child points to a node with the value of
the holder, and so on in the subtree of every child. -/
def WorldTreeNode.parentsLinked : WorldTreeNode → Bool
  | .mk _ v cs => childrenLinked v cs
/-- The nodes of the list have a holder of value `v` as parent, and their subtrees are
linked. -/
def childrenLinked (v : Option World) : List WorldTreeNode → Bool
  | [] => true
  | n :: ns => decide (n.parent = some v) && n.parentsLinked && childrenLinked v ns
end

/-- The parent pointer of the node at which the world with ID `k` is first reached: the
first node, in the order of creation, whose value is a world with ID `k`. The connection
pass works through the doors of a world at that node, all later nodes of the same world
are left as they are created. -/
def firstParent (links : List (Option (Option World) × Option World)) (k : WorldID) :
    Option (Option (Option World)) :=
  (links.find? (fun l => decide (l.2.map World.id = some k))).map Prod.fst

/-- World `id` is reachable from world `r`: there is a chain of doors of positive ID of
loaded worlds that leads from `r` to `id`, each door leading to the world `door.worldID`. -/
inductive Reachable (s : WorldLoader) (r : WorldID) : WorldID → Prop
  | root : Reachable s r r
  | door (k : WorldID) (lw : LoadedWorld) (d : UnloadedDoor) :
      Reachable s r k → getLoadedWorld s k = some lw → d ∈ lw.doors → 0 < d.doorID →
      Reachable s r d.worldID

/-- A connection `e` leads from a door of a loaded world, keyed by the world ID and the
tile of the door, to the partner door (the first door with the negated ID) in the
neighbouring world: the world `door.worldID` for a door of positive ID, and for any
other door the world that is the value of the parent of the node at which the world of
the door is first reached (`links` are the nodes of the world tree). -/
def ValidEntry (s : WorldLoader) (links : List (Option (Option World) × Option World))
    (e : Location × Location) : Prop :=
  ∃ (k : WorldID) (lw : LoadedWorld) (door : UnloadedDoor) (c : WorldID) (cw : LoadedWorld)
    (target : UnloadedDoor),
    getLoadedWorld s k = some lw ∧ door ∈ lw.doors ∧ e.1 = ⟨k, door.tile⟩ ∧
    getLoadedWorld s c = some cw ∧ (0 < door.doorID → c = door.worldID) ∧
    (door.doorID ≤ 0 → ∃ p, firstParent links k = some (some (some p)) ∧ c = p.id) ∧
    findPartnerDoor cw door.doorID = some target ∧ e.2 = ⟨c, target.tile⟩

/-- A valid connection whose neighbouring world, for a door of positive ID, is one of the
worlds `visited`. -/
def VisitedEntry (s : WorldLoader) (links : List (Option (Option World) × Option World))
    (visited : List WorldID) (e : Location × Location) : Prop :=
  ∃ (k : WorldID) (lw : LoadedWorld) (door : UnloadedDoor) (c : WorldID) (cw : LoadedWorld)
    (target : UnloadedDoor),
    getLoadedWorld s k = some lw ∧ door ∈ lw.doors ∧ e.1 = ⟨k, door.tile⟩ ∧
    getLoadedWorld s c = some cw ∧ (0 < door.doorID → c = door.worldID ∧ c ∈ visited) ∧
    (door.doorID ≤ 0 → ∃ p, firstParent links k = some (some (some p)) ∧ c = p.id) ∧
    findPartnerDoor cw door.doorID = some target ∧ e.2 = ⟨c, target.tile⟩

/-- A part of the connection pass, working at a node with parent pointer and value `head`,
turned state `cs` into `cs'` and created `newNodes` below the node: the worlds newly
visited were not visited before, are loaded and are reachable from `r0`; the value of every new node is
the world of a loaded entry and is visited; and every connection inserted is valid with
respect to the nodes created, and lies in the world `own` or in a newly visited one. -/
def LinksGrow (loader : WorldLoader) (r0 : WorldID)
    (head : Option (Option World) × Option World) (own : Option WorldID)
    (cs cs' : ConnectState) (newNodes : List WorldTreeNode) : Prop :=
  ∃ newV : List WorldID,
    cs'.visitedWorlds = newV ++ cs.visitedWorlds ∧
    (∀ v ∈ newV, v ∉ cs.visitedWorlds ∧ Reachable loader r0 v ∧
      (getLoadedWorld loader v).isSome = true) ∧
    (∀ l ∈ linksOfNodes newNodes, ∃ v lw, l.2 = some v ∧
      getLoadedWorld loader v.id = some lw ∧ lw.world = some v ∧ v.id ∈ cs'.visitedWorlds) ∧
    (∀ e ∈ cs'.connectionLookup, e ∈ cs.connectionLookup ∨
      (VisitedEntry loader (head :: linksOfNodes newNodes) cs'.visitedWorlds e ∧
        (own = some e.1.world ∨ e.1.world ∈ newV)))

/-! # Lemmas -/

/-! ## Sorting lemmas -/

theorem orderedInsert_perm (lt : Rect → Rect → Bool) (a : Rect) (l : List Rect) :
    (orderedInsert lt a l).Perm (a :: l) := by
  induction l with
  | nil => simp [orderedInsert]
  | cons b l ih =>
    unfold orderedInsert
    split
    · exact (List.Perm.cons b ih).trans (List.Perm.swap a b l)
    · exact List.Perm.refl _

theorem sortRects_perm (lt : Rect → Rect → Bool) (l : List Rect) :
    (sortRects lt l).Perm l := by
  induction l with
  | nil => simp [sortRects]
  | cons a l ih =>
    unfold sortRects
    exact (orderedInsert_perm lt a _).trans (List.Perm.cons a ih)

theorem mem_sortRects (lt : Rect → Rect → Bool) (l : List Rect) (r : Rect) :
    r ∈ sortRects lt l ↔ r ∈ l :=
  (sortRects_perm lt l).mem_iff

/-- A comparator is a strict weak order in the sense `std::sort` asks for. -/
structure StrictWeak (lt : Rect → Rect → Bool) : Prop where
  asymm : ∀ a b, lt a b = true → lt b a = false
  negTrans : ∀ a b c, lt b a = false → lt c b = false → lt c a = false

theorem strictWeak_horizontal : StrictWeak compareRectsHorizontally := by
  constructor
  · intro a b; simp only [compareRectsHorizontally]; split_ifs <;> simp <;> omega
  · intro a b c; simp only [compareRectsHorizontally]; split_ifs <;> simp <;> omega

theorem strictWeak_vertical : StrictWeak compareRectsVertically := by
  constructor
  · intro a b; simp only [compareRectsVertically]; split_ifs <;> simp <;> omega
  · intro a b c; simp only [compareRectsVertically]; split_ifs <;> simp <;> omega

theorem orderedInsert_sorted (lt : Rect → Rect → Bool) (h : StrictWeak lt) (a : Rect)
    (l : List Rect) (hl : l.Pairwise (fun x y => lt y x = false)) :
    (orderedInsert lt a l).Pairwise (fun x y => lt y x = false) := by
  induction l with
  | nil => simp [orderedInsert]
  | cons b l ih =>
    rw [List.pairwise_cons] at hl
    unfold orderedInsert
    split
    · rename_i hba
      rw [List.pairwise_cons]
      refine ⟨?_, ih hl.2⟩
      intro y hy
      rcases List.mem_cons.mp ((orderedInsert_perm lt a l).mem_iff.mp hy) with hy | hy
      · subst hy; exact h.asymm b y hba
      · exact hl.1 y hy
    · rename_i hba
      have hba : lt b a = false := by simpa using hba
      rw [List.pairwise_cons]
      refine ⟨?_, List.pairwise_cons.mpr hl⟩
      intro y hy
      rcases List.mem_cons.mp hy with hy | hy
      · subst hy; exact hba
      · exact h.negTrans a b y hba (hl.1 y hy)

theorem sortRects_sorted (lt : Rect → Rect → Bool) (h : StrictWeak lt) (l : List Rect) :
    (sortRects lt l).Pairwise (fun x y => lt y x = false) := by
  induction l with
  | nil => simp [sortRects]
  | cons a l ih => unfold sortRects; exact orderedInsert_sorted lt h a _ ih

/-! ## Sweep lemmas -/

/-- A rectangle that is far, in both directions, from its two neighbours in the swept list
is pushed unchanged. -/
theorem mem_sweep_of_far (far : Rect → Rect → Bool) (T p : Rect) (post : List Rect)
    (hTp : far T p = true) :
    ∀ (pre : List Rect) (current lastRect : Rect),
      (∀ r ∈ lastRect :: pre, far r T = true) →
      T ∈ sweep far current lastRect (pre ++ T :: p :: post) := by
  intro pre
  induction pre with
  | nil =>
    intro current lastRect h
    have h1 : far lastRect T = true := h lastRect (by simp)
    simp [sweep, h1, hTp]
  | cons r pre ih =>
    intro current lastRect h
    have h2 : ∀ x ∈ r :: pre, far x T = true := fun x hx => h x (List.mem_cons_of_mem _ hx)
    simp only [List.cons_append, sweep]
    split
    · exact List.mem_cons_of_mem _ (ih r r h2)
    · exact ih _ r h2

theorem mem_mergeHelper_of_far (ts : Int) (b : Bool) (T : Rect) (pre post : List Rect)
    (hpre : ∀ r ∈ pre, nextRowFunc ts b r T = true)
    (hpost : ∀ r ∈ post, nextRowFunc ts b T r = true)
    (hs : nextRowFunc ts b T sentinel = true) :
    T ∈ mergeHelper ts (pre ++ T :: post) b := by
  have hnext : ∃ p rest, post ++ [sentinel] = p :: rest ∧ nextRowFunc ts b T p = true := by
    cases post with
    | nil => exact ⟨sentinel, [], rfl, hs⟩
    | cons p post => exact ⟨p, post ++ [sentinel], rfl, hpost p (by simp)⟩
  obtain ⟨p, rest, hp, hTp⟩ := hnext
  unfold mergeHelper
  cases pre with
  | nil =>
    simp only [List.nil_append, List.cons_append, hp, sweep, hTp, if_true]
    exact List.mem_cons_self _ _
  | cons a pre =>
    simp only [List.cons_append, List.append_assoc, hp]
    exact mem_sweep_of_far _ T p rest hTp pre a a hpre

/-- A property of the current accumulator and of the swept rectangles, the last apart,
that is kept by stretching holds for every rectangle pushed. -/
theorem sweep_forall (far : Rect → Rect → Bool) (P : Rect → Prop)
    (hP : ∀ a b, P a → P b → P (stretch a b)) (z : Rect) :
    ∀ (body : List Rect) (current lastRect : Rect), P current → (∀ r ∈ body, P r) →
      ∀ o ∈ sweep far current lastRect (body ++ [z]), P o := by
  intro body
  induction body with
  | nil =>
    intro current lastRect hc _ o ho
    simp only [List.nil_append, sweep] at ho
    split at ho
    · simp at ho; subst ho; exact hc
    · simp at ho
  | cons r body ih =>
    intro current lastRect hc hb o ho
    have hr : P r := hb r (by simp)
    have hb2 : ∀ x ∈ body, P x := fun x hx => hb x (List.mem_cons_of_mem _ hx)
    simp only [List.cons_append, sweep] at ho
    split at ho
    · rcases List.mem_cons.mp ho with ho | ho
      · subst ho; exact hc
      · exact ih r r hr hb2 o ho
    · exact ih _ r (hP _ _ hc hr) hb2 o ho

theorem mergeHelper_forall (ts : Int) (b : Bool) (P : Rect → Prop)
    (hP : ∀ a b, P a → P b → P (stretch a b)) (l : List Rect) (hl : ∀ r ∈ l, P r) :
    ∀ o ∈ mergeHelper ts l b, P o := by
  unfold mergeHelper
  cases l with
  | nil => intro o ho; simp [sweep] at ho
  | cons a l =>
    simp only [List.cons_append]
    exact sweep_forall _ P hP sentinel l a a (hl a (by simp))
      (fun r hr => hl r (List.mem_cons_of_mem _ hr))

/-- When every rectangle is far from its predecessor, nothing is merged: the sweep pushes
all rectangles but the last. -/
theorem sweep_of_all_far (far : Rect → Rect → Bool) (z : Rect) :
    ∀ (body : List Rect) (c : Rect),
      (List.Chain (fun a b => far a b = true) c (body ++ [z])) →
      sweep far c c (body ++ [z]) = c :: body := by
  intro body
  induction body with
  | nil =>
    intro c h
    simp only [List.nil_append, List.chain_cons] at h
    simp [sweep, h.1]
  | cons r body ih =>
    intro c h
    simp only [List.cons_append, List.chain_cons] at h
    have e := ih r h.2
    simp only [List.cons_append, sweep, h.1, if_true]
    exact congrArg (List.cons c) e

/-! ## Unit tiles and the two predicates -/

theorem far_unit_iff (ts : Int) (h0 : 0 < ts) (x y x' y' : Nat) :
    nextRowFunc ts true (unitTile ts x y) (unitTile ts x' y') = true ↔
      1 < ((x' : Int) - x) ^ 2 + ((y' : Int) - y) ^ 2 := by
  have hq : 0 < ts * ts := mul_pos h0 h0
  have e : ((x' : Int) * ts - x * ts) ^ 2 + ((y' : Int) * ts - y * ts) ^ 2
      = (((x' : Int) - x) ^ 2 + ((y' : Int) - y) ^ 2) * (ts * ts) := by ring
  simp only [nextRowFunc, unitTile, if_true, decide_eq_true_eq, gt_iff_lt, e]
  constructor
  · intro h
    by_contra hc
    have hc : ((x' : Int) - x) ^ 2 + ((y' : Int) - y) ^ 2 ≤ 1 := by omega
    nlinarith
  · intro h
    nlinarith

theorem compareRectsHorizontally_unit (ts : Int) (h0 : 0 < ts) (x y x' y' : Nat)
    (h : compareRectsHorizontally (unitTile ts x' y') (unitTile ts x y) = false) :
    y < y' ∨ (y = y' ∧ x ≤ x') := by
  simp only [compareRectsHorizontally, unitTile] at h
  split_ifs at h with h1 h2 h3 h4
  · have : (y : Int) < y' := lt_of_mul_lt_mul_right h2 h0.le
    omega
  · have e1 : (y : Int) * ts = y' * ts := by omega
    have e2 : (y : Int) = y' := mul_right_cancel₀ h0.ne' e1
    have : (x : Int) < x' := lt_of_mul_lt_mul_right h4 h0.le
    omega
  · have e1 : (y : Int) * ts = y' * ts := by omega
    have e2 : (y : Int) = y' := mul_right_cancel₀ h0.ne' e1
    have e3 : (x : Int) * ts = x' * ts := by omega
    have e4 : (x : Int) = x' := mul_right_cancel₀ h0.ne' e3
    omega

theorem unitTile_injective (ts : Int) (h0 : 0 < ts) (x y x' y' : Nat)
    (h : unitTile ts x y = unitTile ts x' y') : x = x' ∧ y = y' := by
  simp only [unitTile, Rect.mk.injEq, and_self, and_true] at h
  have e2 : (x : Int) = x' := mul_right_cancel₀ h0.ne' h.1
  have e4 : (y : Int) = y' := mul_right_cancel₀ h0.ne' h.2
  omega

theorem step_of_sorted (ts : Int) (h0 : 0 < ts) (x y x' y' : Nat)
    (hle : compareRectsHorizontally (unitTile ts x' y') (unitTile ts x y) = false)
    (hne : unitTile ts x y ≠ unitTile ts x' y') :
    Step ts (unitTile ts x y) (unitTile ts x' y') := by
  have hord := compareRectsHorizontally_unit ts h0 x y x' y' hle
  have hne2 : ¬ (x = x' ∧ y = y') := by
    rintro ⟨rfl, rfl⟩; exact hne rfl
  by_cases hfar : nextRowFunc ts true (unitTile ts x y) (unitTile ts x' y') = true
  · exact Or.inl hfar
  · right
    rw [far_unit_iff ts h0] at hfar
    have hK : ((x' : Int) - x) ^ 2 + ((y' : Int) - y) ^ 2 ≤ 1 := by omega
    have hx1 : (x' : Int) - x ≤ 1 := by nlinarith [sq_nonneg ((y' : Int) - y)]
    have hx2 : -1 ≤ (x' : Int) - x := by nlinarith [sq_nonneg ((y' : Int) - y)]
    have hy1 : (y' : Int) - y ≤ 1 := by nlinarith [sq_nonneg ((x' : Int) - x)]
    have hcases : (y' = y ∧ x' = x + 1) ∨ (y' = y + 1 ∧ x' = x) := by
      rcases hord with hlt | ⟨he, hxx⟩
      · right
        refine ⟨by omega, ?_⟩
        have hy : (y' : Int) - y = 1 := by omega
        rw [hy] at hK
        have : ((x' : Int) - x) ^ 2 ≤ 0 := by omega
        have : (x' : Int) - x = 0 := by nlinarith
        omega
      · left; omega
    rcases hcases with ⟨rfl, rfl⟩ | ⟨rfl, rfl⟩
    · left
      simp only [stretch, unitTile]
      push_cast
      have : ((x : Int) + 1) * ts = x * ts + ts := by ring
      rw [this]
      omega
    · right
      simp only [stretch, unitTile]
      push_cast
      have : ((y : Int) + 1) * ts = y * ts + ts := by ring
      rw [this]
      omega

theorem big_stretch (ts : Int) (a b : Rect) (h : Big ts a) : Big ts (stretch a b) := by
  unfold Big stretch at *
  simp only
  omega

theorem far_sentinel (ts : Int) (h0 : 0 < ts) (h1 : ts * ts < 20000) (x y : Nat) :
    nextRowFunc ts true (unitTile ts x y) sentinel = true := by
  simp only [nextRowFunc, unitTile, sentinel, if_true, decide_eq_true_eq, gt_iff_lt]
  have hx : 0 ≤ (x : Int) * ts := mul_nonneg (by omega) h0.le
  have hy : 0 ≤ (y : Int) * ts := mul_nonneg (by omega) h0.le
  nlinarith

/-! ## The first sweep on sorted unit tiles -/

theorem chain_append_singleton {R : Rect → Rect → Prop} (z : Rect) :
    ∀ (l : List Rect) (a : Rect), List.Chain R a l → (∀ x ∈ a :: l, R x z) →
      List.Chain R a (l ++ [z]) := by
  intro l
  induction l with
  | nil => intro a _ h; simpa using h a (by simp)
  | cons b l ih =>
    intro a hc h
    rw [List.chain_cons] at hc
    simp only [List.cons_append, List.chain_cons]
    exact ⟨hc.1, ih b hc.2 (fun x hx => h x (List.mem_cons_of_mem _ hx))⟩

/-- A rectangle that is not `Big` is pushed by the first sweep at most as often as it
occurs among the swept rectangles: stretched accumulators are `Big`. -/
theorem count_sweep_le (ts : Int) (T : Rect) (hT : ¬ Big ts T) :
    ∀ (rest : List Rect) (current lastRect : Rect),
      (current = lastRect ∨ Big ts current) → List.Chain (Step ts) lastRect rest →
      List.count T (sweep (nextRowFunc ts true) current lastRect rest)
        ≤ List.count T (current :: rest) := by
  intro rest
  induction rest with
  | nil => intro current lastRect _ _; simp [sweep]
  | cons r rest ih =>
    intro current lastRect hc hch
    rw [List.chain_cons] at hch
    unfold sweep
    split
    · have h := ih r r (Or.inl rfl) hch.2
      rw [List.count_cons, List.count_cons (a := T) (b := current)]
      omega
    · rename_i hfar
      have hbig : Big ts (stretch current r) := by
        rcases hc with rfl | hb
        · rcases hch.1 with hf | hb
          · exact absurd hf hfar
          · exact hb
        · exact big_stretch ts _ _ hb
      have hne : stretch current r ≠ T := by
        intro e; rw [e] at hbig; exact hT hbig
      have h := ih (stretch current r) r (Or.inr hbig) hch.2
      rw [List.count_cons_of_ne (Ne.symm hne)] at h
      rw [List.count_cons, List.count_cons (a := T) (b := r)]
      omega

theorem not_big_unitTile (ts : Int) (h0 : 0 < ts) (x y : Nat) : ¬ Big ts (unitTile ts x y) := by
  unfold Big unitTile
  simp only
  omega

/-- On sorted unit tiles, a rectangle of one tile is pushed by the first sweep at most
once, and only if it is one of the tiles. -/
theorem count_phase1_le (ts : Int) (h0 : 0 < ts) (h1 : ts * ts < 20000) (tiles : List Rect)
    (hu : UnitTiles ts tiles) (T : Rect) (hT : ¬ Big ts T) :
    List.count T (mergeHelper ts (sortRects compareRectsHorizontally tiles) true)
      ≤ List.count T (tiles ++ [sentinel]) := by
  have hperm := sortRects_perm compareRectsHorizontally tiles
  have hsorted := sortRects_sorted compareRectsHorizontally strictWeak_horizontal tiles
  have hnodup : (sortRects compareRectsHorizontally tiles).Nodup := hperm.nodup_iff.mpr hu.1
  have hunit : ∀ r ∈ sortRects compareRectsHorizontally tiles, ∃ x y : Nat, r = unitTile ts x y :=
    fun r hr => hu.2 r (hperm.mem_iff.mp hr)
  have hcount : List.count T (tiles ++ [sentinel])
      = List.count T (sortRects compareRectsHorizontally tiles ++ [sentinel]) := by
    rw [List.count_append, List.count_append, hperm.count_eq]
  rw [hcount]
  generalize sortRects compareRectsHorizontally tiles = l at hsorted hnodup hunit
  unfold mergeHelper
  cases l with
  | nil => simp [sweep]
  | cons a l =>
    simp only [List.cons_append]
    apply count_sweep_le ts T hT _ a a (Or.inl rfl)
    apply chain_append_singleton
    · have hpw : List.Pairwise (Step ts) (a :: l) := by
        have h3 : List.Pairwise (fun p q : Rect =>
            compareRectsHorizontally q p = false ∧ p ≠ q) (a :: l) :=
          hsorted.and hnodup
        refine List.Pairwise.imp_of_mem ?_ h3
        intro p q hp hq hpq
        obtain ⟨x, y, rfl⟩ := hunit p hp
        obtain ⟨x', y', rfl⟩ := hunit q hq
        exact step_of_sorted ts h0 x y x' y' hpq.1 hpq.2
      exact List.Pairwise.chain hpw
    · intro p hp
      obtain ⟨x, y, rfl⟩ := hunit p hp
      exact Or.inl (far_sentinel ts h0 h1 x y)

/-! ## An isolated tile -/

theorem far_of_apart (ts : Int) (h0 : 0 < ts) (x y x' y' : Nat)
    (h : x' + 1 < x ∨ x + 1 < x' ∨ y' + 1 < y ∨ y + 1 < y') (b : Bool) :
    nextRowFunc ts b (unitTile ts x y) (unitTile ts x' y') = true := by
  cases b with
  | true =>
    rw [far_unit_iff ts h0]
    rcases h with h | h | h | h
    · have : (2 : Int) ≤ x - x' := by omega
      nlinarith [sq_nonneg ((y' : Int) - y)]
    · have : (2 : Int) ≤ x' - x := by omega
      nlinarith [sq_nonneg ((y' : Int) - y)]
    · have : (2 : Int) ≤ y - y' := by omega
      nlinarith [sq_nonneg ((x' : Int) - x)]
    · have : (2 : Int) ≤ y' - y := by omega
      nlinarith [sq_nonneg ((x' : Int) - x)]
  | false =>
    simp only [nextRowFunc, unitTile, Bool.false_eq_true, if_false, Bool.not_eq_true',
      Bool.and_eq_false_iff, decide_eq_false_iff_not, not_le]
    rcases h with h | h | h | h
    · have : ((x' : Int) + 2) * ts ≤ x * ts :=
        mul_le_mul_of_nonneg_right (by omega) h0.le
      have e : ((x' : Int) + 2) * ts = x' * ts + 2 * ts := by ring
      left; left; left; left; left; omega
    · have : ((x : Int) + 2) * ts ≤ x' * ts :=
        mul_le_mul_of_nonneg_right (by omega) h0.le
      have e : ((x : Int) + 2) * ts = x * ts + 2 * ts := by ring
      left; left; left; left; right; omega
    · have : ((y' : Int) + 2) * ts ≤ y * ts :=
        mul_le_mul_of_nonneg_right (by omega) h0.le
      have e : ((y' : Int) + 2) * ts = y' * ts + 2 * ts := by ring
      left; left; left; right; omega
    · have : ((y : Int) + 2) * ts ≤ y' * ts :=
        mul_le_mul_of_nonneg_right (by omega) h0.le
      have e : ((y : Int) + 2) * ts = y * ts + 2 * ts := by ring
      left; left; right; omega

theorem far_of_big (ts : Int) (h0 : 0 < ts) (x y : Nat) (r : Rect) (hr : Big ts r) :
    nextRowFunc ts false (unitTile ts x y) r = true ∧
      nextRowFunc ts false r (unitTile ts x y) = true := by
  unfold Big at hr
  simp only [nextRowFunc, unitTile, Bool.false_eq_true, if_false, Bool.not_eq_true',
    Bool.and_eq_false_iff, decide_eq_false_iff_not, not_le]
  constructor
  · by_cases hw : ts = r.width
    · right; omega
    · left; right; exact hw
  · by_cases hw : r.width = ts
    · right; omega
    · left; right; exact hw

theorem far_sentinel_second (ts : Int) (h0 : 0 < ts) (x y : Nat) :
    nextRowFunc ts false (unitTile ts x y) sentinel = true ∧
      nextRowFunc ts false sentinel (unitTile ts x y) = true := by
  simp only [nextRowFunc, unitTile, sentinel, Bool.false_eq_true, if_false, Bool.not_eq_true',
    Bool.and_eq_false_iff, decide_eq_false_iff_not, not_le]
  constructor
  · right; omega
  · right; omega

/-- The other tiles of a grid in which tile `(x, y)` has no neighbour are far from it for
both predicates, in both directions. -/
theorem far_of_isolated (ts : Int) (h0 : 0 < ts) (tiles : List Rect) (hu : UnitTiles ts tiles)
    (x y : Nat) (hiso : ∀ x' y', EightNeighbours x y x' y' → unitTile ts x' y' ∉ tiles)
    (r : Rect) (hr : r ∈ tiles) (hne : r ≠ unitTile ts x y) (b : Bool) :
    nextRowFunc ts b r (unitTile ts x y) = true ∧
      nextRowFunc ts b (unitTile ts x y) r = true := by
  obtain ⟨x', y', rfl⟩ := hu.2 r hr
  have hnot : ¬ EightNeighbours x y x' y' := fun hn => hiso x' y' hn hr
  have hxy : x' ≠ x ∨ y' ≠ y := by
    by_contra hc
    have : x' = x ∧ y' = y := by omega
    exact hne (by rw [this.1, this.2])
  have hap : x' + 1 < x ∨ x + 1 < x' ∨ y' + 1 < y ∨ y + 1 < y' := by
    by_contra hc
    exact hnot ⟨hxy, by omega, by omega, by omega, by omega⟩
  exact ⟨far_of_apart ts h0 x' y' x y (by omega) b, far_of_apart ts h0 x y x' y' hap b⟩

theorem not_mem_of_count_le_one (T : Rect) (pre post : List Rect)
    (h : List.count T (pre ++ T :: post) ≤ 1) : T ∉ pre ∧ T ∉ post := by
  rw [List.count_append, List.count_cons_self] at h
  constructor
  · intro hm
    have := List.count_pos_iff.mpr hm
    omega
  · intro hm
    have := List.count_pos_iff.mpr hm
    omega

theorem merge_single (ts : Int) (h0 : 0 < ts) (h1 : ts * ts < 20000) (x y : Nat) :
    mergeAdjacentTiles ts [unitTile ts x y] = [unitTile ts x y] := by
  have f1 := far_sentinel ts h0 h1 x y
  have f2 := (far_sentinel_second ts h0 x y).1
  simp [mergeAdjacentTiles, mergeHelper, sortRects, orderedInsert, sweep, f1, f2]

theorem isolated_tile_mem (ts : Int) (h0 : 0 < ts) (h1 : ts * ts < 20000) (tiles : List Rect)
    (hu : UnitTiles ts tiles) (x y : Nat) (hmem : unitTile ts x y ∈ tiles)
    (hiso : ∀ x' y', EightNeighbours x y x' y' → unitTile ts x' y' ∉ tiles) :
    unitTile ts x y ∈ mergeAdjacentTiles ts tiles := by
  have hTbig := not_big_unitTile ts h0 x y
  have hperm := sortRects_perm compareRectsHorizontally tiles
  -- the tile occurs once among the tiles and the sentinel
  have hTs : unitTile ts x y ≠ sentinel := by
    intro e
    have := congrArg Rect.width e
    simp only [unitTile, sentinel] at this
    omega
  have hcount1 : List.count (unitTile ts x y) (tiles ++ [sentinel]) ≤ 1 := by
    rw [List.count_append, List.count_cons_of_ne hTs, List.count_nil]
    have := List.nodup_iff_count_le_one.mp hu.1 (unitTile ts x y)
    omega
  -- first sweep
  have hm1 : unitTile ts x y ∈ mergeHelper ts (sortRects compareRectsHorizontally tiles) true := by
    have hin : unitTile ts x y ∈ sortRects compareRectsHorizontally tiles := hperm.mem_iff.mpr hmem
    obtain ⟨pre, post, hsplit⟩ := List.append_of_mem hin
    have hc : List.count (unitTile ts x y) (pre ++ unitTile ts x y :: post) ≤ 1 := by
      rw [← hsplit, hperm.count_eq]
      exact List.nodup_iff_count_le_one.mp hu.1 _
    have hnot := not_mem_of_count_le_one _ pre post hc
    have hsub : ∀ r, r ∈ pre ∨ r ∈ post → r ∈ tiles ∧ r ≠ unitTile ts x y := by
      intro r hr
      constructor
      · apply hperm.mem_iff.mp
        rw [hsplit]
        rcases hr with hr | hr
        · exact List.mem_append_left _ hr
        · exact List.mem_append_right _ (List.mem_cons_of_mem _ hr)
      · rintro rfl
        rcases hr with hr | hr
        · exact hnot.1 hr
        · exact hnot.2 hr
    rw [hsplit]
    apply mem_mergeHelper_of_far
    · intro r hr
      exact (far_of_isolated ts h0 tiles hu x y hiso r (hsub r (Or.inl hr)).1
        (hsub r (Or.inl hr)).2 true).1
    · intro r hr
      exact (far_of_isolated ts h0 tiles hu x y hiso r (hsub r (Or.inr hr)).1
        (hsub r (Or.inr hr)).2 true).2
    · exact far_sentinel ts h0 h1 x y
  -- second sweep
  generalize hP : mergeHelper ts (sortRects compareRectsHorizontally tiles) true = rows at hm1
  have hcountP : ∀ T, ¬ Big ts T → List.count T rows ≤ List.count T (tiles ++ [sentinel]) := by
    intro T hT
    rw [← hP]
    exact count_phase1_le ts h0 h1 tiles hu T hT
  have hperm2 := sortRects_perm compareRectsVertically rows
  have hin : unitTile ts x y ∈ sortRects compareRectsVertically rows := hperm2.mem_iff.mpr hm1
  obtain ⟨pre, post, hsplit⟩ := List.append_of_mem hin
  have hc : List.count (unitTile ts x y) (pre ++ unitTile ts x y :: post) ≤ 1 := by
    rw [← hsplit, hperm2.count_eq]
    exact le_trans (hcountP _ hTbig) hcount1
  have hnot := not_mem_of_count_le_one _ pre post hc
  have hfar : ∀ r, r ∈ pre ∨ r ∈ post →
      nextRowFunc ts false r (unitTile ts x y) = true ∧
        nextRowFunc ts false (unitTile ts x y) r = true := by
    intro r hr
    have hrne : r ≠ unitTile ts x y := by
      rintro rfl
      rcases hr with hr | hr
      · exact hnot.1 hr
      · exact hnot.2 hr
    have hrrows : r ∈ rows := by
      apply hperm2.mem_iff.mp
      rw [hsplit]
      rcases hr with hr | hr
      · exact List.mem_append_left _ hr
      · exact List.mem_append_right _ (List.mem_cons_of_mem _ hr)
    by_cases hbig : Big ts r
    · exact (far_of_big ts h0 x y r hbig).symm
    · have hpos : 0 < List.count r (tiles ++ [sentinel]) :=
        lt_of_lt_of_le (List.count_pos_iff.mpr hrrows) (hcountP r hbig)
      rcases List.mem_append.mp (List.count_pos_iff.mp hpos) with hr2 | hr2
      · exact far_of_isolated ts h0 tiles hu x y hiso r hr2 hrne false
      · have : r = sentinel := by simpa using hr2
        subst this
        exact (far_sentinel_second ts h0 x y).symm
  unfold mergeAdjacentTiles
  simp only [hP]
  rw [hsplit]
  apply mem_mergeHelper_of_far
  · intro r hr; exact (hfar r (Or.inl hr)).1
  · intro r hr; exact (hfar r (Or.inr hr)).2
  · exact (far_sentinel_second ts h0 x y).1

/-! ## Two small grids -/

theorem merge_diagonal (ts : Int) (h0 : 0 < ts) :
    mergeAdjacentTiles ts [unitTile ts 1 0, unitTile ts 0 1] = [⟨0, 0, 2 * ts, ts⟩] := by
  have e1 : sortRects compareRectsHorizontally [unitTile ts 1 0, unitTile ts 0 1]
      = [unitTile ts 1 0, unitTile ts 0 1] := by
    simp [sortRects, orderedInsert, compareRectsHorizontally, unitTile, h0]
    intro h; omega
  have f1 : nextRowFunc ts true (unitTile ts 1 0) (unitTile ts 0 1) = true := by
    simp [nextRowFunc, unitTile]; nlinarith
  have f2 : nextRowFunc ts true (unitTile ts 0 1) sentinel = true := by
    simp [nextRowFunc, unitTile, sentinel]; nlinarith
  have e2 : mergeHelper ts [unitTile ts 1 0, unitTile ts 0 1] true
      = [unitTile ts 1 0, unitTile ts 0 1] := by
    simp [mergeHelper, sweep, f1, f2]
  have e3 : sortRects compareRectsVertically [unitTile ts 1 0, unitTile ts 0 1]
      = [unitTile ts 0 1, unitTile ts 1 0] := by
    simp [sortRects, orderedInsert, compareRectsVertically, unitTile, h0]
  have g1 : nextRowFunc ts false (unitTile ts 0 1) (unitTile ts 1 0) = false := by
    simp [nextRowFunc, unitTile]; omega
  have g2 : nextRowFunc ts false (unitTile ts 1 0) sentinel = true := by
    simp [nextRowFunc, unitTile, sentinel]
  have e4 : mergeHelper ts [unitTile ts 0 1, unitTile ts 1 0] false = [⟨0, 0, 2 * ts, ts⟩] := by
    simp [mergeHelper, sweep, g1, g2]
    simp [stretch, unitTile]
    omega
  simp only [mergeAdjacentTiles, e1, e2, e3, e4]

theorem merge_corner (ts : Int) (h0 : 0 < ts) :
    mergeAdjacentTiles ts [unitTile ts 0 0, unitTile ts 0 1, unitTile ts 1 1]
      = [⟨0, 0, 2 * ts, 2 * ts⟩] := by
  have e1 : sortRects compareRectsHorizontally
      [unitTile ts 0 0, unitTile ts 0 1, unitTile ts 1 1]
      = [unitTile ts 0 0, unitTile ts 0 1, unitTile ts 1 1] := by
    have hn : ¬ ts < 0 := by omega
    simp [sortRects, orderedInsert, compareRectsHorizontally, unitTile, h0, hn]
  have f1 : nextRowFunc ts true (unitTile ts 0 0) (unitTile ts 0 1) = false := by
    simp [nextRowFunc, unitTile]; nlinarith
  have f2 : nextRowFunc ts true (unitTile ts 0 1) (unitTile ts 1 1) = false := by
    simp [nextRowFunc, unitTile]; nlinarith
  have f3 : nextRowFunc ts true (unitTile ts 1 1) sentinel = true := by
    simp [nextRowFunc, unitTile, sentinel]; nlinarith
  have e2 : mergeHelper ts [unitTile ts 0 0, unitTile ts 0 1, unitTile ts 1 1] true
      = [⟨0, 0, 2 * ts, 2 * ts⟩] := by
    simp [mergeHelper, sweep, f1, f2, f3]
    simp [stretch, unitTile]
    omega
  have e3 : sortRects compareRectsVertically [(⟨0, 0, 2 * ts, 2 * ts⟩ : Rect)]
      = [⟨0, 0, 2 * ts, 2 * ts⟩] := by
    simp [sortRects, orderedInsert]
  have g2 : nextRowFunc ts false ⟨0, 0, 2 * ts, 2 * ts⟩ sentinel = true := by
    simp [nextRowFunc, sentinel]
  have e4 : mergeHelper ts [(⟨0, 0, 2 * ts, 2 * ts⟩ : Rect)] false = [⟨0, 0, 2 * ts, 2 * ts⟩] := by
    simp [mergeHelper, sweep, g2]
  simp only [mergeAdjacentTiles, e1, e2, e3, e4]

/-! ## Merging a list in which nothing can be merged -/

theorem sortRects_of_sorted (lt : Rect → Rect → Bool) :
    ∀ l : List Rect, l.Pairwise (fun x y => lt y x = false) → sortRects lt l = l := by
  intro l
  induction l with
  | nil => intro _; rfl
  | cons a l ih =>
    intro h
    rw [List.pairwise_cons] at h
    unfold sortRects
    rw [ih h.2]
    cases l with
    | nil => rfl
    | cons b l =>
      have hb : lt b a = false := h.1 b (by simp)
      simp [orderedInsert, hb]

theorem nextRowFunc_symm (ts : Int) (b : Bool) (p q : Rect) :
    nextRowFunc ts b p q = nextRowFunc ts b q p := by
  cases b with
  | true =>
    have e : (q.left - p.left) ^ 2 + (q.top - p.top) ^ 2
        = (p.left - q.left) ^ 2 + (p.top - q.top) ^ 2 := by ring
    simp only [nextRowFunc, if_true, e]
  | false =>
    simp only [nextRowFunc, Bool.false_eq_true, if_false]
    congr 1
    rw [Bool.eq_iff_iff]
    simp only [Bool.and_eq_true, decide_eq_true_eq]
    constructor <;> intro h <;> refine ⟨⟨⟨⟨⟨?_, ?_⟩, ?_⟩, ?_⟩, ?_⟩, ?_⟩ <;> omega

theorem mergeHelper_of_all_far (ts : Int) (b : Bool) (l : List Rect)
    (hpw : l.Pairwise (fun p q => nextRowFunc ts b p q = true))
    (hs : ∀ r ∈ l, nextRowFunc ts b r sentinel = true) :
    mergeHelper ts l b = l := by
  unfold mergeHelper
  cases l with
  | nil => simp [sweep]
  | cons a l =>
    simp only [List.cons_append]
    apply sweep_of_all_far
    exact chain_append_singleton sentinel l a (List.Pairwise.chain hpw) hs

theorem stretch_origin_nonneg (a b : Rect) (ha : 0 ≤ a.left ∧ 0 ≤ a.top)
    (hb : 0 ≤ b.left ∧ 0 ≤ b.top) : 0 ≤ (stretch a b).left ∧ 0 ≤ (stretch a b).top := by
  simp only [stretch]
  omega

/-- Every rectangle returned by `mergeAdjacentTiles` has a non-negative origin when the
input rectangles have. -/
theorem mergeAdjacentTiles_origin_nonneg (ts : Int) (l : List Rect)
    (hl : ∀ r ∈ l, 0 ≤ r.left ∧ 0 ≤ r.top) :
    ∀ o ∈ mergeAdjacentTiles ts l, 0 ≤ o.left ∧ 0 ≤ o.top := by
  unfold mergeAdjacentTiles
  simp only
  apply mergeHelper_forall ts false _ stretch_origin_nonneg
  intro r hr
  rw [mem_sortRects] at hr
  revert r
  apply mergeHelper_forall ts true _ stretch_origin_nonneg
  intro r hr
  rw [mem_sortRects] at hr
  exact hl r hr

/-- A list in strict `(left, top)` order, with non-negative origins, in which the two
predicates of `mergeHelper` separate any two rectangles, is returned unchanged. -/
theorem mergeAdjacentTiles_of_separated (ts : Int) (h1 : ts * ts < 20000) (M : List Rect)
    (hP : ∀ r ∈ M, 0 ≤ r.left ∧ 0 ≤ r.top)
    (hsorted : M.Pairwise (fun p q => compareRectsVertically p q = true))
    (hfar : M.Pairwise (fun p q =>
      nextRowFunc ts true p q = true ∧ nextRowFunc ts false p q = true)) :
    mergeAdjacentTiles ts M = M := by
  have hsymm : ∀ {p q : Rect},
      (nextRowFunc ts true p q = true ∧ nextRowFunc ts false p q = true) →
      (nextRowFunc ts true q p = true ∧ nextRowFunc ts false q p = true) := by
    intro p q h
    rw [nextRowFunc_symm ts true q p, nextRowFunc_symm ts false q p]; exact h
  have hperm1 := sortRects_perm compareRectsHorizontally M
  have hfar1 := (hperm1.pairwise_iff hsymm).mpr hfar
  have hs1 : ∀ r ∈ sortRects compareRectsHorizontally M,
      nextRowFunc ts true r sentinel = true := by
    intro r hr
    have := hP r (hperm1.mem_iff.mp hr)
    simp only [nextRowFunc, sentinel, if_true, decide_eq_true_eq, gt_iff_lt]
    nlinarith
  have e1 : mergeHelper ts (sortRects compareRectsHorizontally M) true
      = sortRects compareRectsHorizontally M :=
    mergeHelper_of_all_far ts true _ (hfar1.imp (fun h => h.1)) hs1
  have hperm2 : (sortRects compareRectsVertically (sortRects compareRectsHorizontally M)).Perm M :=
    (sortRects_perm compareRectsVertically _).trans hperm1
  have hfar2 := (hperm2.pairwise_iff hsymm).mpr hfar
  have hs2 : ∀ r ∈ sortRects compareRectsVertically (sortRects compareRectsHorizontally M),
      nextRowFunc ts false r sentinel = true := by
    intro r hr
    have := hP r (hperm2.mem_iff.mp hr)
    simp only [nextRowFunc, sentinel, Bool.false_eq_true, if_false, Bool.not_eq_true',
      Bool.and_eq_false_iff, decide_eq_false_iff_not, not_le]
    left; left; left; left; left; omega
  have e2 : mergeHelper ts
      (sortRects compareRectsVertically (sortRects compareRectsHorizontally M)) false
      = sortRects compareRectsVertically (sortRects compareRectsHorizontally M) :=
    mergeHelper_of_all_far ts false _ (hfar2.imp (fun h => h.2)) hs2
  have hsorted2 : (sortRects compareRectsVertically
      (sortRects compareRectsHorizontally M)).Pairwise
      (fun p q => compareRectsVertically p q = true) := by
    have hs := sortRects_sorted compareRectsVertically strictWeak_vertical
      (sortRects compareRectsHorizontally M)
    refine (hs.and hfar2).imp ?_
    intro p q h
    have hq : 0 ≤ ts * ts := mul_self_nonneg ts
    have hf := h.2.1
    have hle := h.1
    simp only [nextRowFunc, if_true, decide_eq_true_eq, gt_iff_lt] at hf
    simp only [compareRectsVertically] at hle ⊢
    by_cases hl : p.left = q.left
    · by_cases ht : p.top = q.top
      · rw [hl, ht] at hf
        simp at hf
        omega
      · split_ifs at hle ⊢ <;> first | rfl | omega
    · split_ifs at hle ⊢ <;> first | rfl | omega
  have huniq : sortRects compareRectsVertically (sortRects compareRectsHorizontally M) = M := by
    haveI : IsAntisymm Rect (fun p q => compareRectsVertically p q = true) :=
      ⟨fun p q hpq hqp => by
        have := strictWeak_vertical.asymm p q hpq
        rw [this] at hqp
        exact absurd hqp (by simp)⟩
    exact List.eq_of_perm_of_sorted hperm2 hsorted2 hsorted
  show mergeHelper ts (sortRects compareRectsVertically
    (mergeHelper ts (sortRects compareRectsHorizontally M) true)) false = M
  rw [e1, e2, huniq]

/-! ## Door tags and partner doors -/

theorem find_partner_self (a : UnloadedDoor) :
    ∀ l : List UnloadedDoor, (l.map (fun d => d.doorID)).Nodup → a ∈ l →
      l.find? (fun door => decide (door.doorID = a.doorID)) = some a := by
  intro l
  induction l with
  | nil => intro _ h; simp at h
  | cons d l ih =>
    intro hn ha
    rw [List.map_cons, List.nodup_cons] at hn
    rcases List.mem_cons.mp ha with rfl | ha
    · simp
    · have hne : d.doorID ≠ a.doorID := by
        intro e
        apply hn.1
        rw [e]
        exact List.mem_map_of_mem _ ha
      simp [List.find?_cons, hne, ih hn.2 ha]

/-! ## What `loadWorlds` returns -/

theorem loadWorldWithID_errors (env : Env) (name : String) (isBuilding : Bool) (id : WorldID)
    (s : WorldLoader) : (loadWorldWithID env name isBuilding id s).errors = s.errors := by
  unfold loadWorldWithID
  simp only
  split <;> rfl

theorem loadWorld_errors (env : Env) (name : String) (isBuilding : Bool) (s : WorldLoader) :
    (loadWorld env name isBuilding s).2.errors = s.errors := by
  unfold loadWorld
  simp only [loadWorldWithID_errors]

theorem loadBuildings_errors (env : Env) :
    ∀ (l : List UnloadedBuilding) (s : WorldLoader), (loadBuildings env l s).errors = s.errors := by
  intro l
  induction l with
  | nil => intro s; rfl
  | cons b l ih => intro s; simp only [loadBuildings, ih, loadWorldWithID_errors]

theorem modifyDoor_errors (s : WorldLoader) (key : WorldID) (i : Nat)
    (f : UnloadedDoor → UnloadedDoor) : (modifyDoor s key i f).errors = s.errors := by
  unfold modifyDoor
  split <;> rfl

theorem transferBuildingIDs_errors (key : WorldID) :
    ∀ (l : List Nat) (s : WorldLoader), (transferBuildingIDs key l s).2 = false →
      ∃ x y, (transferBuildingIDs key l s).1.errors
        = s.errors ++ [LogError.doorNotInBuilding x y] := by
  intro l
  induction l with
  | nil => intro s h; simp [transferBuildingIDs] at h
  | cons i l ih =>
    intro s h
    unfold transferBuildingIDs at h ⊢
    split at h
    · simp at h
    · split at h
      · simp at h
      · split at h
        · exact ⟨_, _, rfl⟩
        · obtain ⟨x, y, e⟩ := ih _ h
          exact ⟨x, y, by rw [e, modifyDoor_errors]⟩

theorem connectDoors_ok_world (loader : WorldLoader) (fuel : Nat)
    (node : WorldTreeNode) (world : LoadedWorld) (cs : ConnectState)
    (r : WorldTreeNode × ConnectState)
    (h : connectDoors loader fuel node world cs = .ok r) : ∃ w, world.world = some w := by
  cases fuel with
  | zero => simp [connectDoors] at h
  | succ fuel =>
    unfold connectDoors at h
    split at h
    · simp at h
    · rename_i w hw; exact ⟨w, hw⟩

/-- The two ways in which `loadWorlds` returns: with `nullptr`, after logging that the main
world failed to load or that a door of the main world is in no building; or with the
`World` of the entry registered for the main world. -/
theorem loadWorlds_cases (env : Env) (fuel : Nat) (mainWorldName : String)
    (table : WorldConnectionTable) (root : WorldTreeNode) (s : WorldLoader) (res : LoadResult)
    (h : loadWorlds env fuel mainWorldName table root s = .ok res) :
    (res.result = none ∧
      (res.loader.errors = s.errors ++ [LogError.failedMainWorld] ∨
        ∃ x y, res.loader.errors = s.errors ++ [LogError.doorNotInBuilding x y])) ∨
    (∃ w lw, res.result = some w ∧ getLoadedWorld res.loader s.lastWorldID = some lw ∧
      lw.world = some w) := by
  unfold loadWorlds at h
  simp only at h
  split at h
  · simp at h
  · split at h
    · left
      simp only [Except.ok.injEq] at h
      subst h
      refine ⟨rfl, Or.inl ?_⟩
      simp [WorldLoader.logError, loadWorld_errors]
    · split at h
      · simp at h
      · split at h
        · rename_i hfalse
          left
          simp only [Except.ok.injEq] at h
          subst h
          refine ⟨rfl, Or.inr ?_⟩
          obtain ⟨x, y, e⟩ := transferBuildingIDs_errors _ _ _ (by simpa using hfalse)
          exact ⟨x, y, by simp only [e, loadBuildings_errors, loadWorld_errors]⟩
        · split at h
          · simp at h
          · split at h
            · simp at h
            · split at h
              · simp at h
              · rename_i mainWorld2 hlook _ _ _ hconn
                right
                simp only [Except.ok.injEq] at h
                subst h
                obtain ⟨w, hw⟩ := connectDoors_ok_world _ _ _ _ _ _ hconn
                exact ⟨w, mainWorld2, hw, hlook, hw⟩

/-! ## The entries of `loadedWorlds` keep their keys -/

theorem lookup_storeWorld (id : WorldID) (w : LoadedWorld) (k : WorldID) :
    ∀ l : List (WorldID × LoadedWorld),
      List.lookup k (storeWorld id w l) = if k = id then some w else List.lookup k l := by
  intro l
  induction l with
  | nil =>
    by_cases h : k = id
    · have hb : (k == id) = true := by simpa using h
      simp [storeWorld, List.lookup, h]
    · have hb : (k == id) = false := by simpa using h
      simp [storeWorld, List.lookup, h, hb]
  | cons e l ih =>
    obtain ⟨k0, v0⟩ := e
    by_cases h0 : k0 = id
    · subst h0
      by_cases h : k = k0
      · subst h
        simp [storeWorld, List.lookup]
      · have hb : (k == k0) = false := by simpa using h
        simp [storeWorld, List.lookup, h, hb]
    · have hb0 : (k0 == id) = false := by simpa using h0
      by_cases h1 : k = k0
      · have h : ¬ k = id := by rw [h1]; exact h0
        have hb : (k == k0) = true := by simpa using h1
        simp [storeWorld, List.lookup, h, hb0, hb]
      · have hb : (k == k0) = false := by simpa using h1
        simp [storeWorld, List.lookup, hb0, hb, ih]

theorem foldl_loadItem_world (env : Env) :
    ∀ (items : List TileWrapper) (acc : LoadedWorld × WorldID),
      (items.foldl (loadItem env) acc).1.world = acc.1.world := by
  intro items
  induction items with
  | nil => intro acc; rfl
  | cons t items ih =>
    intro acc
    rw [List.foldl_cons, ih]
    unfold loadItem
    split
    · rfl
    · split
      · rfl
      · split <;> rfl

theorem wellKeyed_loadWorldWithID (env : Env) (name : String) (isBuilding : Bool)
    (id : WorldID) (s : WorldLoader) (h : WellKeyed s) :
    WellKeyed (loadWorldWithID env name isBuilding id s) := by
  intro k lw hk
  unfold loadWorldWithID getLoadedWorld at hk
  simp only at hk
  split at hk
  · simp only [lookup_storeWorld] at hk
    split at hk
    · rename_i hkid
      simp only [Option.some.injEq] at hk
      subst hk
      exact ⟨_, by rw [hkid]⟩
    · exact h k lw hk
  · simp only [lookup_storeWorld] at hk
    split at hk
    · rename_i hkid
      simp only [Option.some.injEq] at hk
      subst hk
      rw [foldl_loadItem_world]
      exact ⟨_, by rw [hkid]⟩
    · exact h k lw hk

theorem wellKeyed_loadWorld (env : Env) (name : String) (isBuilding : Bool)
    (s : WorldLoader) (h : WellKeyed s) : WellKeyed (loadWorld env name isBuilding s).2 := by
  unfold loadWorld
  apply wellKeyed_loadWorldWithID
  exact h

theorem wellKeyed_logError (s : WorldLoader) (e : LogError) (h : WellKeyed s) :
    WellKeyed (s.logError e) := h

theorem wellKeyed_modifyDoor (s : WorldLoader) (key : WorldID) (i : Nat)
    (f : UnloadedDoor → UnloadedDoor) (h : WellKeyed s) : WellKeyed (modifyDoor s key i f) := by
  unfold modifyDoor
  split
  · exact h
  · rename_i w hw
    intro k lw hk
    unfold getLoadedWorld at hk
    simp only [lookup_storeWorld] at hk
    split at hk
    · rename_i hkid
      simp only [Option.some.injEq] at hk
      subst hk
      rw [hkid]
      exact h key w hw
    · exact h k lw hk

theorem wellKeyed_loadBuildings (env : Env) :
    ∀ (l : List UnloadedBuilding) (s : WorldLoader), WellKeyed s →
      WellKeyed (loadBuildings env l s) := by
  intro l
  induction l with
  | nil => intro s h; exact h
  | cons b l ih =>
    intro s h
    exact ih _ (wellKeyed_loadWorldWithID env _ _ _ s h)

theorem wellKeyed_transferBuildingIDs (key : WorldID) :
    ∀ (l : List Nat) (s : WorldLoader), WellKeyed s →
      WellKeyed (transferBuildingIDs key l s).1 := by
  intro l
  induction l with
  | nil => intro s h; exact h
  | cons i l ih =>
    intro s h
    unfold transferBuildingIDs
    split
    · exact h
    · split
      · exact h
      · split
        · exact h
        · exact ih _ (wellKeyed_modifyDoor _ _ _ _ h)

/-- An invariant of the loader that logging, writing to a door and loading a world keep is
kept by the loop of the discovery, provided the recursive call keeps it. -/
theorem discoverDoors_invariant (env : Env) (I : WorldLoader → Prop)
    (hlog : ∀ s e, I s → I (s.logError e))
    (hmod : ∀ s k i f, I s → I (modifyDoor s k i f))
    (hload : ∀ s name, I s → I (loadWorld env name true s).2)
    (recurse : WorldID → WorldLoader × List WorldID → Except Fault (WorldLoader × List WorldID))
    (hrec : ∀ k st st', I st.1 → recurse k st = .ok st' → I st'.1) (key : WorldID) :
    ∀ (l : List Nat) (st st' : WorldLoader × List WorldID), I st.1 →
      discoverDoors env recurse key l st = .ok st' → I st'.1 := by
  intro l
  induction l with
  | nil =>
    intro st st' hI h
    simp only [discoverDoors, Except.ok.injEq] at h
    subst h; exact hI
  | cons i l ih =>
    intro st st' hI h
    obtain ⟨s, visited⟩ := st
    unfold discoverDoors at h
    split at h
    · simp at h
    · split at h
      · simp only [Except.ok.injEq] at h
        subst h; exact hI
      · split at h
        · exact ih _ _ hI h
        · split at h
          · split at h
            · exact ih _ _ (hlog _ _ hI) h
            · simp only at h
              split at h
              · simp at h
              · split at h
                · simp at h
                · rename_i st1 hst1
                  exact ih _ _ (hrec _ _ _ (hmod _ _ _ _ hI) hst1) h
          · simp only at h
            split at h
            · simp at h
            · split at h
              · exact ih _ _ (hlog _ _ (hload _ _ hI)) h
              · split at h
                · simp at h
                · split at h
                  · simp at h
                  · rename_i st1 hst1
                    exact ih _ _ (hrec _ _ _ (hmod _ _ _ _ (hload _ _ hI)) hst1) h
          · simp only [Except.ok.injEq] at h
            subst h; exact hlog _ _ hI
          · split at h
            · simp at h
            · split at h
              · simp at h
              · rename_i st1 hst1
                exact ih _ _ (hrec _ _ _ hI hst1) h

theorem discover_invariant (env : Env) (I : WorldLoader → Prop)
    (hlog : ∀ s e, I s → I (s.logError e))
    (hmod : ∀ s k i f, I s → I (modifyDoor s k i f))
    (hload : ∀ s name, I s → I (loadWorld env name true s).2) :
    ∀ (fuel : Nat) (key : WorldID) (st st' : WorldLoader × List WorldID), I st.1 →
      discoverAndLoadAllWorlds env fuel key st = .ok st' → I st'.1 := by
  intro fuel
  induction fuel with
  | zero => intro key st st' _ h; simp [discoverAndLoadAllWorlds] at h
  | succ fuel ih =>
    intro key st st' hI h
    obtain ⟨s, visited⟩ := st
    unfold discoverAndLoadAllWorlds at h
    split at h
    · simp at h
    · split at h
      · simp at h
      · split at h
        · simp only [Except.ok.injEq] at h
          subst h; exact hI
        · refine discoverDoors_invariant env I hlog hmod hload _ (fun k st st' => ih k st st')
            key _ _ st' ?_ h
          exact hI

/-! ## The connection pass -/

theorem errorsExtended_refl (cs : ConnectState) : ErrorsExtended cs cs :=
  ⟨[], by simp, by simp⟩

theorem errorsExtended_of_eq {a b : ConnectState} (h : b.errors = a.errors) :
    ErrorsExtended a b :=
  ⟨[], by simp [h], by simp⟩

theorem errorsExtended_trans {a b c : ConnectState} (h1 : ErrorsExtended a b)
    (h2 : ErrorsExtended b c) : ErrorsExtended a c := by
  obtain ⟨x1, e1, p1⟩ := h1
  obtain ⟨x2, e2, p2⟩ := h2
  refine ⟨x1 ++ x2, by rw [e2, e1, List.append_assoc], ?_⟩
  intro e he
  rcases List.mem_append.mp he with he | he
  · exact p1 e he
  · exact p2 e he

theorem connectDoorsLoop_errors (loader : WorldLoader)
    (recurse : WorldTreeNode → LoadedWorld → ConnectState →
      Except Fault (WorldTreeNode × ConnectState))
    (hrec : ∀ n w cs r, recurse n w cs = .ok r → ErrorsExtended cs r.2)
    (parent : Option (Option World)) (value : Option World) (world : LoadedWorld) :
    ∀ (rest : List UnloadedDoor) (children : List WorldTreeNode) (cs : ConnectState)
      (r : List WorldTreeNode × ConnectState),
      connectDoorsLoop loader recurse parent value world rest children cs = .ok r →
      ErrorsExtended cs r.2 := by
  intro rest
  induction rest with
  | nil =>
    intro children cs r h
    simp only [connectDoorsLoop, Except.ok.injEq] at h
    subst h
    exact errorsExtended_refl cs
  | cons door rest ih =>
    intro children cs r h
    unfold connectDoorsLoop at h
    simp only at h
    split at h
    · simp at h
    · split at h
      · simp only [Except.ok.injEq] at h
        subst h
        exact ⟨[_], rfl, by simp [LogError.isConnectError]⟩
      · split at h
        · split at h
          · simp at h
          · simp only [Except.ok.injEq] at h
            subst h
            exact ⟨[_], rfl, by simp [LogError.isConnectError]⟩
        · split at h
          · split at h
            · split at h
              · simp at h
              · rename_i childNode cs2 hrun
                have h1 := hrec _ _ _ _ hrun
                have h2 := ih _ _ _ h
                exact errorsExtended_trans (errorsExtended_of_eq rfl)
                  (errorsExtended_trans h1 h2)
            · have h2 := ih _ _ _ h
              exact errorsExtended_trans (errorsExtended_of_eq rfl) h2
          · simp at h

theorem connectDoors_errors (loader : WorldLoader) :
    ∀ (fuel : Nat) (n : WorldTreeNode) (w : LoadedWorld)
      (cs : ConnectState) (r : WorldTreeNode × ConnectState),
      connectDoors loader fuel n w cs = .ok r → ErrorsExtended cs r.2 := by
  intro fuel
  induction fuel with
  | zero => intro n w cs r h; simp [connectDoors] at h
  | succ fuel ih =>
    intro n w cs r h
    unfold connectDoors at h
    split at h
    · simp at h
    · split at h
      · simp only [Except.ok.injEq] at h
        subst h
        exact errorsExtended_refl cs
      · split at h
        · simp at h
        · rename_i children cs1 hloop
          simp only [Except.ok.injEq] at h
          subst h
          have := connectDoorsLoop_errors loader _ ih _ _ _ _ _ _ _ hloop
          exact errorsExtended_trans (errorsExtended_of_eq rfl) this

theorem sumDoors_append (loader : WorldLoader) (a b : List WorldID) :
    sumDoors loader (a ++ b) = sumDoors loader a + sumDoors loader b := by
  simp [sumDoors]

theorem extends_refl (loader : WorldLoader) (k : WorldID) (cs : ConnectState) :
    Extends loader k [] cs cs :=
  ⟨[], [], by simp, by simp, by simp [sumDoors], by simp, by simp, by simp⟩

theorem extends_trans {loader : WorldLoader} {k : WorldID} {ds1 ds2 : List UnloadedDoor}
    {a b c : ConnectState} (h1 : Extends loader k ds1 a b) (h2 : Extends loader k ds2 b c) :
    Extends loader k (ds1 ++ ds2) a c := by
  obtain ⟨v1, t1, hv1, ht1, hl1, he1, hd1, hc1⟩ := h1
  obtain ⟨v2, t2, hv2, ht2, hl2, he2, hd2, hc2⟩ := h2
  refine ⟨v2 ++ v1, t1 ++ t2, ?_, ?_, ?_, ?_, ?_, ?_⟩
  · rw [hv2, hv1, List.append_assoc]
  · rw [ht2, ht1, List.append_assoc]
  · rw [List.length_append, List.length_append, hl1, hl2, sumDoors_append]; omega
  · intro e he
    rcases List.mem_append.mp he with he | he
    · refine ⟨(he1 e he).1, ?_⟩
      rcases (he1 e he).2 with h | h
      · exact Or.inl ⟨h.1, by
          intro hnil
          exact h.2 (List.append_eq_nil.mp hnil).1⟩
      · exact Or.inr (List.mem_append_right _ h)
    · refine ⟨(he2 e he).1, ?_⟩
      rcases (he2 e he).2 with h | h
      · exact Or.inl ⟨h.1, by
          intro hnil
          exact h.2 (List.append_eq_nil.mp hnil).2⟩
      · exact Or.inr (List.mem_append_left _ h)
  · intro d hd
    rcases List.mem_append.mp hd with hd | hd
    · obtain ⟨e, he, hk⟩ := hd1 d hd
      exact ⟨e, List.mem_append_left _ he, hk⟩
    · obtain ⟨e, he, hk⟩ := hd2 d hd
      exact ⟨e, List.mem_append_right _ he, hk⟩
  · intro id hid lw hlw d hd
    rcases List.mem_append.mp hid with hid | hid
    · obtain ⟨e, he, hk⟩ := hc2 id hid lw hlw d hd
      exact ⟨e, List.mem_append_right _ he, hk⟩
    · obtain ⟨e, he, hk⟩ := hc1 id hid lw hlw d hd
      exact ⟨e, List.mem_append_left _ he, hk⟩

theorem extends_rekey {loader : WorldLoader} {k0 : WorldID} (k : WorldID)
    {a b : ConnectState} (h : Extends loader k0 [] a b) : Extends loader k [] a b := by
  obtain ⟨v1, t1, hv1, ht1, hl1, he1, _, hc1⟩ := h
  refine ⟨v1, t1, hv1, ht1, hl1, ?_, by simp, hc1⟩
  intro e he
  refine ⟨(he1 e he).1, ?_⟩
  rcases (he1 e he).2 with h | h
  · exact absurd rfl h.2
  · exact Or.inr h

theorem emplaceConnection_fresh (table : WorldConnectionTable) (src dst : Location)
    (h : ∀ e ∈ table, e.1 ≠ src) : emplaceConnection table src dst = table ++ [(src, dst)] := by
  unfold emplaceConnection
  have : table.any (fun e => e.1 == src) = false := by
    rw [List.any_eq_false]
    intro e he
    simpa using h e he
  simp [this]

theorem errors_of_extended {a b c : ConnectState} (h1 : ErrorsExtended a b)
    (h2 : ErrorsExtended b c) (h : c.errors = a.errors) :
    b.errors = a.errors ∧ c.errors = b.errors := by
  obtain ⟨x1, e1, _⟩ := h1
  obtain ⟨x2, e2, _⟩ := h2
  have hlen := congrArg List.length h
  rw [e2, e1] at hlen
  simp only [List.length_append] at hlen
  have hx1 : x1 = [] := List.length_eq_zero.mp (by omega)
  have hx2 : x2 = [] := List.length_eq_zero.mp (by omega)
  subst hx1 hx2
  simp only [List.append_nil] at e1 e2
  exact ⟨e1, by rw [e2]⟩

/-- The loop of `connectDoors` over the doors `rest` of the world with key `k`, when no
error is logged: one connection per door is inserted, besides those of the worlds visited
on the way. -/
theorem connectDoorsLoop_extends (loader : WorldLoader) (hwf : WellKeyed loader)
    (recurse : WorldTreeNode → LoadedWorld → ConnectState →
      Except Fault (WorldTreeNode × ConnectState))
    (hrecE : ∀ n w cs r, recurse n w cs = .ok r → ErrorsExtended cs r.2)
    (hrecM : ∀ n w cs r k, recurse n w cs = .ok r → getLoadedWorld loader k = some w →
      ConnectInv cs → r.2.errors = cs.errors → ConnectInv r.2 ∧ Extends loader k [] cs r.2)
    (parent : Option (Option World)) (value : Option World) (world : LoadedWorld)
    (k : WorldID) (hk : getLoadedWorld loader k = some world)
    (htiles : (world.doors.map (fun d => d.tile)).Nodup) :
    ∀ (rest done : List UnloadedDoor) (children : List WorldTreeNode) (cs : ConnectState)
      (r : List WorldTreeNode × ConnectState),
      done ++ rest = world.doors →
      connectDoorsLoop loader recurse parent value world rest children cs = .ok r →
      ConnectInv cs → k ∈ cs.visitedWorlds →
      (∀ e ∈ cs.connectionLookup, e.1.world = k → e.1.tile ∈ done.map (fun d => d.tile)) →
      r.2.errors = cs.errors →
      ConnectInv r.2 ∧ Extends loader k rest cs r.2 := by
  intro rest
  induction rest with
  | nil =>
    intro done children cs r _ h hinv _ _ _
    simp only [connectDoorsLoop, Except.ok.injEq] at h
    subst h
    exact ⟨hinv, extends_refl loader k cs⟩
  | cons door rest ih =>
    intro done children cs r hsplit h hinv hkv hli herr
    unfold connectDoorsLoop at h
    simp only at h
    split at h
    · simp at h
    · rename_i nid hnid
      split at h
      · simp only [Except.ok.injEq] at h
        subst h
        simp at herr
      · rename_i cw hcw
        split at h
        · split at h
          · simp at h
          · simp only [Except.ok.injEq] at h
            subst h
            simp at herr
        · rename_i target htarget
          split at h
          · rename_i w c hw hc
            -- the IDs of the two worlds are their keys
            obtain ⟨n1, hn1⟩ := hwf k world hk
            obtain ⟨n2, hn2⟩ := hwf nid cw hcw
            have hwid : w.id = k := by
              rw [hw] at hn1; cases hn1; rfl
            have hcid : c.id = nid := by
              rw [hc] at hn2; cases hn2; rfl
            rw [hwid, hcid] at h
            -- the key of the new connection is not in the table
            have hnodup : (done.map (fun d => d.tile) ++
                (door.tile :: rest.map (fun d => d.tile))).Nodup := by
              have := htiles
              rw [← hsplit, List.map_append, List.map_cons] at this
              exact this
            have hnotdone : door.tile ∉ done.map (fun d => d.tile) := by
              intro hmem
              exact (List.nodup_append.mp hnodup).2.2 hmem (List.mem_cons_self _ _)
            have hfresh : ∀ e ∈ cs.connectionLookup, e.1 ≠ (⟨k, door.tile⟩ : Location) := by
              intro e he heq
              apply hnotdone
              have := hli e he (by rw [heq])
              rw [heq] at this
              exact this
            rw [emplaceConnection_fresh _ _ _ hfresh] at h
            have hdoor : door ∈ world.doors := by
              rw [← hsplit]; simp
            have hnidpos : 0 < door.doorID → nid = door.worldID := by
              intro hpos
              have hgt : door.doorID > 0 := hpos
              simp only [hgt, if_true, Except.ok.injEq] at hnid
              exact hnid.symm
            have hvalid : PartnerEntry loader
                ((⟨k, door.tile⟩ : Location), (⟨nid, target.tile⟩ : Location)) :=
              ⟨k, world, door, nid, cw, target, hk, hdoor, rfl, hcw, hnidpos, htarget, rfl⟩
            have hinv1 : ConnectInv ⟨cs.connectionLookup ++
                [((⟨k, door.tile⟩ : Location), (⟨nid, target.tile⟩ : Location))],
                cs.visitedWorlds, cs.errors⟩ := by
              refine ⟨?_, hinv.2⟩
              intro e he
              rcases List.mem_append.mp he with he | he
              · exact hinv.1 e he
              · simp only [List.mem_singleton] at he
                subst he
                exact hkv
            have hext1 : Extends loader k [door] cs ⟨cs.connectionLookup ++
                [((⟨k, door.tile⟩ : Location), (⟨nid, target.tile⟩ : Location))],
                cs.visitedWorlds, cs.errors⟩ := by
              refine ⟨[], [_], by simp, rfl, by simp [sumDoors], ?_, ?_, by simp⟩
              · intro e he
                simp only [List.mem_singleton] at he
                subst he
                exact ⟨hvalid, Or.inl ⟨rfl, by simp⟩⟩
              · intro d hd
                simp only [List.mem_singleton] at hd
                subst hd
                exact ⟨_, List.mem_singleton_self _, rfl⟩
            have hli1 : ∀ e ∈ cs.connectionLookup ++
                [((⟨k, door.tile⟩ : Location), (⟨nid, target.tile⟩ : Location))],
                e.1.world = k → e.1.tile ∈ (done ++ [door]).map (fun d => d.tile) := by
              intro e he hek
              rw [List.map_append]
              rcases List.mem_append.mp he with he | he
              · exact List.mem_append_left _ (hli e he hek)
              · simp only [List.mem_singleton] at he
                subst he
                exact List.mem_append_right _ (by simp)
            have hsplit1 : (done ++ [door]) ++ rest = world.doors := by
              rw [← hsplit]; simp
            split at h
            · split at h
              · simp at h
              · rename_i childNode cs2 hrun
                have hE1 := hrecE _ _ _ _ hrun
                have hE2 := connectDoorsLoop_errors loader recurse hrecE parent value world
                  rest _ cs2 r h
                obtain ⟨herr1, herr2⟩ := errors_of_extended hE1 hE2 herr
                obtain ⟨hinv2, hext2⟩ := hrecM _ _ _ _ nid hrun hcw hinv1 herr1
                have hkv2 : k ∈ cs2.visitedWorlds := by
                  obtain ⟨v, t, hv, _⟩ := hext2
                  rw [hv]
                  exact List.mem_append_right _ hkv
                have hli2 : ∀ e ∈ cs2.connectionLookup,
                    e.1.world = k → e.1.tile ∈ (done ++ [door]).map (fun d => d.tile) := by
                  obtain ⟨v, t, hv, ht, _, het, _, _⟩ := hext2
                  intro e he hek
                  rw [ht] at he
                  rcases List.mem_append.mp he with he | he
                  · exact hli1 e he hek
                  · exfalso
                    rcases (het e he).2 with hm | hm
                    · exact absurd rfl hm.2
                    · have hnd := hinv2.2
                      rw [hv] at hnd
                      rw [hek] at hm
                      exact (List.nodup_append.mp hnd).2.2 hm hkv
                obtain ⟨hinv3, hext3⟩ := ih (done ++ [door]) _ cs2 r hsplit1 h hinv2 hkv2 hli2 herr2
                refine ⟨hinv3, ?_⟩
                have := extends_trans (extends_trans hext1 (extends_rekey k hext2)) hext3
                simpa using this
            · obtain ⟨hinv3, hext3⟩ := ih (done ++ [door]) _ _ r hsplit1 h hinv1 hkv hli1 herr
              refine ⟨hinv3, ?_⟩
              have := extends_trans hext1 hext3
              simpa using this
          · simp at h

theorem doorCount_of_lookup (loader : WorldLoader) (k : WorldID) (world : LoadedWorld)
    (hk : getLoadedWorld loader k = some world) : doorCount loader k = world.doors.length := by
  simp [doorCount, hk]

/-- A call of `connectDoors` that logs no error inserts one connection for every door of
every world it visits. -/
theorem connectDoors_extends (loader : WorldLoader) (hwf : WellKeyed loader)
    (htiles : ∀ k lw, getLoadedWorld loader k = some lw →
      (lw.doors.map (fun d => d.tile)).Nodup) :
    ∀ (fuel : Nat) (n : WorldTreeNode) (w : LoadedWorld)
      (cs : ConnectState) (r : WorldTreeNode × ConnectState) (k : WorldID),
      connectDoors loader fuel n w cs = .ok r → getLoadedWorld loader k = some w →
      ConnectInv cs → r.2.errors = cs.errors →
      ConnectInv r.2 ∧ Extends loader k [] cs r.2 := by
  intro fuel
  induction fuel with
  | zero => intro n w cs r k h; simp [connectDoors] at h
  | succ fuel ih =>
    intro n w cs r k h hk hinv herr
    unfold connectDoors at h
    split at h
    · simp at h
    · rename_i w0 hw0
      obtain ⟨n1, hn1⟩ := hwf k w hk
      have hwid : w0.id = k := by
        rw [hw0] at hn1; cases hn1; rfl
      rw [hwid] at h
      split at h
      · simp only [Except.ok.injEq] at h
        subst h
        exact ⟨hinv, extends_refl loader k cs⟩
      · rename_i hnotin
        split at h
        · simp at h
        · rename_i children cs1 hloop
          simp only [Except.ok.injEq] at h
          subst h
          have hinv0 : ConnectInv ⟨cs.connectionLookup, k :: cs.visitedWorlds, cs.errors⟩ :=
            ⟨fun e he => List.mem_cons_of_mem _ (hinv.1 e he),
              List.nodup_cons.mpr ⟨hnotin, hinv.2⟩⟩
          have hli0 : ∀ e ∈ cs.connectionLookup, e.1.world = k →
              e.1.tile ∈ ([] : List UnloadedDoor).map (fun d => d.tile) := by
            intro e he hek
            exfalso
            apply hnotin
            rw [← hek]
            exact hinv.1 e he
          obtain ⟨hinv1, v, t, hv, ht, hl, het, hds, hcov⟩ :=
            connectDoorsLoop_extends loader hwf (connectDoors loader fuel)
              (connectDoors_errors loader fuel) ih n.parent n.value w k hk (htiles k w hk)
              w.doors [] n.children _ (children, cs1) (by simp) hloop hinv0
              (List.mem_cons_self _ _) hli0 herr
          refine ⟨hinv1, v ++ [k], t, ?_, ht, ?_, ?_, by simp, ?_⟩
          · simp only at hv
            rw [hv]; simp
          · rw [hl, sumDoors_append]
            simp [sumDoors, doorCount_of_lookup loader k w hk]
            omega
          · intro e he
            refine ⟨(het e he).1, Or.inr ?_⟩
            rcases (het e he).2 with h | h
            · rw [h.1]; simp
            · exact List.mem_append_left _ h
          · intro id hid lw hlw d hd
            rcases List.mem_append.mp hid with hid | hid
            · exact hcov id hid lw hlw d hd
            · simp only [List.mem_singleton] at hid
              subst hid
              rw [hk] at hlw
              cases hlw
              exact hds d hd

theorem wellKeyed_init : WellKeyed WorldLoader.init := by
  intro k lw h
  simp [getLoadedWorld, WorldLoader.init, List.lookup] at h

theorem mem_of_lookup (k : WorldID) (lw : LoadedWorld) :
    ∀ l : List (WorldID × LoadedWorld), List.lookup k l = some lw → (k, lw) ∈ l := by
  intro l
  induction l with
  | nil => intro h; simp [List.lookup] at h
  | cons e l ih =>
    intro h
    obtain ⟨k0, v0⟩ := e
    by_cases hb : k = k0
    · subst hb
      simp [List.lookup] at h
      subst h
      exact List.mem_cons_self _ _
    · have hb2 : (k == k0) = false := by simpa using hb
      simp [List.lookup, hb2] at h
      exact List.mem_cons_of_mem _ (ih h)

/-! ## Collidable tiles -/

theorem isCollidable_iff (bt : BlockType) :
    isCollidable bt = true ↔
      (bt = BlockType.WATER ∨ bt = BlockType.TREE ∨ bt = BlockType.BUILDING_WALL ∨
        bt = BlockType.BUILDING_EDGE ∨ bt = BlockType.BUILDING_ROOF ∨
        bt = BlockType.BUILDING_ROOF_CORNER) := by
  cases bt <;> decide

theorem findCollidableTiles_append (ts : Int) (size : Vector2i) (g : Vector2i → BlockType)
    (rectsRet : List Rect) :
    findCollidableTiles ts size g rectsRet = rectsRet ++ findCollidableTiles ts size g [] := by
  simp [findCollidableTiles]

theorem mem_findCollidableTiles (ts : Int) (size : Vector2i) (g : Vector2i → BlockType)
    (r : Rect) :
    r ∈ findCollidableTiles ts size g [] ↔
      ∃ x y : Nat, (x : Int) < size.x ∧ (y : Int) < size.y ∧
        isCollidable (g ⟨x, y⟩) = true ∧ r = unitTile ts x y := by
  simp only [findCollidableTiles, List.nil_append, List.mem_flatMap, List.mem_range,
    List.mem_map, List.mem_filter]
  constructor
  · rintro ⟨y, hy, x, ⟨hx, hc⟩, rfl⟩
    exact ⟨x, y, by omega, by omega, hc, rfl⟩
  · rintro ⟨x, y, hx, hy, hc, rfl⟩
    exact ⟨y, by omega, x, ⟨by omega, hc⟩, rfl⟩

theorem nodup_findCollidableTiles (ts : Int) (hts : 0 < ts) (size : Vector2i)
    (g : Vector2i → BlockType) : (findCollidableTiles ts size g []).Nodup := by
  simp only [findCollidableTiles, List.nil_append]
  rw [List.nodup_flatMap]
  constructor
  · intro y _
    refine List.Nodup.map ?_ ((List.nodup_range _).filter _)
    intro a b hab
    exact (unitTile_injective ts hts _ _ _ _ hab).1
  · refine List.Pairwise.imp_of_mem ?_ (List.nodup_range _)
    intro y1 y2 _ _ hne
    simp only [Function.onFun]
    rw [List.disjoint_left]
    intro r h1 h2
    obtain ⟨x1, _, rfl⟩ := List.mem_map.mp h1
    obtain ⟨x2, _, e⟩ := List.mem_map.mp h2
    exact hne (unitTile_injective ts hts _ _ _ _ e).2.symm


/-! ## The ID allocation -/

theorem lookup_none_of_not_mem (k : WorldID) :
    ∀ l : List (WorldID × LoadedWorld), k ∉ l.map Prod.fst → List.lookup k l = none := by
  intro l
  induction l with
  | nil => intro _; rfl
  | cons e l ih =>
    intro h
    obtain ⟨k0, v0⟩ := e
    simp only [List.map_cons, List.mem_cons, not_or] at h
    have hb : (k == k0) = false := by simpa using h.1
    simp only [List.lookup, hb]
    exact ih h.2

theorem not_mem_of_lookup_none (k : WorldID) :
    ∀ l : List (WorldID × LoadedWorld), List.lookup k l = none → k ∉ l.map Prod.fst := by
  intro l
  induction l with
  | nil => intro _; simp
  | cons e l ih =>
    intro h
    obtain ⟨k0, v0⟩ := e
    by_cases hk : k = k0
    · subst hk
      simp [List.lookup] at h
    · have hb : (k == k0) = false := by simpa using hk
      simp only [List.lookup, hb] at h
      simp only [List.map_cons, List.mem_cons, not_or]
      exact ⟨hk, ih h⟩

theorem storeWorld_fresh (id : WorldID) (w : LoadedWorld) :
    ∀ l : List (WorldID × LoadedWorld), List.lookup id l = none →
      storeWorld id w l = l ++ [(id, w)] := by
  intro l
  induction l with
  | nil => intro _; rfl
  | cons e l ih =>
    intro h
    obtain ⟨k0, v0⟩ := e
    by_cases hk : id = k0
    · subst hk
      simp [List.lookup] at h
    · have hb : (id == k0) = false := by simpa using hk
      have hb2 : (k0 == id) = false := by simpa using (Ne.symm hk)
      simp only [List.lookup, hb] at h
      simp only [storeWorld, hb2, List.cons_append, ih h]
      simp

theorem storeWorld_present (id : WorldID) (w w0 : LoadedWorld) :
    ∀ l : List (WorldID × LoadedWorld), List.lookup id l = some w0 →
      ∃ l1 l2, l = l1 ++ (id, w0) :: l2 ∧ storeWorld id w l = l1 ++ (id, w) :: l2 := by
  intro l
  induction l with
  | nil => intro h; simp [List.lookup] at h
  | cons e l ih =>
    intro h
    obtain ⟨k0, v0⟩ := e
    by_cases hk : id = k0
    · subst hk
      simp only [List.lookup, beq_self_eq_true, Option.some.injEq] at h
      subst h
      exact ⟨[], l, rfl, by simp [storeWorld]⟩
    · have hb : (id == k0) = false := by simpa using hk
      have hb2 : (k0 == id) = false := by simpa using (Ne.symm hk)
      simp only [List.lookup, hb] at h
      obtain ⟨l1, l2, e1, e2⟩ := ih h
      refine ⟨(k0, v0) :: l1, l2, by rw [e1]; rfl, ?_⟩
      simp only [storeWorld, hb2, e2, List.cons_append]
      simp

theorem loadItem_buildings (env : Env) (acc : LoadedWorld × WorldID) (t : TileWrapper) :
    ∃ nb : List UnloadedBuilding,
      (loadItem env acc t).1.buildings = acc.1.buildings ++ nb ∧
      (loadItem env acc t).2 = acc.2 + nb.length ∧
      (∀ b ∈ nb, b.insideWorldID = acc.2) ∧ nb.length ≤ 1 := by
  unfold loadItem
  split
  · exact ⟨[], by simp⟩
  · split
    · exact ⟨[_], rfl, by simp, by simp, by simp⟩
    · split
      · exact ⟨[], by simp⟩
      · exact ⟨[], by simp⟩

theorem foldl_loadItem_buildings (env : Env) :
    ∀ (items : List TileWrapper) (acc : LoadedWorld × WorldID),
      ∃ newB : List UnloadedBuilding,
        (items.foldl (loadItem env) acc).1.buildings = acc.1.buildings ++ newB ∧
        (items.foldl (loadItem env) acc).2 = acc.2 + newB.length ∧
        (∀ b ∈ newB, acc.2 ≤ b.insideWorldID ∧ b.insideWorldID < acc.2 + newB.length) ∧
        (newB.map (fun b => b.insideWorldID)).Nodup := by
  intro items
  induction items with
  | nil => intro acc; exact ⟨[], by simp⟩
  | cons t items ih =>
    intro acc
    obtain ⟨nb, h1, h2, h3, h4⟩ := loadItem_buildings env acc t
    obtain ⟨newB, g1, g2, g3, g4⟩ := ih (loadItem env acc t)
    refine ⟨nb ++ newB, ?_, ?_, ?_, ?_⟩
    · rw [List.foldl_cons, g1, h1, List.append_assoc]
    · rw [List.foldl_cons, g2, h2, List.length_append]; push_cast; ring
    · intro b hb
      rw [List.length_append]
      rcases List.mem_append.mp hb with hb | hb
      · have e := h3 b hb
        have hpos : (0 : Int) < nb.length := by exact_mod_cast List.length_pos_of_mem hb
        have hn : (0 : Int) ≤ newB.length := by exact_mod_cast Nat.zero_le _
        push_cast
        constructor <;> linarith
      · have e := g3 b hb
        rw [h2] at e
        have hn : (0 : Int) ≤ nb.length := by exact_mod_cast Nat.zero_le _
        push_cast
        constructor <;> linarith
    · rw [List.map_append, List.nodup_append]
      refine ⟨?_, g4, ?_⟩
      · cases nb with
        | nil => simp
        | cons b nb =>
          cases nb with
          | nil => simp
          | cons c nb => simp at h4
      · intro x hx1 hx2
        obtain ⟨b1, hb1, rfl⟩ := List.mem_map.mp hx1
        obtain ⟨b2, hb2, e⟩ := List.mem_map.mp hx2
        have e1 := h3 b1 hb1
        have e2 := g3 b2 hb2
        rw [h2] at e2
        have hpos : (0 : Int) < nb.length := by exact_mod_cast List.length_pos_of_mem hb1
        linarith [e2.1]

theorem getLoadedWorld_loadWorldWithID_ne (env : Env) (name : String) (isBuilding : Bool)
    (id k : WorldID) (s : WorldLoader) (h : k ≠ id) :
    getLoadedWorld (loadWorldWithID env name isBuilding id s) k = getLoadedWorld s k := by
  unfold loadWorldWithID getLoadedWorld
  simp only
  split <;> simp [lookup_storeWorld, h]

theorem lastWorldID_loadWorldWithID (env : Env) (name : String) (isBuilding : Bool)
    (id : WorldID) (s : WorldLoader) :
    s.lastWorldID ≤ (loadWorldWithID env name isBuilding id s).lastWorldID := by
  unfold loadWorldWithID
  simp only
  split
  · exact le_refl _
  · rename_i layer _
    obtain ⟨newB, _, g2, _, _⟩ := foldl_loadItem_buildings env layer.items
      (⟨some ⟨id, getWorldFilePath env name isBuilding⟩,
        ((getLoadedWorld s id).getD ⟨none, [], []⟩).doors,
        ((getLoadedWorld s id).getD ⟨none, [], []⟩).buildings⟩, s.lastWorldID)
    show s.lastWorldID ≤ _
    simp only at g2 ⊢
    rw [g2]
    have hn : (0 : Int) ≤ newB.length := by exact_mod_cast Nat.zero_le _
    linarith

theorem getLoadedWorld_modifyDoor (s : WorldLoader) (key : WorldID) (i : Nat)
    (f : UnloadedDoor → UnloadedDoor) (k : WorldID) :
    getLoadedWorld (modifyDoor s key i f) k
      = if k = key then
          (getLoadedWorld s key).map (fun w => ⟨w.world, w.doors.modify f i, w.buildings⟩)
        else getLoadedWorld s k := by
  unfold modifyDoor
  split
  · rename_i hnone
    split
    · rename_i hk; subst hk; rw [hnone]; rfl
    · rfl
  · rename_i w hw
    unfold getLoadedWorld at hw ⊢
    simp only [lookup_storeWorld, hw]
    split <;> rfl

/-- What `loadWorld(name, isBuilding, worldID)` leaves in the entry with key `worldID`: a
`World` with that ID, and the buildings found before followed by the buildings of the map,
whose interior IDs are the values of the counter from its old to its new value. -/
theorem loadWorldWithID_entry (env : Env) (name : String) (isBuilding : Bool)
    (id : WorldID) (s : WorldLoader) :
    ∃ (lw : LoadedWorld) (newB : List UnloadedBuilding),
      (loadWorldWithID env name isBuilding id s).loadedWorlds
        = storeWorld id lw s.loadedWorlds ∧
      lw.world = some ⟨id, getWorldFilePath env name isBuilding⟩ ∧
      lw.buildings = ((getLoadedWorld s id).getD ⟨none, [], []⟩).buildings ++ newB ∧
      (loadWorldWithID env name isBuilding id s).lastWorldID = s.lastWorldID + newB.length ∧
      (∀ b ∈ newB, s.lastWorldID ≤ b.insideWorldID ∧
        b.insideWorldID < s.lastWorldID + newB.length) ∧
      (newB.map (fun b => b.insideWorldID)).Nodup := by
  unfold loadWorldWithID
  simp only
  split
  · exact ⟨_, [], rfl, rfl, by simp, by simp, by simp, by simp⟩
  · rename_i layer _
    obtain ⟨newB, g1, g2, g3, g4⟩ := foldl_loadItem_buildings env layer.items
      (⟨some ⟨id, getWorldFilePath env name isBuilding⟩,
        ((getLoadedWorld s id).getD ⟨none, [], []⟩).doors,
        ((getLoadedWorld s id).getD ⟨none, [], []⟩).buildings⟩, s.lastWorldID)
    exact ⟨_, newB, rfl, by rw [foldl_loadItem_world], g1, g2, g3, g4⟩

theorem getLoadedWorld_store (id : WorldID) (lw : LoadedWorld)
    (l : List (WorldID × LoadedWorld)) (n : WorldID) (errs : List LogError) (k : WorldID) :
    getLoadedWorld ⟨n, storeWorld id lw l, errs⟩ k
      = if k = id then some lw else List.lookup k l := by
  unfold getLoadedWorld
  simp only [lookup_storeWorld]

theorem getLoadedWorld_loadBuildings_ne (env : Env) (k : WorldID) :
    ∀ (l : List UnloadedBuilding) (s : WorldLoader), (∀ b ∈ l, b.insideWorldID ≠ k) →
      getLoadedWorld (loadBuildings env l s) k = getLoadedWorld s k := by
  intro l
  induction l with
  | nil => intro s _; rfl
  | cons b l ih =>
    intro s h
    simp only [loadBuildings]
    rw [ih _ (fun c hc => h c (List.mem_cons_of_mem _ hc)),
      getLoadedWorld_loadWorldWithID_ne env _ _ _ _ _ (Ne.symm (h b (List.mem_cons_self _ _)))]

theorem modify_get_ne (f : UnloadedDoor → UnloadedDoor) (l : List UnloadedDoor) (i j : Nat)
    (h : i ≠ j) : (l.modify f i).get? j = l.get? j := by
  simp only [List.get?_eq_getElem?, List.getElem?_modify, if_neg h]
  cases l[j]? <;> rfl

theorem modify_get_eq (f : UnloadedDoor → UnloadedDoor) (l : List UnloadedDoor) (i : Nat) :
    (l.modify f i).get? i = (l.get? i).map f := by
  simp only [List.get?_eq_getElem?, List.getElem?_modify, if_pos]
  cases l[i]? <;> rfl

theorem findDoorBuilding_congr (w w' : LoadedWorld) (d d' : UnloadedDoor)
    (hb : w'.buildings = w.buildings) (ht : d'.tile = d.tile) :
    findDoorBuilding w' d' = findDoorBuilding w d := by
  unfold findDoorBuilding
  rw [hb, ht]

/-- The transfer loop fails as soon as one of the listed doors of the main world is in no
building. -/
theorem transferBuildingIDs_fails (key : WorldID) :
    ∀ (l : List Nat) (s : WorldLoader) (w : LoadedWorld), getLoadedWorld s key = some w →
      (∀ i ∈ l, i < w.doors.length) →
      (∃ i ∈ l, ∃ d, w.doors.get? i = some d ∧ findDoorBuilding w d = none) →
      (transferBuildingIDs key l s).2 = false := by
  intro l
  induction l with
  | nil => intro s w _ _ h; obtain ⟨i, hi, _⟩ := h; simp at hi
  | cons i l ih =>
    intro s w hw hlen hbad
    unfold transferBuildingIDs
    simp only [hw]
    obtain ⟨di, hdi⟩ : ∃ di, w.doors.get? i = some di := by
      have := hlen i (List.mem_cons_self _ _)
      exact ⟨_, List.get?_eq_get this⟩
    simp only [hdi]
    split
    · rfl
    · rename_i b hb
      have hw' : getLoadedWorld (modifyDoor s key i (fun d =>
          ⟨d.tile, d.doorID, DoorTag.DOORTAG_WORLD_ID, d.worldName, d.worldShare,
            b.insideWorldID⟩)) key = some ⟨w.world, w.doors.modify (fun d =>
          ⟨d.tile, d.doorID, DoorTag.DOORTAG_WORLD_ID, d.worldName, d.worldShare,
            b.insideWorldID⟩) i, w.buildings⟩ := by
        rw [getLoadedWorld_modifyDoor, if_pos rfl, hw]; rfl
      refine ih _ _ hw' ?_ ?_
      · intro j hj
        simp only [List.length_modify]
        exact hlen j (List.mem_cons_of_mem _ hj)
      · obtain ⟨j, hj, d, hd, hnone⟩ := hbad
        have hji : j ≠ i := by
          rintro rfl
          rw [hdi] at hd
          simp only [Option.some.injEq] at hd
          subst hd
          rw [hnone] at hb
          exact absurd hb (by simp)
        have hjl : j ∈ l := by
          rcases List.mem_cons.mp hj with h | h
          · exact absurd h hji
          · exact h
        refine ⟨j, hjl, d, ?_, ?_⟩
        · rw [modify_get_ne _ _ _ _ (Ne.symm hji)]
          exact hd
        · rw [← hnone]
          exact findDoorBuilding_congr _ _ _ _ rfl rfl

theorem boundsContain_iff (b : IntRect) (t : Vector2i) :
    boundsContain b t = true ↔
      (b.left ≤ t.x ∧ t.x ≤ b.left + b.width ∧ b.top ≤ t.y ∧ t.y ≤ b.top + b.height) := by
  unfold boundsContain
  simp only [Bool.and_eq_true, decide_eq_true_eq, ge_iff_le]
  tauto

/-- What the first load of a fresh loader leaves: the main world under key 0, with a
`World`, and with buildings whose interior IDs are positive. -/
theorem loadWorld_init_entry (env : Env) (name : String) (isBuilding : Bool) :
    (loadWorld env name isBuilding WorldLoader.init).1 = 0 ∧
    ∃ lw, getLoadedWorld (loadWorld env name isBuilding WorldLoader.init).2 0 = some lw ∧
      lw.world = some ⟨0, getWorldFilePath env name isBuilding⟩ ∧
      (∀ b ∈ lw.buildings, 1 ≤ b.insideWorldID ∧
        b.insideWorldID < (loadWorld env name isBuilding WorldLoader.init).2.lastWorldID) ∧
      (lw.buildings.map (fun b => b.insideWorldID)).Nodup ∧
      (loadWorld env name isBuilding WorldLoader.init).2.loadedWorlds = [(0, lw)] := by
  refine ⟨rfl, ?_⟩
  obtain ⟨lw, newB, h1, h2, h3, h4, h5, h6⟩ :=
    loadWorldWithID_entry env name isBuilding 0 ⟨1, [], []⟩
  have hb : lw.buildings = newB := by simpa [getLoadedWorld] using h3
  refine ⟨lw, ?_, h2, ?_, ?_, ?_⟩
  · show getLoadedWorld (loadWorldWithID env name isBuilding 0 ⟨1, [], []⟩) 0 = some lw
    unfold getLoadedWorld
    rw [h1]; simp [storeWorld, List.lookup]
  · intro b hbm
    rw [hb] at hbm
    have := h5 b hbm
    show 1 ≤ b.insideWorldID ∧
      b.insideWorldID < (loadWorldWithID env name isBuilding 0 ⟨1, [], []⟩).lastWorldID
    rw [h4]
    exact this
  · rw [hb]; exact h6
  · show (loadWorldWithID env name isBuilding 0 ⟨1, [], []⟩).loadedWorlds = _
    rw [h1]; rfl

theorem keysBelow_lookup_none (s : WorldLoader) (h : KeysBelow s) (k : WorldID)
    (hk : s.lastWorldID ≤ k) : getLoadedWorld s k = none := by
  apply lookup_none_of_not_mem
  intro hmem
  obtain ⟨e, he, rfl⟩ := List.mem_map.mp hmem
  have := (h e he).2
  linarith

theorem allocated_loadWorldWithID (env : Env) (name : String) (isBuilding : Bool)
    (id : WorldID) (s : WorldLoader) (h : Allocated s) (hfresh : getLoadedWorld s id = none)
    (h0 : 0 ≤ id) (hlt : id < s.lastWorldID) :
    Allocated (loadWorldWithID env name isBuilding id s) := by
  obtain ⟨lw, newB, h1, h2, h3, h4, h5, h6⟩ := loadWorldWithID_entry env name isBuilding id s
  obtain ⟨hk, hkb, hb, hbb⟩ := h
  have hn : (0 : Int) ≤ newB.length := by exact_mod_cast Nat.zero_le _
  have hlw : lw.buildings = newB := by simpa [hfresh] using h3
  have hst : (loadWorldWithID env name isBuilding id s).loadedWorlds
      = s.loadedWorlds ++ [(id, lw)] := by
    rw [h1]; exact storeWorld_fresh id lw _ hfresh
  refine ⟨?_, ?_, ?_, ?_⟩
  · unfold loadedKeys
    rw [hst, List.map_append, List.nodup_append]
    refine ⟨hk, by simp, ?_⟩
    intro x hx1 hx2
    simp only [List.map_cons, List.map_nil, List.mem_singleton] at hx2
    subst hx2
    exact not_mem_of_lookup_none _ _ hfresh hx1
  · intro e he
    rw [hst] at he
    rw [h4]
    rcases List.mem_append.mp he with he | he
    · have := hkb e he
      exact ⟨this.1, by linarith [this.2]⟩
    · simp only [List.mem_singleton] at he
      subst he
      exact ⟨h0, by show id < _; linarith⟩
  · unfold buildingIDs
    rw [hst, List.flatMap_append, List.nodup_append]
    refine ⟨hb, by simpa [hlw] using h6, ?_⟩
    intro x hx1 hx2
    have hx2' : x ∈ newB.map (fun b => b.insideWorldID) := by simpa [hlw] using hx2
    obtain ⟨b, hbm, rfl⟩ := List.mem_map.mp hx2'
    have e1 := (hbb _ hx1).2
    have e2 := (h5 b hbm).1
    linarith
  · intro x hx
    unfold buildingIDs at hx
    rw [hst, List.flatMap_append] at hx
    rw [h4]
    rcases List.mem_append.mp hx with hx | hx
    · have := hbb x hx
      exact ⟨this.1, by linarith [this.2]⟩
    · have hx' : x ∈ newB.map (fun b => b.insideWorldID) := by simpa [hlw] using hx
      obtain ⟨b, hbm, rfl⟩ := List.mem_map.mp hx'
      have e2 := h5 b hbm
      have e3 : (0 : Int) ≤ s.lastWorldID := by linarith
      exact ⟨by linarith [e2.1], e2.2⟩

/-- In a loader whose allocation is sound, `loadWorld(name, isBuilding)` registers the
world under an ID that is the key of no loaded world, and the allocation stays sound. -/
theorem allocated_loadWorld (env : Env) (name : String) (isBuilding : Bool) (s : WorldLoader)
    (h : Allocated s) (h0 : 0 ≤ s.lastWorldID) :
    getLoadedWorld s (loadWorld env name isBuilding s).1 = none ∧
    Allocated (loadWorld env name isBuilding s).2 ∧
    s.lastWorldID < (loadWorld env name isBuilding s).2.lastWorldID := by
  have hfresh : getLoadedWorld s s.lastWorldID = none :=
    keysBelow_lookup_none s h.2.1 _ (le_refl _)
  refine ⟨hfresh, ?_, ?_⟩
  · unfold loadWorld
    apply allocated_loadWorldWithID
    · obtain ⟨hk, hkb, hb, hbb⟩ := h
      refine ⟨hk, ?_, hb, ?_⟩
      · intro e he
        have := hkb e he
        exact ⟨this.1, by show e.1 < s.lastWorldID + 1; linarith [this.2]⟩
      · intro x hx
        have := hbb x hx
        exact ⟨this.1, by show x < s.lastWorldID + 1; linarith [this.2]⟩
    · exact hfresh
    · exact h0
    · show s.lastWorldID < s.lastWorldID + 1
      linarith
  · unfold loadWorld
    have := lastWorldID_loadWorldWithID env name isBuilding s.lastWorldID
      ⟨s.lastWorldID + 1, s.loadedWorlds, s.errors⟩
    simp only at this ⊢
    linarith

theorem allocated_logError (s : WorldLoader) (e : LogError) (h : Allocated s) :
    Allocated (s.logError e) := h

theorem allocated_modifyDoor (s : WorldLoader) (key : WorldID) (i : Nat)
    (f : UnloadedDoor → UnloadedDoor) (h : Allocated s) : Allocated (modifyDoor s key i f) := by
  unfold modifyDoor
  split
  · exact h
  · rename_i w hw
    obtain ⟨l1, l2, e1, e2⟩ := storeWorld_present key
      ⟨w.world, w.doors.modify f i, w.buildings⟩ w s.loadedWorlds hw
    obtain ⟨hk, hkb, hb, hbb⟩ := h
    have hkeys : (storeWorld key ⟨w.world, w.doors.modify f i, w.buildings⟩
        s.loadedWorlds).map Prod.fst = s.loadedWorlds.map Prod.fst := by
      rw [e2, e1]; simp
    have hbs : (storeWorld key ⟨w.world, w.doors.modify f i, w.buildings⟩
        s.loadedWorlds).flatMap (fun e => e.2.buildings.map (fun b => b.insideWorldID))
        = s.loadedWorlds.flatMap (fun e => e.2.buildings.map (fun b => b.insideWorldID)) := by
      rw [e2, e1]; simp
    refine ⟨?_, ?_, ?_, ?_⟩
    · unfold loadedKeys; rw [hkeys]; exact hk
    · intro e he
      have hmem : e.1 ∈ s.loadedWorlds.map Prod.fst := by
        rw [← hkeys]; exact List.mem_map_of_mem _ he
      obtain ⟨e', he', hee⟩ := List.mem_map.mp hmem
      rw [← hee]
      exact hkb e' he'
    · unfold buildingIDs; rw [hbs]; exact hb
    · intro x hx
      unfold buildingIDs at hx; rw [hbs] at hx
      exact hbb x hx

theorem allocated_init : Allocated WorldLoader.init := by
  refine ⟨by simp [loadedKeys, WorldLoader.init], ?_, by simp [buildingIDs, WorldLoader.init], ?_⟩
  · intro e he; simp [WorldLoader.init] at he
  · intro x hx; simp [buildingIDs, WorldLoader.init] at hx

theorem lastWorldID_nonneg_of_allocated (s : WorldLoader) (h : Allocated s)
    (e : WorldID × LoadedWorld) (he : e ∈ s.loadedWorlds) : 0 ≤ s.lastWorldID := by
  have := h.2.1 e he
  linarith

theorem getLoadedWorld_loadWorldWithID_self (env : Env) (name : String) (isBuilding : Bool)
    (id : WorldID) (s : WorldLoader) :
    ∃ lw, getLoadedWorld (loadWorldWithID env name isBuilding id s) id = some lw ∧
      lw.world = some ⟨id, getWorldFilePath env name isBuilding⟩ := by
  obtain ⟨lw, newB, h1, h2, _⟩ := loadWorldWithID_entry env name isBuilding id s
  refine ⟨lw, ?_, h2⟩
  unfold getLoadedWorld
  rw [h1, lookup_storeWorld, if_pos rfl]

/-- The loop over the buildings of the main world loads each interior under an ID that is
the key of no loaded world, provided the interior IDs listed are distinct, allocated and
not yet used as keys; afterwards each interior is registered under the ID of its
building. -/
theorem allocated_loadBuildings (env : Env) :
    ∀ (l : List UnloadedBuilding) (s : WorldLoader), Allocated s →
      (l.map (fun b => b.insideWorldID)).Nodup →
      (∀ b ∈ l, getLoadedWorld s b.insideWorldID = none ∧ 0 ≤ b.insideWorldID ∧
        b.insideWorldID < s.lastWorldID) →
      Allocated (loadBuildings env l s) ∧
      s.lastWorldID ≤ (loadBuildings env l s).lastWorldID ∧
      ∀ b ∈ l, ∃ lw, getLoadedWorld (loadBuildings env l s) b.insideWorldID = some lw ∧
        lw.world = some ⟨b.insideWorldID, getWorldFilePath env b.insideWorldName true⟩ := by
  intro l
  induction l with
  | nil => intro s h _ _; exact ⟨h, le_refl _, by simp⟩
  | cons b l ih =>
    intro s h hnd hpend
    simp only [List.map_cons, List.nodup_cons] at hnd
    have hb := hpend b (List.mem_cons_self _ _)
    have hle := lastWorldID_loadWorldWithID env b.insideWorldName true b.insideWorldID s
    have hrest : ∀ c ∈ l, c.insideWorldID ≠ b.insideWorldID := by
      intro c hc e
      exact hnd.1 (List.mem_map.mpr ⟨c, hc, e⟩)
    obtain ⟨g1, g2, g3⟩ := ih (loadWorldWithID env b.insideWorldName true b.insideWorldID s)
      (allocated_loadWorldWithID env _ _ _ s h hb.1 hb.2.1 hb.2.2) hnd.2 (by
        intro c hc
        have hc' := hpend c (List.mem_cons_of_mem _ hc)
        rw [getLoadedWorld_loadWorldWithID_ne env _ _ _ _ _ (hrest c hc)]
        exact ⟨hc'.1, hc'.2.1, by linarith [hc'.2.2]⟩)
    refine ⟨g1, by simp only [loadBuildings]; linarith, ?_⟩
    intro c hc
    simp only [loadBuildings]
    rcases List.mem_cons.mp hc with rfl | hc
    · rw [getLoadedWorld_loadBuildings_ne env _ l _ hrest]
      exact getLoadedWorld_loadWorldWithID_self env _ _ _ s
    · exact g3 c hc

theorem getLoadedWorld_loadBuildings_before (env : Env) (s : WorldLoader)
    (pre post : List UnloadedBuilding) (b : UnloadedBuilding)
    (hnd : ((pre ++ b :: post).map (fun b => b.insideWorldID)).Nodup)
    (hfresh : getLoadedWorld s b.insideWorldID = none) :
    getLoadedWorld (loadBuildings env pre s) b.insideWorldID = none := by
  rw [getLoadedWorld_loadBuildings_ne, hfresh]
  intro c hc e
  rw [List.map_append, List.nodup_append] at hnd
  exact hnd.2.2 (List.mem_map.mpr ⟨c, hc, e⟩) (by simp)

theorem transferBuildingIDs_invariant (I : WorldLoader → Prop)
    (hlog : ∀ s e, I s → I (s.logError e))
    (hmod : ∀ s k i f, I s → I (modifyDoor s k i f)) (key : WorldID) :
    ∀ (l : List Nat) (s : WorldLoader), I s → I (transferBuildingIDs key l s).1 := by
  intro l
  induction l with
  | nil => intro s h; exact h
  | cons i l ih =>
    intro s h
    unfold transferBuildingIDs
    split
    · exact h
    · split
      · exact h
      · split
        · exact hlog _ _ h
        · exact ih _ (hmod _ _ _ _ h)

/-- The stages of a run of `loadWorlds` that returns. -/
theorem loadWorlds_stages (env : Env) (fuel : Nat) (mainWorldName : String)
    (table : WorldConnectionTable) (root : WorldTreeNode) (s : WorldLoader) (res : LoadResult)
    (h : loadWorlds env fuel mainWorldName table root s = .ok res) :
    ∃ main, getLoadedWorld (loadWorld env mainWorldName false s).2 s.lastWorldID = some main ∧
      ((main.failed = true ∧ res.result = none ∧
          res.loader = (loadWorld env mainWorldName false s).2.logError
            LogError.failedMainWorld) ∨
        (main.failed = false ∧
          ∃ main1, getLoadedWorld (loadBuildings env main.buildings
              (loadWorld env mainWorldName false s).2) s.lastWorldID = some main1 ∧
            (((transferBuildingIDs s.lastWorldID (List.range main1.doors.length)
                  (loadBuildings env main.buildings
                    (loadWorld env mainWorldName false s).2)).2 = false ∧
                res.result = none ∧
                res.loader = (transferBuildingIDs s.lastWorldID
                  (List.range main1.doors.length)
                  (loadBuildings env main.buildings
                    (loadWorld env mainWorldName false s).2)).1) ∨
              ((transferBuildingIDs s.lastWorldID (List.range main1.doors.length)
                  (loadBuildings env main.buildings
                    (loadWorld env mainWorldName false s).2)).2 = true ∧
                ∃ s2 v2 main2 root1 cs,
                  discoverAndLoadAllWorlds env fuel s.lastWorldID
                    ((transferBuildingIDs s.lastWorldID (List.range main1.doors.length)
                      (loadBuildings env main.buildings
                        (loadWorld env mainWorldName false s).2)).1, []) = .ok (s2, v2) ∧
                  getLoadedWorld s2 s.lastWorldID = some main2 ∧
                  connectDoors s2 fuel (WorldTreeNode.mk root.parent main.world root.children) main2
                    ⟨table, [], s2.errors⟩ = .ok (root1, cs) ∧
                  res.result = main2.world ∧
                  res.loader = ⟨s2.lastWorldID, s2.loadedWorlds, cs.errors⟩ ∧
                  res.connectionLookup = cs.connectionLookup ∧ res.treeRoot = root1 ∧
                  res.connectVisited = cs.visitedWorlds)))) := by
  unfold loadWorlds at h
  simp only at h
  split at h
  · simp at h
  · rename_i main hmain
    refine ⟨main, hmain, ?_⟩
    split at h
    · rename_i hf
      left
      simp only [Except.ok.injEq] at h
      subst h
      exact ⟨hf, rfl, rfl⟩
    · rename_i hf
      right
      refine ⟨by simpa using hf, ?_⟩
      split at h
      · simp at h
      · rename_i main1 hmain1
        refine ⟨main1, hmain1, ?_⟩
        split at h
        · rename_i hfalse
          left
          simp only [Except.ok.injEq] at h
          subst h
          exact ⟨by simpa using hfalse, rfl, rfl⟩
        · rename_i htrue
          right
          refine ⟨by simpa using htrue, ?_⟩
          split at h
          · simp at h
          · rename_i s2 v2 hdisc
            split at h
            · simp at h
            · rename_i main2 hmain2
              split at h
              · simp at h
              · rename_i root1 cs hconn
                simp only [Except.ok.injEq] at h
                subst h
                exact ⟨s2, v2, main2, root1, cs, hdisc, hmain2, hconn, rfl, rfl, rfl, rfl, rfl⟩

theorem lastWorldID_modifyDoor (s : WorldLoader) (key : WorldID) (i : Nat)
    (f : UnloadedDoor → UnloadedDoor) : (modifyDoor s key i f).lastWorldID = s.lastWorldID := by
  unfold modifyDoor
  split <;> rfl

/-- The state of a fresh loader after the main world and the interiors of its buildings
are loaded: the allocation is sound, the main world is registered under ID 0 as it was
loaded, and each interior is registered under the ID of its building. -/
theorem loadBuildings_init (env : Env) (mainWorldName : String) :
    ∃ main, getLoadedWorld (loadWorld env mainWorldName false WorldLoader.init).2 0 = some main ∧
      main.world = some ⟨0, getWorldFilePath env mainWorldName false⟩ ∧
      (∀ pre b post, main.buildings = pre ++ b :: post →
        getLoadedWorld (loadBuildings env pre
          (loadWorld env mainWorldName false WorldLoader.init).2) b.insideWorldID = none) ∧
      Allocated (loadBuildings env main.buildings
        (loadWorld env mainWorldName false WorldLoader.init).2) ∧
      0 ≤ (loadBuildings env main.buildings
        (loadWorld env mainWorldName false WorldLoader.init).2).lastWorldID ∧
      getLoadedWorld (loadBuildings env main.buildings
        (loadWorld env mainWorldName false WorldLoader.init).2) 0 = some main ∧
      ∀ b ∈ main.buildings, 1 ≤ b.insideWorldID ∧
        ∃ lw, getLoadedWorld (loadBuildings env main.buildings
          (loadWorld env mainWorldName false WorldLoader.init).2) b.insideWorldID = some lw ∧
        lw.world = some ⟨b.insideWorldID, getWorldFilePath env b.insideWorldName true⟩ := by
  obtain ⟨_, main, hmain, hworld, hids, hnd, hlist⟩ :=
    loadWorld_init_entry env mainWorldName false
  have halloc := (allocated_loadWorld env mainWorldName false WorldLoader.init
    allocated_init (le_refl _)).2.1
  have hfresh : ∀ b ∈ main.buildings,
      getLoadedWorld (loadWorld env mainWorldName false WorldLoader.init).2 b.insideWorldID
        = none := by
    intro b hb
    apply lookup_none_of_not_mem
    rw [hlist]
    have := (hids b hb).1
    simp only [List.map_cons, List.map_nil, List.mem_singleton]
    intro e
    rw [e] at this
    exact absurd this (by decide)
  obtain ⟨g1, g2, g3⟩ := allocated_loadBuildings env main.buildings _ halloc hnd (by
    intro b hb
    have := hids b hb
    exact ⟨hfresh b hb, by linarith [this.1], this.2⟩)
  refine ⟨main, hmain, hworld, ?_, g1, ?_, ?_, fun b hb => ⟨(hids b hb).1, g3 b hb⟩⟩
  · intro pre b post e
    apply getLoadedWorld_loadBuildings_before env _ pre post b
    · rw [← e]; exact hnd
    · exact hfresh b (by rw [e]; simp)
  · have : (1 : Int) ≤ (loadWorld env mainWorldName false WorldLoader.init).2.lastWorldID := by
      have := lastWorldID_loadWorldWithID env mainWorldName false 0 ⟨1, [], []⟩
      exact this
    linarith
  · rw [getLoadedWorld_loadBuildings_ne, hmain]
    intro b hb e
    have := (hids b hb).1
    rw [e] at this
    exact absurd this (by decide)

/-- The allocation stays sound through the whole of `loadWorlds`. -/
theorem allocated_loadWorlds (env : Env) (fuel : Nat) (mainWorldName : String)
    (table : WorldConnectionTable) (root : WorldTreeNode) (res : LoadResult)
    (hrun : loadWorlds env fuel mainWorldName table root WorldLoader.init = .ok res) :
    Allocated res.loader ∧ WellKeyed res.loader := by
  have hI : ∀ s : WorldLoader, (Allocated s ∧ WellKeyed s ∧ 0 ≤ s.lastWorldID) →
      ∀ errs, Allocated ⟨s.lastWorldID, s.loadedWorlds, errs⟩ ∧
        WellKeyed ⟨s.lastWorldID, s.loadedWorlds, errs⟩ := fun s h _ => ⟨h.1, h.2.1⟩
  have hlog : ∀ (s : WorldLoader) (e : LogError),
      (Allocated s ∧ WellKeyed s ∧ 0 ≤ s.lastWorldID) →
      (Allocated (s.logError e) ∧ WellKeyed (s.logError e) ∧ 0 ≤ (s.logError e).lastWorldID) :=
    fun s e h => h
  have hmod : ∀ (s : WorldLoader) (k : WorldID) (i : Nat) (f : UnloadedDoor → UnloadedDoor),
      (Allocated s ∧ WellKeyed s ∧ 0 ≤ s.lastWorldID) →
      (Allocated (modifyDoor s k i f) ∧ WellKeyed (modifyDoor s k i f) ∧
        0 ≤ (modifyDoor s k i f).lastWorldID) := by
    intro s k i f h
    exact ⟨allocated_modifyDoor s k i f h.1, wellKeyed_modifyDoor s k i f h.2.1, by
      rw [lastWorldID_modifyDoor]; exact h.2.2⟩
  have hload : ∀ (s : WorldLoader) (name : String),
      (Allocated s ∧ WellKeyed s ∧ 0 ≤ s.lastWorldID) →
      (Allocated (loadWorld env name true s).2 ∧ WellKeyed (loadWorld env name true s).2 ∧
        0 ≤ (loadWorld env name true s).2.lastWorldID) := by
    intro s name h
    have := allocated_loadWorld env name true s h.1 h.2.2
    exact ⟨this.2.1, wellKeyed_loadWorld env name true s h.2.1, by linarith [this.2.2, h.2.2]⟩
  obtain ⟨main0, hmain0, _, _, halloc, hpos, _, _⟩ := loadBuildings_init env mainWorldName
  have hwk : WellKeyed (loadBuildings env main0.buildings
      (loadWorld env mainWorldName false WorldLoader.init).2) :=
    wellKeyed_loadBuildings env _ _ (wellKeyed_loadWorld env _ _ _ wellKeyed_init)
  obtain ⟨main, hmain, hcase⟩ := loadWorlds_stages env fuel mainWorldName table root _ res hrun
  have hmm : main = main0 := by
    have : getLoadedWorld (loadWorld env mainWorldName false WorldLoader.init).2 0
        = some main := hmain
    rw [hmain0] at this
    exact (Option.some.inj this).symm
  subst hmm
  rcases hcase with ⟨_, _, hl⟩ | ⟨_, main1, _, hcase⟩
  · rw [hl]
    exact ⟨(allocated_loadWorld env mainWorldName false WorldLoader.init
      allocated_init (le_refl _)).2.1, wellKeyed_loadWorld env _ _ _ wellKeyed_init⟩
  · have ht := transferBuildingIDs_invariant
      (fun s => Allocated s ∧ WellKeyed s ∧ 0 ≤ s.lastWorldID) hlog hmod
      WorldLoader.init.lastWorldID (List.range main1.doors.length) _ ⟨halloc, hwk, hpos⟩
    rcases hcase with ⟨_, _, hl⟩ | ⟨_, s2, v2, main2, root1, cs, hdisc, _, _, _, hl, _⟩
    · rw [hl]; exact ⟨ht.1, ht.2.1⟩
    · have := discover_invariant env (fun s => Allocated s ∧ WellKeyed s ∧ 0 ≤ s.lastWorldID)
        hlog hmod hload fuel _ _ _ ht hdisc
      rw [hl]
      exact hI s2 this _

/-- An invariant of the loader is kept by the loop of the discovery when it is kept by
logging, by loading a world, and by the writes the loop makes: the world ID of a share-tag
door and, after the load, the world ID of a named-world door. -/
theorem discoverDoors_invariant_tagged (env : Env) (I : WorldLoader → Prop)
    (hlog : ∀ s e, I s → I (s.logError e))
    (hshare : ∀ s k i w door x, I s → getLoadedWorld s k = some w →
      w.doors.get? i = some door → door.doorTag = DoorTag.DOORTAG_WORLD_SHARE →
      I (modifyDoor s k i (fun d =>
        ⟨d.tile, d.doorID, d.doorTag, d.worldName, d.worldShare, x⟩)))
    (hname : ∀ s k i w door x, I s → getLoadedWorld s k = some w →
      w.doors.get? i = some door → door.doorTag = DoorTag.DOORTAG_WORLD_NAME →
      I (modifyDoor (loadWorld env door.worldName true s).2 k i (fun d =>
        ⟨d.tile, d.doorID, d.doorTag, d.worldName, d.worldShare, x⟩)))
    (hload : ∀ s name, I s → I (loadWorld env name true s).2)
    (recurse : WorldID → WorldLoader × List WorldID → Except Fault (WorldLoader × List WorldID))
    (hrec : ∀ k st st', I st.1 → recurse k st = .ok st' → I st'.1) (key : WorldID) :
    ∀ (l : List Nat) (st st' : WorldLoader × List WorldID), I st.1 →
      discoverDoors env recurse key l st = .ok st' → I st'.1 := by
  intro l
  induction l with
  | nil =>
    intro st st' hI h
    simp only [discoverDoors, Except.ok.injEq] at h
    subst h; exact hI
  | cons i l ih =>
    intro st st' hI h
    obtain ⟨s, visited⟩ := st
    unfold discoverDoors at h
    split at h
    · simp at h
    · rename_i world hworld
      split at h
      · simp only [Except.ok.injEq] at h
        subst h; exact hI
      · rename_i door hdoor
        split at h
        · exact ih _ _ hI h
        · split at h
          · rename_i htag
            split at h
            · exact ih _ _ (hlog _ _ hI) h
            · simp only at h
              split at h
              · simp at h
              · split at h
                · simp at h
                · rename_i st1 hst1
                  exact ih _ _ (hrec _ _ _ (hshare _ _ _ _ _ _ hI hworld hdoor htag) hst1) h
          · rename_i htag
            simp only at h
            split at h
            · simp at h
            · split at h
              · exact ih _ _ (hlog _ _ (hload _ _ hI)) h
              · split at h
                · simp at h
                · split at h
                  · simp at h
                  · rename_i st1 hst1
                    exact ih _ _ (hrec _ _ _ (hname _ _ _ _ _ _ hI hworld hdoor htag) hst1) h
          · simp only [Except.ok.injEq] at h
            subst h; exact hlog _ _ hI
          · split at h
            · simp at h
            · split at h
              · simp at h
              · rename_i st1 hst1
                exact ih _ _ (hrec _ _ _ hI hst1) h

theorem discover_invariant_tagged (env : Env) (I : WorldLoader → Prop)
    (hlog : ∀ s e, I s → I (s.logError e))
    (hshare : ∀ s k i w door x, I s → getLoadedWorld s k = some w →
      w.doors.get? i = some door → door.doorTag = DoorTag.DOORTAG_WORLD_SHARE →
      I (modifyDoor s k i (fun d =>
        ⟨d.tile, d.doorID, d.doorTag, d.worldName, d.worldShare, x⟩)))
    (hname : ∀ s k i w door x, I s → getLoadedWorld s k = some w →
      w.doors.get? i = some door → door.doorTag = DoorTag.DOORTAG_WORLD_NAME →
      I (modifyDoor (loadWorld env door.worldName true s).2 k i (fun d =>
        ⟨d.tile, d.doorID, d.doorTag, d.worldName, d.worldShare, x⟩)))
    (hload : ∀ s name, I s → I (loadWorld env name true s).2) :
    ∀ (fuel : Nat) (key : WorldID) (st st' : WorldLoader × List WorldID), I st.1 →
      discoverAndLoadAllWorlds env fuel key st = .ok st' → I st'.1 := by
  intro fuel
  induction fuel with
  | zero => intro key st st' _ h; simp [discoverAndLoadAllWorlds] at h
  | succ fuel ih =>
    intro key st st' hI h
    obtain ⟨s, visited⟩ := st
    unfold discoverAndLoadAllWorlds at h
    split at h
    · simp at h
    · split at h
      · simp at h
      · split at h
        · simp only [Except.ok.injEq] at h
          subst h; exact hI
        · refine discoverDoors_invariant_tagged env I hlog hshare hname hload _
            (fun k st st' => ih k st st') key _ _ st' ?_ h
          exact hI

theorem lt_of_lookup (s : WorldLoader) (h : KeysBelow s) (k : WorldID) (w : LoadedWorld)
    (hk : getLoadedWorld s k = some w) : 0 ≤ k ∧ k < s.lastWorldID :=
  h (k, w) (mem_of_lookup k w _ hk)

theorem getLoadedWorld_loadWorld_ne (env : Env) (name : String) (isBuilding : Bool)
    (s : WorldLoader) (k : WorldID) (h : k ≠ s.lastWorldID) :
    getLoadedWorld (loadWorld env name isBuilding s).2 k = getLoadedWorld s k := by
  unfold loadWorld
  rw [getLoadedWorld_loadWorldWithID_ne env _ _ _ _ _ h]
  rfl

theorem getLoadedWorld_loadWorld_old (env : Env) (name : String) (isBuilding : Bool)
    (s : WorldLoader) (hs : KeysBelow s) (k : WorldID) (w : LoadedWorld)
    (hk : getLoadedWorld s k = some w) :
    getLoadedWorld (loadWorld env name isBuilding s).2 k = some w := by
  rw [getLoadedWorld_loadWorld_ne, hk]
  have := (lt_of_lookup s hs k w hk).2
  intro e
  rw [e] at this
  exact lt_irrefl _ this

theorem mainDoorsResolved_loadWorld (env : Env) (name : String) (s : WorldLoader)
    (hs : KeysBelow s) (h : MainDoorsResolved env s) :
    MainDoorsResolved env (loadWorld env name true s).2 := by
  obtain ⟨main, hmain, hdoors⟩ := h
  refine ⟨main, getLoadedWorld_loadWorld_old env name true s hs 0 main hmain, ?_⟩
  intro door hd
  obtain ⟨htag, b, hb, hid, interior, hint, hw⟩ := hdoors door hd
  exact ⟨htag, b, hb, hid, interior,
    getLoadedWorld_loadWorld_old env name true s hs _ interior hint, hw⟩

theorem mainDoorsResolved_modifyDoor (env : Env) (s : WorldLoader) (k : WorldID) (i : Nat)
    (f : UnloadedDoor → UnloadedDoor) (w : LoadedWorld) (door : UnloadedDoor)
    (h : MainDoorsResolved env s) (hw : getLoadedWorld s k = some w)
    (hd : w.doors.get? i = some door) (htag : door.doorTag ≠ DoorTag.DOORTAG_WORLD_ID) :
    MainDoorsResolved env (modifyDoor s k i f) := by
  obtain ⟨main, hmain, hdoors⟩ := h
  have hk : k ≠ 0 := by
    rintro rfl
    rw [hmain] at hw
    obtain rfl := Option.some.inj hw
    exact htag (hdoors door (List.get?_mem hd)).1
  refine ⟨main, by rw [getLoadedWorld_modifyDoor, if_neg (Ne.symm hk), hmain], ?_⟩
  intro d hdm
  obtain ⟨htag', b, hb, hid, interior, hint, hwi⟩ := hdoors d hdm
  refine ⟨htag', b, hb, hid, ?_⟩
  rw [getLoadedWorld_modifyDoor]
  by_cases e : b.insideWorldID = k
  · rw [if_pos e, hw]
    rw [e, hw] at hint
    obtain rfl := Option.some.inj hint
    exact ⟨_, rfl, hwi⟩
  · rw [if_neg e]
    exact ⟨interior, hint, hwi⟩

/-- When the transfer loop succeeds, every listed door of the world `key` has the
direct-world-id tag and the interior ID of the first building containing its tile; the
world and the buildings of the entry and the other entries of the loader are as before. -/
theorem transferBuildingIDs_success (key : WorldID) :
    ∀ (l : List Nat) (s : WorldLoader) (w : LoadedWorld), getLoadedWorld s key = some w →
      (∀ i ∈ l, i < w.doors.length) → (transferBuildingIDs key l s).2 = true →
      ∃ w', getLoadedWorld (transferBuildingIDs key l s).1 key = some w' ∧
        w'.world = w.world ∧ w'.buildings = w.buildings ∧
        w'.doors.length = w.doors.length ∧
        (∀ k, k ≠ key →
          getLoadedWorld (transferBuildingIDs key l s).1 k = getLoadedWorld s k) ∧
        ∀ j, (j ∈ l ∨ ∀ d, w.doors.get? j = some d → d.doorTag = DoorTag.DOORTAG_WORLD_ID ∧
              ∃ b, findDoorBuilding w d = some b ∧ d.worldID = b.insideWorldID) →
          ∀ d, w'.doors.get? j = some d → d.doorTag = DoorTag.DOORTAG_WORLD_ID ∧
            ∃ b, findDoorBuilding w' d = some b ∧ d.worldID = b.insideWorldID := by
  intro l
  induction l with
  | nil =>
    intro s w hw _ _
    refine ⟨w, hw, rfl, rfl, rfl, fun _ _ => rfl, ?_⟩
    intro j hj
    rcases hj with hj | hj
    · simp at hj
    · exact hj
  | cons i l ih =>
    intro s w hw hlen ht
    unfold transferBuildingIDs at ht ⊢
    simp only [hw] at ht ⊢
    obtain ⟨di, hdi⟩ : ∃ di, w.doors.get? i = some di :=
      ⟨_, List.get?_eq_get (hlen i (List.mem_cons_self _ _))⟩
    simp only [hdi] at ht ⊢
    split at ht
    · simp at ht
    · rename_i b hb
      have hw1 : getLoadedWorld (modifyDoor s key i (fun d =>
          ⟨d.tile, d.doorID, DoorTag.DOORTAG_WORLD_ID, d.worldName, d.worldShare,
            b.insideWorldID⟩)) key = some ⟨w.world, w.doors.modify (fun d =>
          ⟨d.tile, d.doorID, DoorTag.DOORTAG_WORLD_ID, d.worldName, d.worldShare,
            b.insideWorldID⟩) i, w.buildings⟩ := by
        rw [getLoadedWorld_modifyDoor, if_pos rfl, hw]; rfl
      obtain ⟨w', g1, g2, g3, g4, g5, g6⟩ := ih _ _ hw1 (by
        intro j hj
        simp only [List.length_modify]
        exact hlen j (List.mem_cons_of_mem _ hj)) ht
      refine ⟨w', g1, g2, g3, by rw [g4, List.length_modify], ?_, ?_⟩
      · intro k hk
        rw [g5 k hk, getLoadedWorld_modifyDoor, if_neg hk]
      · intro j hj
        apply g6 j
        by_cases hji : j = i
        · right
          subst hji
          intro d hd
          rw [modify_get_eq, hdi] at hd
          simp only [Option.map_some', Option.some.injEq] at hd
          subst hd
          refine ⟨rfl, b, ?_, rfl⟩
          rw [← hb]
          exact findDoorBuilding_congr _ _ _ _ rfl rfl
        · rcases hj with hj | hj
          · left
            rcases List.mem_cons.mp hj with h | h
            · exact absurd h hji
            · exact h
          · right
            intro d hd
            rw [modify_get_ne _ _ _ _ (Ne.symm hji)] at hd
            obtain ⟨h1, b', h2, h3⟩ := hj d hd
            refine ⟨h1, b', ?_, h3⟩
            rw [← h2]
            exact findDoorBuilding_congr _ _ _ _ rfl rfl

/-! ## Termination of the discovery -/

theorem mem_modify (f : UnloadedDoor → UnloadedDoor) :
    ∀ (l : List UnloadedDoor) (i : Nat) (d' : UnloadedDoor), d' ∈ l.modify f i →
      ∃ d ∈ l, d' = d ∨ d' = f d := by
  intro l
  induction l with
  | nil => intro i d' h; cases i <;> simp at h
  | cons a l ih =>
    intro i d' h
    cases i with
    | zero =>
      simp only [List.modify_zero_cons, List.mem_cons] at h
      rcases h with h | h
      · exact ⟨a, List.mem_cons_self _ _, Or.inr h⟩
      · exact ⟨d', List.mem_cons_of_mem _ h, Or.inl rfl⟩
    | succ i =>
      simp only [List.modify_succ_cons, List.mem_cons] at h
      rcases h with h | h
      · exact ⟨a, List.mem_cons_self _ _, Or.inl h⟩
      · obtain ⟨d, hd, e⟩ := ih i d' h
        exact ⟨d, List.mem_cons_of_mem _ hd, e⟩

theorem loadedKeys_modifyDoor (s : WorldLoader) (key : WorldID) (i : Nat)
    (f : UnloadedDoor → UnloadedDoor) : loadedKeys (modifyDoor s key i f) = loadedKeys s := by
  unfold modifyDoor
  split
  · rfl
  · rename_i w hw
    obtain ⟨l1, l2, e1, e2⟩ := storeWorld_present key
      ⟨w.world, w.doors.modify f i, w.buildings⟩ w s.loadedWorlds hw
    unfold loadedKeys
    simp only
    rw [e2, e1]; simp

theorem noNamedDoors_modifyDoor (s : WorldLoader) (key : WorldID) (i : Nat)
    (f : UnloadedDoor → UnloadedDoor)
    (hf : ∀ d, (f d).doorID = d.doorID ∧ (f d).doorTag = d.doorTag) (h : NoNamedDoors s) :
    NoNamedDoors (modifyDoor s key i f) := by
  unfold modifyDoor
  split
  · exact h
  · rename_i w hw
    obtain ⟨l1, l2, e1, e2⟩ := storeWorld_present key
      ⟨w.world, w.doors.modify f i, w.buildings⟩ w s.loadedWorlds hw
    intro e he d hd hpos
    simp only at he
    rw [e2] at he
    have hold : ∀ e' ∈ s.loadedWorlds, ∀ d ∈ e'.2.doors, 0 < d.doorID →
        d.doorTag ≠ DoorTag.DOORTAG_WORLD_NAME := h
    rcases List.mem_append.mp he with he | he
    · exact hold e (by rw [e1]; exact List.mem_append_left _ he) d hd hpos
    · rcases List.mem_cons.mp he with he | he
      · subst he
        obtain ⟨d0, hd0, e0⟩ := mem_modify f _ _ _ hd
        have hw0 : (key, w) ∈ s.loadedWorlds := by rw [e1]; simp
        rcases e0 with rfl | rfl
        · exact hold _ hw0 _ hd0 hpos
        · rw [(hf d0).2]
          rw [(hf d0).1] at hpos
          exact hold _ hw0 _ hd0 hpos
      · exact hold e (by rw [e1]; simp [he]) d hd hpos

theorem unvisited_mono (s s' : WorldLoader) (v v' : List WorldID)
    (hk : loadedKeys s' = loadedKeys s) (hv : v ⊆ v') : unvisited s' v' ≤ unvisited s v := by
  unfold unvisited
  rw [hk]
  apply List.countP_mono_left
  intro k _ h
  simp only [decide_eq_true_eq] at h ⊢
  exact fun hm => h (hv hm)

theorem countP_visit (key : WorldID) (v : List WorldID) (hv : key ∉ v) :
    ∀ K : List WorldID, key ∈ K →
      K.countP (fun k => decide (k ∉ key :: v)) < K.countP (fun k => decide (k ∉ v)) := by
  intro K
  induction K with
  | nil => intro h; simp at h
  | cons a K ih =>
    intro h
    by_cases ha : a = key
    · subst ha
      have h1 : List.countP (fun k => decide (k ∉ a :: v)) K
          ≤ List.countP (fun k => decide (k ∉ v)) K := by
        apply List.countP_mono_left
        intro k _ hk
        simp only [decide_eq_true_eq, List.mem_cons, not_or] at hk ⊢
        exact hk.2
      rw [List.countP_cons_of_neg, List.countP_cons_of_pos]
      · omega
      · simpa using hv
      · simp
    · have hK : key ∈ K := by
        rcases List.mem_cons.mp h with h | h
        · exact absurd h.symm ha
        · exact h
      have := ih hK
      by_cases hav : a ∈ v
      · rw [List.countP_cons_of_neg, List.countP_cons_of_neg]
        · exact this
        · simpa using hav
        · simp [hav]
      · rw [List.countP_cons_of_pos, List.countP_cons_of_pos]
        · omega
        · simpa using hav
        · simp [hav, ha]

theorem unvisited_le_length (s : WorldLoader) (v : List WorldID) :
    unvisited s v ≤ s.loadedWorlds.length := by
  unfold unvisited loadedKeys
  calc _ ≤ (s.loadedWorlds.map Prod.fst).length := List.countP_le_length _
    _ = _ := List.length_map _ _

theorem discoveryEnds_weaken (K V V' : List WorldID) (h : V' ⊆ V)
    (r : Except Fault (WorldLoader × List WorldID)) (hr : DiscoveryEnds K V r) :
    DiscoveryEnds K V' r := by
  cases r with
  | error e => exact hr
  | ok st => exact ⟨hr.1, hr.2.1, hr.2.2.1, fun x hx => hr.2.2.2 (h hx)⟩

theorem discoverDoors_ends (env : Env) (K V0 : List WorldID)
    (recurse : WorldID → WorldLoader × List WorldID → Except Fault (WorldLoader × List WorldID))
    (key : WorldID)
    (hrec : ∀ k s1 v1, WellKeyed s1 → NoNamedDoors s1 → loadedKeys s1 = K → V0 ⊆ v1 →
      DiscoveryEnds K v1 (recurse k (s1, v1))) :
    ∀ (l : List Nat) (s1 : WorldLoader) (v1 : List WorldID), WellKeyed s1 → NoNamedDoors s1 →
      loadedKeys s1 = K → V0 ⊆ v1 →
      DiscoveryEnds K V0 (discoverDoors env recurse key l (s1, v1)) := by
  intro l
  induction l with
  | nil => intro s1 v1 h1 h2 h3 h4; exact ⟨h1, h2, h3, h4⟩
  | cons i l ih =>
    intro s1 v1 h1 h2 h3 h4
    have hstep : ∀ (s' : WorldLoader) (k : WorldID), WellKeyed s' → NoNamedDoors s' →
        loadedKeys s' = K →
        DiscoveryEnds K V0 (match recurse k (s', v1) with
          | .error e => .error e
          | .ok st => discoverDoors env recurse key l st) := by
      intro s' k g1 g2 g3
      have hr := hrec k s' v1 g1 g2 g3 h4
      cases hres : recurse k (s', v1) with
      | error e => rw [hres] at hr; exact hr
      | ok st =>
        rw [hres] at hr
        obtain ⟨s2, v2⟩ := st
        exact ih s2 v2 hr.1 hr.2.1 hr.2.2.1 (fun x hx => hr.2.2.2 (h4 hx))
    unfold discoverDoors
    split
    · rfl
    · rename_i world hworld
      split
      · exact ⟨h1, h2, h3, h4⟩
      · rename_i door hdoor
        split
        · exact ih s1 v1 h1 h2 h3 h4
        · rename_i hpos
          split
          · split
            · exact ih _ v1 h1 h2 h3 h4
            · simp only
              split
              · rfl
              · exact hstep _ _ (wellKeyed_modifyDoor _ _ _ _ h1)
                  (noNamedDoors_modifyDoor _ _ _ _ (fun d => ⟨rfl, rfl⟩) h2)
                  (by rw [loadedKeys_modifyDoor]; exact h3)
          · rename_i htag
            exfalso
            exact h2 (key, world) (mem_of_lookup key world _ hworld) door
              (List.get?_mem hdoor) (by omega) htag
          · exact ⟨h1, h2, h3, h4⟩
          · split
            · rfl
            · exact hstep _ _ h1 h2 h3

/-- With fuel above the number of loaded worlds not yet visited, the discovery of a loader
without named-world doors does not run out of fuel. -/
theorem discover_ends (env : Env) :
    ∀ (fuel n : Nat) (key : WorldID) (s : WorldLoader) (v : List WorldID),
      WellKeyed s → NoNamedDoors s → unvisited s v ≤ n → n < fuel →
      DiscoveryEnds (loadedKeys s) v (discoverAndLoadAllWorlds env fuel key (s, v)) := by
  intro fuel
  induction fuel with
  | zero => intro n key s v _ _ _ h; omega
  | succ fuel ih =>
    intro n key s v h1 h2 hn hf
    unfold discoverAndLoadAllWorlds
    split
    · rfl
    · rename_i world hworld
      split
      · rfl
      · rename_i w hw
        split
        · exact ⟨h1, h2, rfl, fun x hx => hx⟩
        · rename_i hvis
          have hid : w.id = key := by
            obtain ⟨nm, e⟩ := h1 key world hworld
            rw [hw] at e
            rw [Option.some.inj e]
          have hmem : w.id ∈ loadedKeys s := by
            rw [hid]
            exact List.mem_map.mpr ⟨(key, world), mem_of_lookup key world _ hworld, rfl⟩
          have hlt : unvisited s (w.id :: v) < unvisited s v :=
            countP_visit w.id v hvis _ hmem
          apply discoveryEnds_weaken _ (w.id :: v) v (List.subset_cons_self _ _)
          apply discoverDoors_ends env (loadedKeys s) (w.id :: v) _ key ?_ _ s _ h1 h2 rfl
            (fun x hx => hx)
          intro k s1 v1 g1 g2 g3 g4
          have := ih (n - 1) k s1 v1 g1 g2 (by
            have := unvisited_mono s s1 (w.id :: v) v1 g3 g4
            omega) (by omega)
          rw [g3] at this
          exact this

theorem discoverDoors_visited_nodup (env : Env)
    (recurse : WorldID → WorldLoader × List WorldID → Except Fault (WorldLoader × List WorldID))
    (hrec : ∀ k st st', st.2.Nodup → recurse k st = .ok st' → st'.2.Nodup) (key : WorldID) :
    ∀ (l : List Nat) (st st' : WorldLoader × List WorldID), st.2.Nodup →
      discoverDoors env recurse key l st = .ok st' → st'.2.Nodup := by
  intro l
  induction l with
  | nil =>
    intro st st' hI h
    simp only [discoverDoors, Except.ok.injEq] at h
    subst h; exact hI
  | cons i l ih =>
    intro st st' hI h
    obtain ⟨s, visited⟩ := st
    have hv : visited.Nodup := hI
    clear hI
    unfold discoverDoors at h
    split at h
    · simp at h
    · split at h
      · simp only [Except.ok.injEq] at h
        subst h; exact hv
      · split at h
        · exact ih (_, visited) _ hv h
        · split at h
          · split at h
            · exact ih (_, visited) _ hv h
            · simp only at h
              split at h
              · simp at h
              · split at h
                · simp at h
                · rename_i st1 hst1
                  exact ih _ _ (hrec _ (_, visited) _ hv hst1) h
          · simp only at h
            split at h
            · simp at h
            · split at h
              · exact ih (_, visited) _ hv h
              · split at h
                · simp at h
                · split at h
                  · simp at h
                  · rename_i st1 hst1
                    exact ih _ _ (hrec _ (_, visited) _ hv hst1) h
          · simp only [Except.ok.injEq] at h
            subst h; exact hv
          · split at h
            · simp at h
            · split at h
              · simp at h
              · rename_i st1 hst1
                exact ih _ _ (hrec _ (_, visited) _ hv hst1) h

/-- The discovery inserts a world ID into `visitedWorlds` only when it is not there: no
world ID is expanded twice. -/
theorem discover_visited_nodup (env : Env) :
    ∀ (fuel : Nat) (key : WorldID) (st st' : WorldLoader × List WorldID), st.2.Nodup →
      discoverAndLoadAllWorlds env fuel key st = .ok st' → st'.2.Nodup := by
  intro fuel
  induction fuel with
  | zero => intro key st st' _ h; simp [discoverAndLoadAllWorlds] at h
  | succ fuel ih =>
    intro key st st' hI h
    obtain ⟨s, visited⟩ := st
    unfold discoverAndLoadAllWorlds at h
    split at h
    · simp at h
    · split at h
      · simp at h
      · split at h
        · simp only [Except.ok.injEq] at h
          subst h; exact hI
        · rename_i hvis
          refine discoverDoors_visited_nodup env _ (fun k st st' => ih k st st') key _ _ st' ?_ h
          exact List.nodup_cons.mpr ⟨hvis, hI⟩

/-! ## A map that names itself -/

theorem loop_load (s : WorldLoader) (n : WorldID) (h : getLoadedWorld s n = none) :
    getLoadedWorld (loadWorldWithID (districtEnv 77) "loop" true n s) n
      = some ⟨some ⟨n, "buildings/loop.tmx"⟩,
          [⟨⟨1, 2⟩, -1, DoorTag.DOORTAG_UNKNOWN, "", "", 77⟩,
            ⟨⟨4, 2⟩, 2, DoorTag.DOORTAG_WORLD_NAME, "loop", "", 77⟩], []⟩ := by
  have hp : getWorldFilePath (districtEnv 77) "loop" true = "buildings/loop.tmx" := by decide
  have hf : (districtEnv 77).tmxLoad "buildings/loop.tmx"
      = buildingsMap [doorMarker 16 32 (-1) none none none,
          doorMarker 64 32 2 none (some "loop") none] := by decide
  unfold loadWorldWithID
  simp only [hp, hf, h, buildingsMap]
  simp [getLoadedWorld, lookup_storeWorld, loadItem, loadDoor, doorMarker, tilePosition,
    districtEnv]
  decide

theorem loop_diverges :
    ∀ (fuel : Nat) (s : WorldLoader) (k : WorldID) (v : List WorldID) (nm : String)
      (bs : List UnloadedBuilding),
      Allocated s → 0 ≤ s.lastWorldID → k ∉ v → (∀ x ∈ v, x < s.lastWorldID) →
      getLoadedWorld s k = some ⟨some ⟨k, nm⟩,
        [⟨⟨1, 2⟩, -1, DoorTag.DOORTAG_UNKNOWN, "", "", 77⟩,
          ⟨⟨4, 2⟩, 2, DoorTag.DOORTAG_WORLD_NAME, "loop", "", 77⟩], bs⟩ →
      discoverAndLoadAllWorlds (districtEnv 77) fuel k (s, v) = .error Fault.outOfFuel := by
  intro fuel
  induction fuel with
  | zero => intro s k v nm bs _ _ _ _ _; rfl
  | succ fuel ih =>
    intro s k v nm bs halloc h0 hkv hv hk
    have hklt : k < s.lastWorldID := (lt_of_lookup s halloc.2.1 k _ hk).2
    have ha := allocated_loadWorld (districtEnv 77) "loop" true s halloc h0
    have hr1 : (loadWorld (districtEnv 77) "loop" true s).1 = s.lastWorldID := rfl
    have hnew : getLoadedWorld (loadWorld (districtEnv 77) "loop" true s).2 s.lastWorldID
        = some ⟨some ⟨s.lastWorldID, "buildings/loop.tmx"⟩,
          [⟨⟨1, 2⟩, -1, DoorTag.DOORTAG_UNKNOWN, "", "", 77⟩,
            ⟨⟨4, 2⟩, 2, DoorTag.DOORTAG_WORLD_NAME, "loop", "", 77⟩], []⟩ :=
      loop_load ⟨s.lastWorldID + 1, s.loadedWorlds, s.errors⟩ s.lastWorldID ha.1
    have hne : s.lastWorldID ≠ k := fun e => by rw [e] at hklt; exact lt_irrefl _ hklt
    have hrec := ih (modifyDoor (loadWorld (districtEnv 77) "loop" true s).2 k 1 (fun d =>
        ⟨d.tile, d.doorID, d.doorTag, d.worldName, d.worldShare, s.lastWorldID⟩))
      s.lastWorldID (k :: v) "buildings/loop.tmx" []
      (allocated_modifyDoor _ _ _ _ ha.2.1)
      (by rw [lastWorldID_modifyDoor]; linarith [ha.2.2])
      (by
        simp only [List.mem_cons, not_or]
        exact ⟨hne, fun hm => lt_irrefl _ (hv _ hm)⟩)
      (by
        intro x hx
        rw [lastWorldID_modifyDoor]
        rcases List.mem_cons.mp hx with rfl | hx
        · linarith [ha.2.2]
        · linarith [ha.2.2, hv x hx])
      (by rw [getLoadedWorld_modifyDoor, if_neg hne]; exact hnew)
    unfold discoverAndLoadAllWorlds
    simp only [hk, hkv, if_false]
    show discoverDoors _ _ k [0, 1] _ = _
    unfold discoverDoors
    simp only [hk, List.get?]
    have hneg : ((-1 : Int) ≤ 0) = True := by simp
    simp only [hneg, if_true]
    unfold discoverDoors
    simp only [hk, List.get?]
    have hpos : ((2 : Int) ≤ 0) = False := by simp
    simp only [hpos, if_false, hr1, hnew, LoadedWorld.failed, Option.isNone, hrec]
    simp

theorem town_loop_discovery (fuel : Nat) (s : WorldLoader) (nm : String)
    (bs : List UnloadedBuilding) (halloc : Allocated s) (h0 : 0 ≤ s.lastWorldID)
    (hmain : getLoadedWorld s 0 = some ⟨some ⟨0, nm⟩,
      [⟨⟨3, 6⟩, 1, DoorTag.DOORTAG_WORLD_ID, "", "", 1⟩], bs⟩)
    (hloop : getLoadedWorld s 1 = some ⟨some ⟨1, "buildings/loop.tmx"⟩,
        [⟨⟨1, 2⟩, -1, DoorTag.DOORTAG_UNKNOWN, "", "", 77⟩,
          ⟨⟨4, 2⟩, 2, DoorTag.DOORTAG_WORLD_NAME, "loop", "", 77⟩], []⟩) :
    discoverAndLoadAllWorlds (districtEnv 77) fuel 0 (s, []) = .error Fault.outOfFuel := by
  cases fuel with
  | zero => rfl
  | succ fuel =>
    have hlt := (lt_of_lookup s halloc.2.1 0 _ hmain).2
    have hrec := loop_diverges fuel s 1 [0] "buildings/loop.tmx" [] halloc h0 (by decide)
      (by intro x hx; simp only [List.mem_singleton] at hx; rw [hx]; exact hlt) hloop
    unfold discoverAndLoadAllWorlds
    simp only [hmain, List.not_mem_nil, if_false]
    show discoverDoors _ _ 0 [0] _ = _
    unfold discoverDoors
    simp only [hmain, List.get?]
    have hpos : ((1 : Int) ≤ 0) = False := by simp
    simp only [hpos, if_false, hloop, hrec]

/-! ## The world tree -/

theorem worldsOfNodes_append (a b : List WorldTreeNode) :
    worldsOfNodes (a ++ b) = worldsOfNodes a ++ worldsOfNodes b := by
  induction a with
  | nil => simp [worldsOfNodes]
  | cons n a ih => simp [worldsOfNodes, ih]

/-- The value of the tree root after `loadWorlds` is the main world returned. -/
theorem loadWorlds_root_value (env : Env) (fuel : Nat) (mainWorldName : String)
    (table : WorldConnectionTable) (root : WorldTreeNode) (res : LoadResult) (w : World)
    (hrun : loadWorlds env fuel mainWorldName table root WorldLoader.init = .ok res)
    (hres : res.result = some w) :
    w = ⟨0, getWorldFilePath env mainWorldName false⟩ ∧
    ∃ s2 main2 cs, getLoadedWorld s2 0 = some main2 ∧ main2.world = some w ∧
      connectDoors s2 fuel (WorldTreeNode.mk root.parent (some w) root.children) main2
        ⟨table, [], s2.errors⟩ = .ok (res.treeRoot, cs) ∧
      res.loader = ⟨s2.lastWorldID, s2.loadedWorlds, cs.errors⟩ ∧
      res.connectVisited = cs.visitedWorlds ∧ res.connectionLookup = cs.connectionLookup := by
  obtain ⟨main0, hmain0, hworld0, _, halloc, hpos, hmain1, _⟩ :=
    loadBuildings_init env mainWorldName
  obtain ⟨main, hmain, hcase⟩ := loadWorlds_stages env fuel mainWorldName table root _ res hrun
  have hmm : main = main0 := by
    have : getLoadedWorld (loadWorld env mainWorldName false WorldLoader.init).2 0
        = some main := hmain
    rw [hmain0] at this
    exact (Option.some.inj this).symm
  subst hmm
  rcases hcase with ⟨_, hnone, _⟩ | ⟨_, main1, hm1, hcase⟩
  · rw [hnone] at hres; simp at hres
  · rcases hcase with ⟨_, hnone, _⟩ | ⟨htrue, s2, v2, main2, root1, cs, hdisc, hm2, hconn, hr, hl,
        htab, htree, hvis⟩
    · rw [hnone] at hres; simp at hres
    · have hm1' : main1 = main := by
        have : getLoadedWorld (loadBuildings env main.buildings
            (loadWorld env mainWorldName false WorldLoader.init).2) 0 = some main1 := hm1
        rw [hmain1] at this
        exact (Option.some.inj this).symm
      subst hm1'
      obtain ⟨w1, g1, g2, _⟩ := transferBuildingIDs_success 0
        (List.range main1.doors.length) _ main1 hmain1
        (fun j hj => List.mem_range.mp hj) htrue
      have hstart : (Allocated (transferBuildingIDs 0 (List.range main1.doors.length)
            (loadBuildings env main1.buildings
              (loadWorld env mainWorldName false WorldLoader.init).2)).1 ∧
          0 ≤ (transferBuildingIDs 0 (List.range main1.doors.length)
            (loadBuildings env main1.buildings
              (loadWorld env mainWorldName false WorldLoader.init).2)).1.lastWorldID) ∧
          ∃ lw, getLoadedWorld (transferBuildingIDs 0 (List.range main1.doors.length)
            (loadBuildings env main1.buildings
              (loadWorld env mainWorldName false WorldLoader.init).2)).1 0 = some lw ∧
            lw.world = some ⟨0, getWorldFilePath env mainWorldName false⟩ :=
        ⟨transferBuildingIDs_invariant (fun s => Allocated s ∧ 0 ≤ s.lastWorldID)
            (fun s e h => h)
            (fun s k i f h => ⟨allocated_modifyDoor s k i f h.1, by
              rw [lastWorldID_modifyDoor]; exact h.2⟩) 0 _ _ ⟨halloc, hpos⟩,
          w1, g1, by rw [g2, hworld0]⟩
      have hfin := discover_invariant env
        (fun s => (Allocated s ∧ 0 ≤ s.lastWorldID) ∧
          ∃ lw, getLoadedWorld s 0 = some lw ∧
            lw.world = some ⟨0, getWorldFilePath env mainWorldName false⟩)
        (fun s e h => h)
        (fun s k i f h => by
          refine ⟨⟨allocated_modifyDoor s k i f h.1.1, by
            rw [lastWorldID_modifyDoor]; exact h.1.2⟩, ?_⟩
          obtain ⟨lw, h1, h2⟩ := h.2
          rw [getLoadedWorld_modifyDoor]
          by_cases e : (0 : WorldID) = k
          · subst e
            rw [if_pos rfl, h1]
            exact ⟨_, rfl, h2⟩
          · rw [if_neg e]
            exact ⟨lw, h1, h2⟩)
        (fun s name h => by
          have ha := allocated_loadWorld env name true s h.1.1 h.1.2
          obtain ⟨lw, h1, h2⟩ := h.2
          exact ⟨⟨ha.2.1, by linarith [ha.2.2, h.1.2]⟩, lw,
            getLoadedWorld_loadWorld_old env name true s h.1.1.2.1 0 lw h1, h2⟩)
        fuel _ _ _ hstart hdisc
      obtain ⟨lw, h1, h2⟩ := hfin.2
      have hF2 : getLoadedWorld s2 0 = some main2 := hm2
      rw [h1] at hF2
      obtain rfl := Option.some.inj hF2
      rw [hr, h2] at hres
      obtain rfl := Option.some.inj hres
      refine ⟨rfl, s2, lw, cs, h1, h2, ?_, hl, hvis, htab⟩
      rw [htree]
      have : main1.world = some ⟨0, getWorldFilePath env mainWorldName false⟩ := hworld0
      rw [← this]
      exact hconn


/-! ## Solid blocks -/

theorem mem_rowTiles (ts : Int) (y : Nat) :
    ∀ (n x : Nat) (r : Rect), r ∈ rowTiles ts x y n ↔ ∃ i, i < n ∧ r = unitTile ts (x + i) y := by
  intro n
  induction n with
  | zero => intro x r; simp [rowTiles]
  | succ n ih =>
    intro x r
    simp only [rowTiles, List.mem_cons, ih]
    constructor
    · rintro (rfl | ⟨i, hi, rfl⟩)
      · exact ⟨0, by omega, rfl⟩
      · exact ⟨i + 1, by omega, by rw [show x + 1 + i = x + (i + 1) by omega]⟩
    · rintro ⟨i, hi, rfl⟩
      cases i with
      | zero => left; rfl
      | succ i => right; exact ⟨i, by omega, by rw [show x + 1 + i = x + (i + 1) by omega]⟩

theorem mem_blockTiles (ts : Int) (x0 w : Nat) :
    ∀ (h y : Nat) (r : Rect), r ∈ blockTiles ts x0 y w h ↔
      ∃ i j, i < w ∧ j < h ∧ r = unitTile ts (x0 + i) (y + j) := by
  intro h
  induction h with
  | zero => intro y r; simp [blockTiles]
  | succ h ih =>
    intro y r
    simp only [blockTiles, List.mem_append, mem_rowTiles, ih]
    constructor
    · rintro (⟨i, hi, rfl⟩ | ⟨i, j, hi, hj, rfl⟩)
      · exact ⟨i, 0, hi, by omega, rfl⟩
      · exact ⟨i, j + 1, hi, by omega, by rw [show y + 1 + j = y + (j + 1) by omega]⟩
    · rintro ⟨i, j, hi, hj, rfl⟩
      cases j with
      | zero => left; exact ⟨i, hi, rfl⟩
      | succ j =>
        right
        exact ⟨i, j, hi, by omega, by rw [show y + 1 + j = y + (j + 1) by omega]⟩

theorem compareRectsHorizontally_unit_iff (ts : Int) (h0 : 0 < ts) (x y x' y' : Nat) :
    compareRectsHorizontally (unitTile ts x y) (unitTile ts x' y') = true ↔
      (y < y' ∨ (y = y' ∧ x < x')) := by
  have e1 : ∀ a b : Nat, (a : Int) * ts < (b : Int) * ts ↔ a < b := by
    intro a b
    constructor
    · intro h
      have := lt_of_mul_lt_mul_right h (le_of_lt h0)
      exact_mod_cast this
    · intro h
      exact mul_lt_mul_of_pos_right (by exact_mod_cast h) h0
  simp only [compareRectsHorizontally, unitTile, e1]
  split_ifs <;> simp <;> omega

theorem rowTiles_sorted (ts : Int) (h0 : 0 < ts) (y : Nat) :
    ∀ (n x : Nat), (rowTiles ts x y n).Pairwise
      (fun p q => compareRectsHorizontally p q = true) := by
  intro n
  induction n with
  | zero => intro x; simp [rowTiles]
  | succ n ih =>
    intro x
    simp only [rowTiles, List.pairwise_cons]
    refine ⟨?_, ih (x + 1)⟩
    intro q hq
    obtain ⟨i, _, rfl⟩ := (mem_rowTiles ts y n (x + 1) q).mp hq
    rw [compareRectsHorizontally_unit_iff ts h0]
    right; omega

theorem blockTiles_sorted (ts : Int) (h0 : 0 < ts) (x0 w : Nat) :
    ∀ (h y : Nat), (blockTiles ts x0 y w h).Pairwise
      (fun p q => compareRectsHorizontally p q = true) := by
  intro h
  induction h with
  | zero => intro y; simp [blockTiles]
  | succ h ih =>
    intro y
    simp only [blockTiles]
    rw [List.pairwise_append]
    refine ⟨rowTiles_sorted ts h0 y w x0, ih (y + 1), ?_⟩
    intro p hp q hq
    obtain ⟨i, _, rfl⟩ := (mem_rowTiles ts y w x0 p).mp hp
    obtain ⟨i', j', _, _, rfl⟩ := (mem_blockTiles ts x0 w h (y + 1) q).mp hq
    rw [compareRectsHorizontally_unit_iff ts h0]
    left; omega

/-- Sorting any arrangement of the tiles of a block by (top, left) gives the block row by
row. -/
theorem sortRects_block (ts : Int) (h0 : 0 < ts) (x0 y0 w h : Nat) (rects : List Rect)
    (hperm : rects.Perm (blockTiles ts x0 y0 w h)) :
    sortRects compareRectsHorizontally rects = blockTiles ts x0 y0 w h := by
  have hsorted := blockTiles_sorted ts h0 x0 w h y0
  have hp : (sortRects compareRectsHorizontally rects).Perm (blockTiles ts x0 y0 w h) :=
    (sortRects_perm compareRectsHorizontally rects).trans hperm
  have hnd : (blockTiles ts x0 y0 w h).Nodup := by
    refine hsorted.imp ?_
    intro p q hpq e
    rw [e] at hpq
    have := strictWeak_horizontal.asymm q q hpq
    rw [this] at hpq
    exact absurd hpq (by simp)
  have hnd2 : (sortRects compareRectsHorizontally rects).Nodup := hp.nodup_iff.mpr hnd
  have hs := sortRects_sorted compareRectsHorizontally strictWeak_horizontal rects
  have hs2 : (sortRects compareRectsHorizontally rects).Pairwise
      (fun p q => compareRectsHorizontally p q = true) := by
    refine (hs.and hnd2).imp_of_mem ?_
    intro p q hpm hqm hpq
    obtain ⟨i, j, _, _, rfl⟩ := (mem_blockTiles ts x0 w h y0 p).mp (hp.mem_iff.mp hpm)
    obtain ⟨i', j', _, _, rfl⟩ := (mem_blockTiles ts x0 w h y0 q).mp (hp.mem_iff.mp hqm)
    have hle := hpq.1
    have hne := hpq.2
    rw [compareRectsHorizontally_unit_iff ts h0]
    have hnot : ¬ (y0 + j' < y0 + j ∨ (y0 + j' = y0 + j ∧ x0 + i' < x0 + i)) := by
      rw [← compareRectsHorizontally_unit_iff ts h0]
      rw [hle]; simp
    by_contra hc
    apply hne
    have e1 : x0 + i = x0 + i' := by omega
    have e2 : y0 + j = y0 + j' := by omega
    rw [e1, e2]
  haveI : IsAntisymm Rect (fun p q => compareRectsHorizontally p q = true) :=
    ⟨fun p q hpq hqp => by
      have := strictWeak_horizontal.asymm p q hpq
      rw [this] at hqp
      exact absurd hqp (by simp)⟩
  exact List.eq_of_perm_of_sorted hp hs2 hsorted

theorem near_right (ts : Int) (h0 : 0 < ts) (x y : Nat) :
    nextRowFunc ts true (unitTile ts x y) (unitTile ts (x + 1) y) = false := by
  have h := far_unit_iff ts h0 x y (x + 1) y
  cases hb : nextRowFunc ts true (unitTile ts x y) (unitTile ts (x + 1) y) with
  | false => rfl
  | true =>
    have := h.mp hb
    push_cast at this
    simp at this

theorem near_below (ts : Int) (h0 : 0 < ts) (x y : Nat) :
    nextRowFunc ts true (unitTile ts x y) (unitTile ts x (y + 1)) = false := by
  have h := far_unit_iff ts h0 x y x (y + 1)
  cases hb : nextRowFunc ts true (unitTile ts x y) (unitTile ts x (y + 1)) with
  | false => rfl
  | true =>
    have := h.mp hb
    push_cast at this
    simp at this

theorem far_next_row (ts : Int) (h0 : 0 < ts) (x0 m y : Nat) :
    nextRowFunc ts true (unitTile ts (x0 + m + 1) y) (unitTile ts x0 (y + 1)) = true := by
  rw [far_unit_iff ts h0]
  push_cast
  have : (0 : Int) ≤ m := by exact_mod_cast Nat.zero_le m
  nlinarith

theorem stretch_right (ts : Int) (h0 : 0 < ts) (x0 y k : Nat) :
    stretch ⟨(x0 : Int) * ts, (y : Int) * ts, ((k + 1 : Nat) : Int) * ts, ts⟩
        (unitTile ts (x0 + k + 1) y)
      = ⟨(x0 : Int) * ts, (y : Int) * ts, ((k + 1 + 1 : Nat) : Int) * ts, ts⟩ := by
  have hk : (0 : Int) ≤ (k : Int) * ts :=
    mul_nonneg (by exact_mod_cast Nat.zero_le k) (le_of_lt h0)
  simp only [stretch, unitTile, Rect.mk.injEq, Nat.cast_add, Nat.cast_one, add_mul, one_mul]
  refine ⟨?_, ?_, ?_, ?_⟩ <;> omega

theorem stretch_below (ts : Int) (h0 : 0 < ts) (x0 y0 k : Nat) (width : Int) :
    stretch ⟨(x0 : Int) * ts, (y0 : Int) * ts, width, ((k + 1 : Nat) : Int) * ts⟩
        ⟨(x0 : Int) * ts, ((y0 + k + 1 : Nat) : Int) * ts, width, ts⟩
      = ⟨(x0 : Int) * ts, (y0 : Int) * ts, width, ((k + 1 + 1 : Nat) : Int) * ts⟩ := by
  have hk : (0 : Int) ≤ (k : Int) * ts :=
    mul_nonneg (by exact_mod_cast Nat.zero_le k) (le_of_lt h0)
  simp only [stretch, Rect.mk.injEq, Nat.cast_add, Nat.cast_one, add_mul, one_mul]
  refine ⟨?_, ?_, ?_, ?_⟩ <;> omega

/-- The first sweep along a row: the accumulator grows by one tile for each tile of the
run. -/
theorem sweep_row (ts : Int) (h0 : 0 < ts) (x0 y : Nat) (tail : List Rect) :
    ∀ (n k : Nat),
      sweep (nextRowFunc ts true)
          ⟨(x0 : Int) * ts, (y : Int) * ts, ((k + 1 : Nat) : Int) * ts, ts⟩
          (unitTile ts (x0 + k) y) (rowTiles ts (x0 + k + 1) y n ++ tail)
        = sweep (nextRowFunc ts true)
          ⟨(x0 : Int) * ts, (y : Int) * ts, ((k + 1 + n : Nat) : Int) * ts, ts⟩
          (unitTile ts (x0 + k + n) y) tail := by
  intro n
  induction n with
  | zero => intro k; rfl
  | succ n ih =>
    intro k
    simp only [rowTiles, List.cons_append, sweep, near_right ts h0, Bool.false_eq_true,
      if_false]
    rw [stretch_right ts h0]
    have := ih (k + 1)
    rw [show x0 + (k + 1) = x0 + k + 1 by omega] at this
    rw [show k + 1 + (n + 1) = k + 1 + 1 + n by omega,
      show x0 + k + (n + 1) = x0 + k + 1 + n by omega]
    exact this

/-- The first pass over a block at least two tiles wide gives one rectangle per row. -/
theorem sweep_rows (ts : Int) (h0 : 0 < ts) (h1 : ts * ts < 20000) (x0 m : Nat) :
    ∀ (h y : Nat),
      sweep (nextRowFunc ts true)
          ⟨(x0 : Int) * ts, (y : Int) * ts, ((m + 2 : Nat) : Int) * ts, ts⟩
          (unitTile ts (x0 + m + 1) y) (blockTiles ts x0 (y + 1) (m + 2) h ++ [sentinel])
        = rowRects ts x0 y (m + 2) (h + 1) := by
  intro h
  induction h with
  | zero =>
    intro y
    simp only [blockTiles, List.nil_append, sweep, far_sentinel ts h0 h1, if_true, rowRects]
  | succ h ih =>
    intro y
    have hrow := sweep_row ts h0 x0 (y + 1) (blockTiles ts x0 (y + 1 + 1) (m + 2) h ++ [sentinel])
      (m + 1) 0
    simp only [Nat.add_zero, Nat.zero_add] at hrow
    have hunit : unitTile ts x0 (y + 1)
        = ⟨(x0 : Int) * ts, ((y + 1 : Nat) : Int) * ts, ((1 : Nat) : Int) * ts, ts⟩ := by
      simp [unitTile]
    rw [← hunit] at hrow
    have hstep : blockTiles ts x0 (y + 1) (m + 2) (h + 1) ++ [sentinel]
        = unitTile ts x0 (y + 1) ::
          (rowTiles ts (x0 + 1) (y + 1) (m + 1)
            ++ (blockTiles ts x0 (y + 1 + 1) (m + 2) h ++ [sentinel])) := by
      simp only [blockTiles, rowTiles, List.cons_append, List.append_assoc]
    rw [hstep, sweep]
    simp only [far_next_row ts h0, if_true]
    rw [hrow]
    rw [show 1 + (m + 1) = m + 2 by omega, show x0 + (m + 1) = x0 + m + 1 by omega]
    rw [ih (y + 1)]
    rfl

/-- The first pass over a block one tile wide joins the whole column. -/
theorem sweep_column (ts : Int) (h0 : 0 < ts) (h1 : ts * ts < 20000) (x0 y0 : Nat) :
    ∀ (h k : Nat),
      sweep (nextRowFunc ts true)
          ⟨(x0 : Int) * ts, (y0 : Int) * ts, ts, ((k + 1 : Nat) : Int) * ts⟩
          (unitTile ts x0 (y0 + k)) (blockTiles ts x0 (y0 + k + 1) 1 h ++ [sentinel])
        = [⟨(x0 : Int) * ts, (y0 : Int) * ts, ts, ((k + 1 + h : Nat) : Int) * ts⟩] := by
  intro h
  induction h with
  | zero =>
    intro k
    simp only [blockTiles, List.nil_append, sweep, far_sentinel ts h0 h1, if_true, Nat.add_zero]
  | succ h ih =>
    intro k
    have hstep : blockTiles ts x0 (y0 + k + 1) 1 (h + 1) ++ [sentinel]
        = unitTile ts x0 (y0 + k + 1)
          :: (blockTiles ts x0 (y0 + k + 1 + 1) 1 h ++ [sentinel]) := by
      simp only [blockTiles, rowTiles, List.cons_append, List.nil_append]
    rw [hstep, sweep]
    simp only [near_below ts h0, Bool.false_eq_true, if_false]
    have hunit : unitTile ts x0 (y0 + k + 1)
        = ⟨(x0 : Int) * ts, ((y0 + k + 1 : Nat) : Int) * ts, ts, ts⟩ := rfl
    rw [hunit, stretch_below ts h0, ← hunit]
    have := ih (k + 1)
    rw [show y0 + (k + 1) = y0 + k + 1 by omega] at this
    rw [show k + 1 + (h + 1) = k + 1 + 1 + h by omega]
    exact this

theorem mem_rowRects (ts : Int) (x0 w : Nat) (r : Rect) :
    ∀ (h y : Nat), r ∈ rowRects ts x0 y w h ↔
      ∃ j, j < h ∧ r = ⟨(x0 : Int) * ts, ((y + j : Nat) : Int) * ts, (w : Int) * ts, ts⟩ := by
  intro h
  induction h with
  | zero => intro y; simp [rowRects]
  | succ h ih =>
    intro y
    simp only [rowRects, List.mem_cons, ih]
    constructor
    · rintro (h | ⟨j, hj, h⟩)
      · exact ⟨0, by omega, by simpa using h⟩
      · exact ⟨j + 1, by omega, by rw [h, show y + 1 + j = y + (j + 1) by omega]⟩
    · rintro ⟨j, hj, h⟩
      cases j with
      | zero => left; simpa using h
      | succ j => right; exact ⟨j, by omega, by rw [h, show y + 1 + j = y + (j + 1) by omega]⟩

theorem rowRects_sorted (ts : Int) (h0 : 0 < ts) (x0 w : Nat) :
    ∀ (h y : Nat),
      (rowRects ts x0 y w h).Pairwise (fun p q => compareRectsVertically q p = false) := by
  intro h
  induction h with
  | zero => intro y; simp [rowRects]
  | succ h ih =>
    intro y
    simp only [rowRects, List.pairwise_cons]
    refine ⟨?_, ih (y + 1)⟩
    intro q hq
    obtain ⟨j, _, rfl⟩ := (mem_rowRects ts x0 w q h (y + 1)).mp hq
    have hj : (0 : Int) ≤ (j : Int) * ts :=
      mul_nonneg (by exact_mod_cast Nat.zero_le j) (le_of_lt h0)
    simp only [compareRectsVertically, Nat.cast_add, Nat.cast_one, add_mul, one_mul]
    simp only [lt_self_iff_false, if_false]
    rw [if_neg (by omega)]
    simp

/-- The second pass over the rows of a block joins them all. -/
theorem sweep_join_rows (ts : Int) (h0 : 0 < ts) (x0 y0 w : Nat) (hw : 1 ≤ w) :
    ∀ (h k : Nat),
      sweep (nextRowFunc ts false)
          ⟨(x0 : Int) * ts, (y0 : Int) * ts, (w : Int) * ts, ((k + 1 : Nat) : Int) * ts⟩
          ⟨(x0 : Int) * ts, ((y0 + k : Nat) : Int) * ts, (w : Int) * ts, ts⟩
          (rowRects ts x0 (y0 + k + 1) w h ++ [sentinel])
        = [⟨(x0 : Int) * ts, (y0 : Int) * ts, (w : Int) * ts, ((k + 1 + h : Nat) : Int) * ts⟩] := by
  have hwpos : (0 : Int) < (w : Int) * ts :=
    mul_pos (by exact_mod_cast hw) h0
  intro h
  induction h with
  | zero =>
    intro k
    have hfar : nextRowFunc ts false
        ⟨(x0 : Int) * ts, ((y0 + k : Nat) : Int) * ts, (w : Int) * ts, ts⟩ sentinel = true := by
      simp only [nextRowFunc, sentinel]
      have : ¬ ((w : Int) * ts = 0) := by omega
      simp [this]
    simp only [rowRects, List.nil_append, sweep, hfar, if_true, Nat.add_zero]
  | succ h ih =>
    intro k
    have hx : (0 : Int) ≤ (x0 : Int) * ts :=
      mul_nonneg (by exact_mod_cast Nat.zero_le x0) (le_of_lt h0)
    have hnear : nextRowFunc ts false
        ⟨(x0 : Int) * ts, ((y0 + k : Nat) : Int) * ts, (w : Int) * ts, ts⟩
        ⟨(x0 : Int) * ts, ((y0 + k + 1 : Nat) : Int) * ts, (w : Int) * ts, ts⟩ = false := by
      simp only [nextRowFunc, Nat.cast_add, Nat.cast_one, add_mul, one_mul]
      simp
      constructor <;> omega
    simp only [rowRects, List.cons_append, sweep, hnear, Bool.false_eq_true, if_false]
    rw [stretch_below ts h0]
    have := ih (k + 1)
    rw [show y0 + (k + 1) = y0 + k + 1 by omega] at this
    rw [show k + 1 + (h + 1) = k + 1 + 1 + h by omega]
    exact this

theorem phase1_block_wide (ts : Int) (h0 : 0 < ts) (h1 : ts * ts < 20000) (x0 y0 m h : Nat) :
    mergeHelper ts (blockTiles ts x0 y0 (m + 2) (h + 1)) true
      = rowRects ts x0 y0 (m + 2) (h + 1) := by
  have hrow := sweep_row ts h0 x0 y0 (blockTiles ts x0 (y0 + 1) (m + 2) h ++ [sentinel])
    (m + 1) 0
  simp only [Nat.add_zero, Nat.zero_add] at hrow
  have hunit : unitTile ts x0 y0
      = ⟨(x0 : Int) * ts, (y0 : Int) * ts, ((1 : Nat) : Int) * ts, ts⟩ := by
    simp [unitTile]
  rw [← hunit] at hrow
  have hstep : blockTiles ts x0 y0 (m + 2) (h + 1) ++ [sentinel]
      = unitTile ts x0 y0 ::
        (rowTiles ts (x0 + 1) y0 (m + 1)
          ++ (blockTiles ts x0 (y0 + 1) (m + 2) h ++ [sentinel])) := by
    simp only [blockTiles, rowTiles, List.cons_append, List.append_assoc]
  simp only [mergeHelper]
  rw [hstep]
  simp only []
  rw [hrow, show 1 + (m + 1) = m + 2 by omega, show x0 + (m + 1) = x0 + m + 1 by omega]
  exact sweep_rows ts h0 h1 x0 m h y0

theorem phase1_block_column (ts : Int) (h0 : 0 < ts) (h1 : ts * ts < 20000) (x0 y0 h : Nat) :
    mergeHelper ts (blockTiles ts x0 y0 1 (h + 1)) true
      = [⟨(x0 : Int) * ts, (y0 : Int) * ts, ts, ((h + 1 : Nat) : Int) * ts⟩] := by
  have hcol := sweep_column ts h0 h1 x0 y0 h 0
  simp only [Nat.add_zero, Nat.zero_add] at hcol
  have hunit : unitTile ts x0 y0
      = ⟨(x0 : Int) * ts, (y0 : Int) * ts, ts, ((1 : Nat) : Int) * ts⟩ := by
    simp [unitTile]
  rw [← hunit] at hcol
  have hstep : blockTiles ts x0 y0 1 (h + 1) ++ [sentinel]
      = unitTile ts x0 y0 :: (blockTiles ts x0 (y0 + 1) 1 h ++ [sentinel]) := by
    simp only [blockTiles, rowTiles, List.cons_append, List.nil_append]
  simp only [mergeHelper]
  rw [hstep]
  simp only []
  rw [hcol, show 1 + h = h + 1 by omega]

theorem phase2_rows (ts : Int) (h0 : 0 < ts) (x0 y0 w h : Nat) (hw : 1 ≤ w) :
    mergeHelper ts (sortRects compareRectsVertically (rowRects ts x0 y0 w (h + 1))) false
      = [⟨(x0 : Int) * ts, (y0 : Int) * ts, (w : Int) * ts, ((h + 1 : Nat) : Int) * ts⟩] := by
  rw [sortRects_of_sorted _ _ (rowRects_sorted ts h0 x0 w (h + 1) y0)]
  have hjoin := sweep_join_rows ts h0 x0 y0 w hw h 0
  simp only [Nat.add_zero, Nat.zero_add] at hjoin
  simp only [mergeHelper, rowRects, List.cons_append]
  rw [show 1 + h = h + 1 by omega] at hjoin
  rw [← hjoin]
  simp

theorem phase2_column (ts : Int) (h0 : 0 < ts) (r : Rect) (hr : r.width = ts) :
    mergeHelper ts (sortRects compareRectsVertically [r]) false = [r] := by
  have hfar : nextRowFunc ts false r sentinel = true := by
    simp only [nextRowFunc, sentinel, hr]
    have : ¬ (ts = 0) := by omega
    simp [this]
  simp [mergeHelper, sortRects, orderedInsert, sweep, hfar]

/-! ## Parent pointers and reachable worlds -/

theorem linksOfNodes_append (a b : List WorldTreeNode) :
    linksOfNodes (a ++ b) = linksOfNodes a ++ linksOfNodes b := by
  induction a with
  | nil => simp [linksOfNodes]
  | cons n a ih => simp [linksOfNodes, ih]

theorem childrenLinked_append (v : Option World) (a b : List WorldTreeNode) :
    childrenLinked v (a ++ b) = (childrenLinked v a && childrenLinked v b) := by
  induction a with
  | nil => simp [childrenLinked]
  | cons n a ih => simp [childrenLinked, ih, Bool.and_assoc]

theorem firstParent_cons_eq (l : Option (Option World) × Option World)
    (L : List (Option (Option World) × Option World)) (k : WorldID)
    (h : l.2.map World.id = some k) : firstParent (l :: L) k = some l.1 := by
  unfold firstParent
  have hd : decide (l.2.map World.id = some k) = true := decide_eq_true h
  rw [List.find?_cons]
  simp only [hd, Option.map_some']

theorem firstParent_cons_ne (l : Option (Option World) × Option World)
    (L : List (Option (Option World) × Option World)) (k : WorldID)
    (h : l.2.map World.id ≠ some k) : firstParent (l :: L) k = firstParent L k := by
  unfold firstParent
  have hd : decide (l.2.map World.id = some k) = false := decide_eq_false h
  rw [List.find?_cons]
  simp only [hd]

theorem firstParent_append_found (L L' : List (Option (Option World) × Option World))
    (k : WorldID) (x : Option (Option World)) (h : firstParent L k = some x) :
    firstParent (L ++ L') k = some x := by
  induction L with
  | nil => simp [firstParent] at h
  | cons l L ih =>
    by_cases hl : l.2.map World.id = some k
    · rw [firstParent_cons_eq l L k hl] at h
      rw [List.cons_append, firstParent_cons_eq l _ k hl]
      exact h
    · rw [firstParent_cons_ne l L k hl] at h
      rw [List.cons_append, firstParent_cons_ne l _ k hl]
      exact ih h

theorem firstParent_append_skip (L L' : List (Option (Option World) × Option World))
    (k : WorldID) (h : ∀ l ∈ L, l.2.map World.id ≠ some k) :
    firstParent (L ++ L') k = firstParent L' k := by
  induction L with
  | nil => rfl
  | cons l L ih =>
    rw [List.cons_append, firstParent_cons_ne l _ k (h l (List.mem_cons_self _ _))]
    exact ih (fun l' hl' => h l' (List.mem_cons_of_mem _ hl'))

theorem visitedEntry_mono (s : WorldLoader)
    (L L' : List (Option (Option World) × Option World)) (V V' : List WorldID)
    (e : Location × Location) (h : VisitedEntry s L V e)
    (hL : ∀ x, firstParent L e.1.world = some x → firstParent L' e.1.world = some x)
    (hV : ∀ v ∈ V, v ∈ V') : VisitedEntry s L' V' e := by
  obtain ⟨k, lw, door, c, cw, target, h1, h2, h3, h4, h5, h6, h7, h8⟩ := h
  have hk : e.1.world = k := by rw [h3]
  refine ⟨k, lw, door, c, cw, target, h1, h2, h3, h4, ?_, ?_, h7, h8⟩
  · intro hp
    exact ⟨(h5 hp).1, hV _ (h5 hp).2⟩
  · intro hn
    obtain ⟨p, hp, hc⟩ := h6 hn
    exact ⟨p, by rw [← hk]; exact hL _ (by rw [hk]; exact hp), hc⟩

theorem validEntry_of_visitedEntry (s : WorldLoader)
    (L : List (Option (Option World) × Option World)) (V : List WorldID)
    (e : Location × Location) (h : VisitedEntry s L V e) : ValidEntry s L e := by
  obtain ⟨k, lw, door, c, cw, target, h1, h2, h3, h4, h5, h6, h7, h8⟩ := h
  exact ⟨k, lw, door, c, cw, target, h1, h2, h3, h4, fun hp => (h5 hp).1, h6, h7, h8⟩

theorem mem_emplaceConnection (table : WorldConnectionTable) (src dst : Location)
    (e : Location × Location) (h : e ∈ emplaceConnection table src dst) :
    e ∈ table ∨ e = (src, dst) := by
  unfold emplaceConnection at h
  split at h
  · exact Or.inl h
  · rcases List.mem_append.mp h with h | h
    · exact Or.inl h
    · exact Or.inr (by simpa using h)

theorem linksGrow_refl (loader : WorldLoader) (r0 : WorldID)
    (head : Option (Option World) × Option World) (own : Option WorldID)
    (cs cs' : ConnectState) (hv : cs'.visitedWorlds = cs.visitedWorlds)
    (ht : cs'.connectionLookup = cs.connectionLookup) :
    LinksGrow loader r0 head own cs cs' [] := by
  refine ⟨[], by simp [hv], by simp, by simp [linksOfNodes], ?_⟩
  intro e he
  rw [ht] at he
  exact Or.inl he

/-- The loop of `connectDoors` over the doors `rest` of the world with key `k`, at a node
with the fields `parent` and `value`: the nodes it creates have the node as parent, and
every connection it inserts is valid with respect to the nodes created. -/
theorem connectDoorsLoop_links (loader : WorldLoader) (hwf : WellKeyed loader) (r0 : WorldID)
    (recurse : WorldTreeNode → LoadedWorld → ConnectState →
      Except Fault (WorldTreeNode × ConnectState))
    (hrec : ∀ node w cs r t, recurse node w cs = .ok r → getLoadedWorld loader t = some w →
      node.value = w.world → Reachable loader r0 t →
      ∃ newNodes, r.1 = WorldTreeNode.mk node.parent node.value (node.children ++ newNodes) ∧
        childrenLinked node.value newNodes = true ∧ t ∈ r.2.visitedWorlds ∧
        LinksGrow loader r0 (node.parent, node.value) none cs r.2 newNodes)
    (parent : Option (Option World)) (value : Option World) (world : LoadedWorld)
    (k : WorldID) (hk : getLoadedWorld loader k = some world) (hvalue : value = world.world)
    (hreach : Reachable loader r0 k) :
    ∀ (rest done : List UnloadedDoor) (children : List WorldTreeNode) (cs : ConnectState)
      (r : List WorldTreeNode × ConnectState),
      done ++ rest = world.doors →
      connectDoorsLoop loader recurse parent value world rest children cs = .ok r →
      k ∈ cs.visitedWorlds →
      ∃ newNodes, r.1 = children ++ newNodes ∧ childrenLinked value newNodes = true ∧
        LinksGrow loader r0 (parent, value) (some k) cs r.2 newNodes := by
  obtain ⟨n0, hn0⟩ := hwf k world hk
  have hhead : ((parent, value) : Option (Option World) × Option World).2.map World.id
      = some k := by
    rw [hvalue, hn0]; rfl
  intro rest
  induction rest with
  | nil =>
    intro done children cs r _ h _
    simp only [connectDoorsLoop, Except.ok.injEq] at h
    subst h
    exact ⟨[], by simp, by simp [childrenLinked], linksGrow_refl loader r0 _ _ cs cs rfl rfl⟩
  | cons door rest ih =>
    intro done children cs r hsplit h hkv
    have hsplit1 : (done ++ [door]) ++ rest = world.doors := by
      rw [← hsplit]; simp
    have hmem : door ∈ world.doors := by
      rw [← hsplit]; simp
    unfold connectDoorsLoop at h
    simp only at h
    split at h
    · simp at h
    · rename_i nid hnid
      split at h
      · simp only [Except.ok.injEq] at h
        subst h
        exact ⟨[], by simp, by simp [childrenLinked],
          linksGrow_refl loader r0 _ _ cs _ rfl rfl⟩
      · rename_i cw hcw
        split at h
        · split at h
          · simp at h
          · simp only [Except.ok.injEq] at h
            subst h
            exact ⟨[], by simp, by simp [childrenLinked],
              linksGrow_refl loader r0 _ _ cs _ rfl rfl⟩
        · rename_i target htarget
          split at h
          · rename_i w c hw hc
            have hwid : w.id = k := by
              rw [hn0] at hw; cases hw; rfl
            obtain ⟨n2, hn2⟩ := hwf nid cw hcw
            have hcid : c.id = nid := by
              rw [hc] at hn2; cases hn2; rfl
            -- the connection of this door
            have hentry : ∀ (L : List (Option (Option World) × Option World))
                (V : List WorldID), (0 < door.doorID → nid ∈ V) →
                VisitedEntry loader ((parent, value) :: L) V
                  ((⟨w.id, door.tile⟩ : Location), (⟨c.id, target.tile⟩ : Location)) := by
              intro L V hV
              refine ⟨k, world, door, nid, cw, target, hk, hmem, by rw [hwid], hcw, ?_, ?_,
                htarget, by rw [hcid]⟩
              · intro hp
                have hp' : door.doorID > 0 := hp
                simp only [hp', if_true, Except.ok.injEq] at hnid
                exact ⟨hnid.symm, hV hp⟩
              · intro hn
                have hn' : ¬ door.doorID > 0 := by omega
                simp only [hn', if_false] at hnid
                split at hnid
                · rename_i p
                  simp only [Except.ok.injEq] at hnid
                  exact ⟨p, by rw [firstParent_cons_eq _ _ _ hhead], hnid.symm⟩
                · simp at hnid
            split at h
            · rename_i hpos
              have hpos' : 0 < door.doorID := hpos
              have hnidt : nid = door.worldID := by
                simp only [hpos, if_true, Except.ok.injEq] at hnid
                exact hnid.symm
              split at h
              · simp at h
              · rename_i childNode cs2 hrun
                have hreach2 : Reachable loader r0 nid := by
                  rw [hnidt]
                  exact Reachable.door k world door hreach hk hmem hpos'
                obtain ⟨newC, hnode, hlinkC, hvisC, newVc, hvc, hnewc, hlc, hec⟩ :=
                  hrec _ _ _ _ nid hrun hcw rfl hreach2
                simp only [WorldTreeNode.parent, WorldTreeNode.value, WorldTreeNode.children,
                  List.nil_append] at hnode hlinkC hec
                simp only at hvc hnewc
                have hkv2 : k ∈ cs2.visitedWorlds := by
                  rw [hvc]
                  exact List.mem_append_right _ hkv
                obtain ⟨newR, hr, hlinkR, newVr, hvr, hnewr, hlr, her⟩ :=
                  ih (done ++ [door]) _ cs2 r hsplit1 h hkv2
                have hsub2 : ∀ v ∈ cs2.visitedWorlds, v ∈ r.2.visitedWorlds := by
                  intro v hv
                  rw [hvr]
                  exact List.mem_append_right _ hv
                have hsub1 : ∀ v ∈ cs.visitedWorlds, v ∈ cs2.visitedWorlds := by
                  intro v hv
                  rw [hvc]
                  exact List.mem_append_right _ hv
                have hknewc : k ∉ newVc := fun hm => (hnewc k hm).1 hkv
                have hlinksC : ∀ l ∈ childNode.links, ∃ v lw, l.2 = some v ∧
                    getLoadedWorld loader v.id = some lw ∧ lw.world = some v ∧
                    v.id ∈ cs2.visitedWorlds := by
                  intro l hl
                  rw [hnode] at hl
                  simp only [WorldTreeNode.links, List.mem_cons] at hl
                  rcases hl with rfl | hl
                  · exact ⟨c, cw, hc, by rw [hcid]; exact hcw, hc, by rw [hcid]; exact hvisC⟩
                  · exact hlc l hl
                refine ⟨childNode :: newR, by rw [hr]; simp, ?_, newVr ++ newVc, ?_, ?_, ?_, ?_⟩
                · rw [hnode]
                  simp [childrenLinked, WorldTreeNode.parent, WorldTreeNode.parentsLinked,
                    hlinkC, hlinkR]
                · rw [hvr, hvc]; simp
                · intro v hv
                  rcases List.mem_append.mp hv with hv | hv
                  · exact ⟨fun hm => (hnewr v hv).1 (hsub1 v hm), (hnewr v hv).2⟩
                  · exact hnewc v hv
                · intro l hl
                  simp only [linksOfNodes, List.mem_append] at hl
                  rcases hl with hl | hl
                  · obtain ⟨v, lw, h1, h2, h3, h4⟩ := hlinksC l hl
                    exact ⟨v, lw, h1, h2, h3, hsub2 _ h4⟩
                  · exact hlr l hl
                · intro e he
                  rcases her e he with he2 | ⟨hve, hown⟩
                  · rcases hec e he2 with he1 | ⟨hve, hown⟩
                    · rcases mem_emplaceConnection _ _ _ _ he1 with he0 | rfl
                      · exact Or.inl he0
                      · exact Or.inr ⟨hentry _ _ (fun _ => hsub2 _ hvisC),
                          Or.inl (by rw [hwid])⟩
                    · have hin : e.1.world ∈ newVc := by
                        rcases hown with hown | hown
                        · simp at hown
                        · exact hown
                      have hne : ((parent, value) : Option (Option World) × Option World).2.map
                          World.id ≠ some e.1.world := by
                        rw [hhead]
                        intro heq
                        cases heq
                        exact hknewc hin
                      refine Or.inr ⟨visitedEntry_mono loader _ _ _ _ e hve ?_ hsub2,
                        Or.inr (List.mem_append_right _ hin)⟩
                      intro x hx
                      rw [firstParent_cons_ne _ _ _ hne]
                      simp only [linksOfNodes]
                      apply firstParent_append_found
                      rw [hnode]
                      exact hx
                  · refine Or.inr ⟨visitedEntry_mono loader _ _ _ _ e hve ?_ (fun v hv => hv), ?_⟩
                    · intro x hx
                      by_cases hq : ((parent, value) :
                          Option (Option World) × Option World).2.map World.id = some e.1.world
                      · rw [firstParent_cons_eq _ _ _ hq] at hx ⊢
                        exact hx
                      · rw [firstParent_cons_ne _ _ _ hq] at hx ⊢
                        have hin : e.1.world ∈ newVr := by
                          rcases hown with hown | hown
                          · exfalso
                            apply hq
                            rw [hhead]
                            exact hown
                          · exact hown
                        simp only [linksOfNodes]
                        rw [firstParent_append_skip _ _ _ ?_]
                        · exact hx
                        · intro l hl heq
                          obtain ⟨v, lw, h1, _, _, h4⟩ := hlinksC l hl
                          rw [h1] at heq
                          simp only [Option.map_some', Option.some.injEq] at heq
                          rw [heq] at h4
                          exact (hnewr _ hin).1 h4
                    · rcases hown with hown | hown
                      · exact Or.inl hown
                      · exact Or.inr (List.mem_append_left _ hown)
            · rename_i hnpos
              obtain ⟨newR, hr, hlinkR, newVr, hvr, hnewr, hlr, her⟩ :=
                ih (done ++ [door]) _ _ r hsplit1 h hkv
              refine ⟨newR, hr, hlinkR, newVr, hvr, hnewr, hlr, ?_⟩
              intro e he
              rcases her e he with he1 | hnew
              · rcases mem_emplaceConnection _ _ _ _ he1 with he0 | rfl
                · exact Or.inl he0
                · exact Or.inr ⟨hentry _ _ (fun hp => absurd hp hnpos), Or.inl (by rw [hwid])⟩
              · exact Or.inr hnew
          · simp at h

/-- A call of `connectDoors` on a node whose value is the world given: the node keeps its
parent pointer and value, the nodes created below it have their holder as parent, the
world has been visited when the call returns, and every connection inserted is valid with
respect to the nodes created. -/
theorem connectDoors_links (loader : WorldLoader) (hwf : WellKeyed loader) (r0 : WorldID) :
    ∀ (fuel : Nat) (node : WorldTreeNode) (w : LoadedWorld) (cs : ConnectState)
      (r : WorldTreeNode × ConnectState) (t : WorldID),
      connectDoors loader fuel node w cs = .ok r → getLoadedWorld loader t = some w →
      node.value = w.world → Reachable loader r0 t →
      ∃ newNodes, r.1 = WorldTreeNode.mk node.parent node.value (node.children ++ newNodes) ∧
        childrenLinked node.value newNodes = true ∧ t ∈ r.2.visitedWorlds ∧
        LinksGrow loader r0 (node.parent, node.value) none cs r.2 newNodes := by
  intro fuel
  induction fuel with
  | zero => intro node w cs r t h; simp [connectDoors] at h
  | succ fuel ih =>
    intro node w cs r t h ht hval hreach
    unfold connectDoors at h
    split at h
    · simp at h
    · rename_i w0 hw0
      obtain ⟨n0, hn0⟩ := hwf t w ht
      have hid : w0.id = t := by
        rw [hw0] at hn0; cases hn0; rfl
      rw [hid] at h
      split at h
      · rename_i hvis
        simp only [Except.ok.injEq] at h
        subst h
        refine ⟨[], ?_, by simp [childrenLinked], hvis, linksGrow_refl loader r0 _ _ cs cs rfl rfl⟩
        cases node
        simp [WorldTreeNode.parent, WorldTreeNode.value, WorldTreeNode.children]
      · rename_i hnew
        split at h
        · simp at h
        · rename_i children cs1 hloop
          simp only [Except.ok.injEq] at h
          subst h
          obtain ⟨newNodes, hr, hlink, newV, hv, hnewv, hl, he⟩ :=
            connectDoorsLoop_links loader hwf r0 (connectDoors loader fuel) ih node.parent
              node.value w t ht hval hreach w.doors [] node.children
              ⟨cs.connectionLookup, t :: cs.visitedWorlds, cs.errors⟩ (children, cs1) rfl hloop
              (List.mem_cons_self _ _)
          simp only at hr hv hnewv hl he
          refine ⟨newNodes, by rw [hr], hlink, ?_, newV ++ [t], ?_, ?_, hl, ?_⟩
          · show t ∈ cs1.visitedWorlds
            rw [hv]
            exact List.mem_append_right _ (List.mem_cons_self _ _)
          · show cs1.visitedWorlds = (newV ++ [t]) ++ cs.visitedWorlds
            rw [hv]; simp
          · intro v hvm
            rcases List.mem_append.mp hvm with hvm | hvm
            · exact ⟨fun hm => (hnewv v hvm).1 (List.mem_cons_of_mem _ hm), (hnewv v hvm).2⟩
            · have : v = t := by simpa using hvm
              subst this
              exact ⟨hnew, hreach, by rw [ht]; rfl⟩
          · intro e hem
            rcases he e hem with h0 | ⟨hve, hown⟩
            · exact Or.inl h0
            · refine Or.inr ⟨hve, Or.inr ?_⟩
              rcases hown with hown | hown
              · simp only [Option.some.injEq] at hown
                rw [← hown]
                simp
              · exact List.mem_append_left _ hown

mutual
theorem WorldTreeNode.worlds_eq_links : ∀ n : WorldTreeNode,
    n.worlds = n.links.map Prod.snd
  | .mk p v cs => by
    simp [WorldTreeNode.worlds, WorldTreeNode.links, worldsOfNodes_eq_links cs]
theorem worldsOfNodes_eq_links : ∀ ns : List WorldTreeNode,
    worldsOfNodes ns = (linksOfNodes ns).map Prod.snd
  | [] => by simp [worldsOfNodes, linksOfNodes]
  | n :: ns => by
    simp [worldsOfNodes, linksOfNodes, WorldTreeNode.worlds_eq_links n,
      worldsOfNodes_eq_links ns]
end

theorem eq_of_tile_eq (l : List UnloadedDoor) (h : (l.map (fun d => d.tile)).Nodup)
    (a b : UnloadedDoor) (ha : a ∈ l) (hb : b ∈ l) (hab : a.tile = b.tile) : a = b :=
  List.inj_on_of_nodup_map h ha hb hab

/-- Claim C1, evaluated on a grid where it fails. For every tile size `ts > 0`, the two
diagonal tiles `(1, 0)` and `(0, 1)` form a list as `findCollidableTiles` produces it, and
`mergeAdjacentTiles` turns it into the single rectangle `(0, 0, 2 * ts, ts)`: the second
sweep takes the two tiles, which touch in a corner, for adjacent, and the stretch step
computes the height from the already lowered `top`. The input tile `(0, 1)` is contained
in no rectangle of the output. -/
theorem mergeAdjacentTiles_loses_tile (ts : Int) (h0 : 0 < ts) :
    UnitTiles ts [unitTile ts 1 0, unitTile ts 0 1] ∧
      mergeAdjacentTiles ts [unitTile ts 1 0, unitTile ts 0 1] = [⟨0, 0, 2 * ts, ts⟩] ∧
      ¬ ∃ r ∈ mergeAdjacentTiles ts [unitTile ts 1 0, unitTile ts 0 1],
        Rect.within (unitTile ts 0 1) r := by
  refine ⟨⟨?_, ?_⟩, merge_diagonal ts h0, ?_⟩
  · simp [unitTile]; omega
  · intro r hr
    simp only [List.mem_cons, List.mem_singleton, List.not_mem_nil, or_false] at hr
    rcases hr with rfl | rfl
    · exact ⟨1, 0, rfl⟩
    · exact ⟨0, 1, rfl⟩
  · rw [merge_diagonal ts h0]
    simp [Rect.within, unitTile]
    omega

/-- Claim C1: the evaluation at the failing grid holds for tile size 32. -/
theorem mergeAdjacentTiles_loses_tile_witness : (0 : Int) < 32 ∧
    (UnitTiles 32 [unitTile 32 1 0, unitTile 32 0 1] ∧
      mergeAdjacentTiles 32 [unitTile 32 1 0, unitTile 32 0 1] = [⟨0, 0, 2 * 32, 32⟩] ∧
      ¬ ∃ r ∈ mergeAdjacentTiles 32 [unitTile 32 1 0, unitTile 32 0 1],
        Rect.within (unitTile 32 0 1) r) :=
  ⟨by decide, mergeAdjacentTiles_loses_tile 32 (by decide)⟩

/-- Claim C2, evaluated on a grid where it fails. For every tile size `ts > 0`, the tiles
`(0, 0)`, `(0, 1)`, `(1, 1)` form a list as `findCollidableTiles` produces it, and
`mergeAdjacentTiles` turns it into the single rectangle `(0, 0, 2 * ts, 2 * ts)`: the first
sweep merges tile `(0, 1)` into the accumulator of tile `(0, 0)` right above it, the
distance of the two origins being exactly one tile. The output covers cell `(1, 0)`, which
is not an input tile. -/
theorem mergeAdjacentTiles_covers_free_cell (ts : Int) (h0 : 0 < ts) :
    UnitTiles ts [unitTile ts 0 0, unitTile ts 0 1, unitTile ts 1 1] ∧
      mergeAdjacentTiles ts [unitTile ts 0 0, unitTile ts 0 1, unitTile ts 1 1]
        = [⟨0, 0, 2 * ts, 2 * ts⟩] ∧
      unitTile ts 1 0 ∉ [unitTile ts 0 0, unitTile ts 0 1, unitTile ts 1 1] ∧
      ∃ r ∈ mergeAdjacentTiles ts [unitTile ts 0 0, unitTile ts 0 1, unitTile ts 1 1],
        Rect.coversCell ts r 1 0 := by
  refine ⟨⟨?_, ?_⟩, merge_corner ts h0, ?_, ?_⟩
  · simp [unitTile]; omega
  · intro r hr
    simp only [List.mem_cons, List.mem_singleton, List.not_mem_nil, or_false] at hr
    rcases hr with rfl | rfl | rfl
    · exact ⟨0, 0, rfl⟩
    · exact ⟨0, 1, rfl⟩
    · exact ⟨1, 1, rfl⟩
  · simp [unitTile]; omega
  · rw [merge_corner ts h0]
    simp [Rect.coversCell, Rect.within, unitTile]
    omega

/-- Claim C2: the evaluation at the failing grid holds for tile size 32. -/
theorem mergeAdjacentTiles_covers_free_cell_witness : (0 : Int) < 32 ∧
    (UnitTiles 32 [unitTile 32 0 0, unitTile 32 0 1, unitTile 32 1 1] ∧
      mergeAdjacentTiles 32 [unitTile 32 0 0, unitTile 32 0 1, unitTile 32 1 1]
        = [⟨0, 0, 2 * 32, 2 * 32⟩] ∧
      unitTile 32 1 0 ∉ [unitTile 32 0 0, unitTile 32 0 1, unitTile 32 1 1] ∧
      ∃ r ∈ mergeAdjacentTiles 32 [unitTile 32 0 0, unitTile 32 0 1, unitTile 32 1 1],
        Rect.coversCell 32 r 1 0) :=
  ⟨by decide, mergeAdjacentTiles_covers_free_cell 32 (by decide)⟩

/-- Claim C3 fails on the tiles `(0, 0)`, `(1, 0)`, `(0, 1)` with tile size 32:
`mergeAdjacentTiles` returns the rows `(0, 0, 64, 32)` and `(0, 32, 32, 32)`, and merging
these two rectangles again returns `(0, 0, 64, 64)`: the second run does not return the
output of the first. The origins of the two rows are one tile size apart, which the
distance test of the first pass does not take for far, so the first pass of the second
run joins the row below to the row above; the result covers the cell `(1, 1)`, which is
not a tile of the input. -/
theorem mergeAdjacentTiles_not_idempotent :
    UnitTiles 32 [unitTile 32 0 0, unitTile 32 1 0, unitTile 32 0 1] ∧
      mergeAdjacentTiles 32 [unitTile 32 0 0, unitTile 32 1 0, unitTile 32 0 1]
        = [⟨0, 0, 64, 32⟩, ⟨0, 32, 32, 32⟩] ∧
      mergeAdjacentTiles 32 [⟨0, 0, 64, 32⟩, ⟨0, 32, 32, 32⟩] = [⟨0, 0, 64, 64⟩] ∧
      mergeAdjacentTiles 32
          (mergeAdjacentTiles 32 [unitTile 32 0 0, unitTile 32 1 0, unitTile 32 0 1])
        ≠ mergeAdjacentTiles 32 [unitTile 32 0 0, unitTile 32 1 0, unitTile 32 0 1] ∧
      nextRowFunc 32 true ⟨0, 0, 64, 32⟩ ⟨0, 32, 32, 32⟩ = false ∧
      mergeHelper 32 (sortRects compareRectsHorizontally [⟨0, 0, 64, 32⟩, ⟨0, 32, 32, 32⟩])
          true = [⟨0, 0, 64, 64⟩] ∧
      unitTile 32 1 1 ∉ [unitTile 32 0 0, unitTile 32 1 0, unitTile 32 0 1] ∧
      Rect.coversCell 32 ⟨0, 0, 64, 64⟩ 1 1 := by
  refine ⟨⟨by decide, ?_⟩, by decide, by decide, by decide, by decide, by decide, by decide,
    by decide⟩
  intro r hr
  simp only [List.mem_cons, List.mem_singleton, List.not_mem_nil, or_false] at hr
  rcases hr with rfl | rfl | rfl
  · exact ⟨0, 0, rfl⟩
  · exact ⟨1, 0, rfl⟩
  · exact ⟨0, 1, rfl⟩

/-- Claim C4. For every tile size `ts` with `0 < ts` and `ts * ts < 20000` (the sentinel
of `mergeHelper` at `(-100, -100)` is then more than one tile away from every tile), every
list of unit tiles as `findCollidableTiles` produces it, and every tile `(x, y)` of the list
none of whose eight neighbours is in the list, the output of `mergeAdjacentTiles` contains
the rectangle of that tile, of one tile by one tile at the tile's own position; and when
it is the only tile, the output is exactly that rectangle. -/
theorem isolated_tile_kept (ts : Int) (h0 : 0 < ts) (h1 : ts * ts < 20000)
    (tiles : List Rect) (hu : UnitTiles ts tiles) (x y : Nat) (hmem : unitTile ts x y ∈ tiles)
    (hiso : ∀ x' y', EightNeighbours x y x' y' → unitTile ts x' y' ∉ tiles) :
    unitTile ts x y ∈ mergeAdjacentTiles ts tiles ∧
      (tiles = [unitTile ts x y] → mergeAdjacentTiles ts tiles = [unitTile ts x y]) := by
  refine ⟨isolated_tile_mem ts h0 h1 tiles hu x y hmem hiso, ?_⟩
  intro h
  rw [h]
  exact merge_single ts h0 h1 x y

/-- Claim C4: the hypotheses hold, and hence the conclusion, for tile `(0, 0)` among the
tiles `(0, 0)`, `(2, 0)`, `(2, 1)` with tile size 32. -/
theorem isolated_tile_kept_witness :
    ((0 : Int) < 32 ∧ (32 : Int) * 32 < 20000 ∧
      UnitTiles 32 [unitTile 32 0 0, unitTile 32 2 0, unitTile 32 2 1] ∧
      unitTile 32 0 0 ∈ [unitTile 32 0 0, unitTile 32 2 0, unitTile 32 2 1] ∧
      ∀ x' y', EightNeighbours 0 0 x' y' →
        unitTile 32 x' y' ∉ [unitTile 32 0 0, unitTile 32 2 0, unitTile 32 2 1]) ∧
    (unitTile 32 0 0 ∈ mergeAdjacentTiles 32 [unitTile 32 0 0, unitTile 32 2 0, unitTile 32 2 1] ∧
      ([unitTile 32 0 0, unitTile 32 2 0, unitTile 32 2 1] = [unitTile 32 0 0] →
        mergeAdjacentTiles 32 [unitTile 32 0 0, unitTile 32 2 0, unitTile 32 2 1]
          = [unitTile 32 0 0])) := by
  have hu : UnitTiles 32 [unitTile 32 0 0, unitTile 32 2 0, unitTile 32 2 1] := by
    refine ⟨by decide, ?_⟩
    intro r hr
    simp only [List.mem_cons, List.mem_singleton, List.not_mem_nil, or_false] at hr
    rcases hr with rfl | rfl | rfl
    · exact ⟨0, 0, rfl⟩
    · exact ⟨2, 0, rfl⟩
    · exact ⟨2, 1, rfl⟩
  have hiso : ∀ x' y', EightNeighbours 0 0 x' y' →
      unitTile 32 x' y' ∉ [unitTile 32 0 0, unitTile 32 2 0, unitTile 32 2 1] := by
    intro x' y' hn hm
    simp only [List.mem_cons, List.mem_singleton, List.not_mem_nil, or_false] at hm
    unfold EightNeighbours at hn
    rcases hm with hm | hm | hm
    · have := unitTile_injective 32 (by decide) _ _ _ _ hm
      omega
    · have := unitTile_injective 32 (by decide) _ _ _ _ hm
      omega
    · have := unitTile_injective 32 (by decide) _ _ _ _ hm
      omega
  exact ⟨⟨by decide, by decide, hu, by decide, hiso⟩,
    isolated_tile_kept 32 (by decide) (by decide) _ hu 0 0 (by decide) hiso⟩

/-- Claim C5. Let the buildings layer of the outdoor map hold exactly a building marker
with interior map "shop" and a door marker of ID 1, in either order, the door tile being
within the building bounds, and let the buildings layer of the shop map hold exactly a
door marker of ID -1. Then, with a recursion budget of at least 2, `loadWorlds` on a fresh
loader returns the main world (ID 0); the loaded worlds are the outdoor world under ID 0
and the shop under ID 1; the connection table consists of the two entries (0, outdoor door
tile) to (1, shop door tile) and (1, shop door tile) to (0, outdoor door tile); and the
tree root, whose value is the main world, has exactly one child, a leaf whose value is the
shop world and whose parent is the root. -/
theorem loadWorlds_shop_scenario (env : Env) (fuel : Nat)
    (mainWorldName lname sname : String)
    (items : List TileWrapper) (bt dt st : TileWrapper) (hfuel : 2 ≤ fuel)
    (hmain : (env.tmxLoad (getWorldFilePath env mainWorldName false)).layers.find?
      (fun layer => layer.name == "buildings") = some ⟨lname, items⟩)
    (hitems : items = [bt, dt] ∨ items = [dt, bt])
    (hb1 : bt.isPropertyShape = true) (hb2 : bt.property.buildingWorld = some "shop")
    (hd1 : dt.isPropertyShape = true) (hd2 : dt.property.buildingWorld = none)
    (hd3 : dt.property.doorID = some 1)
    (hin : boundsContain (buildingBounds env bt) (tilePosition env dt) = true)
    (hshop : (env.tmxLoad (getWorldFilePath env "shop" true)).layers.find?
      (fun layer => layer.name == "buildings") = some ⟨sname, [st]⟩)
    (hs1 : st.isPropertyShape = true) (hs2 : st.property.buildingWorld = none)
    (hs3 : st.property.doorID = some (-1)) :
    ∃ res, loadWorlds env fuel mainWorldName [] emptyRoot WorldLoader.init = .ok res ∧
      res.result = some ⟨0, getWorldFilePath env mainWorldName false⟩ ∧
      res.loader.loadedWorlds.map (fun e => (e.1, e.2.world))
        = [(0, some ⟨0, getWorldFilePath env mainWorldName false⟩),
           (1, some ⟨1, getWorldFilePath env "shop" true⟩)] ∧
      res.connectionLookup
        = [(⟨0, tilePosition env dt⟩, ⟨1, tilePosition env st⟩),
           (⟨1, tilePosition env st⟩, ⟨0, tilePosition env dt⟩)] ∧
      res.treeRoot = WorldTreeNode.mk none (some ⟨0, getWorldFilePath env mainWorldName false⟩)
        [WorldTreeNode.mk (some (some ⟨0, getWorldFilePath env mainWorldName false⟩))
          (some ⟨1, getWorldFilePath env "shop" true⟩) []] := by
  obtain ⟨n, rfl⟩ : ∃ n, fuel = n + 2 := ⟨fuel - 2, by omega⟩
  have hdt : (loadDoor env dt 1).tile = tilePosition env dt := by
    obtain ⟨shape, pos, ⟨bw, did, dwid, dw, dss, dsrc, dims⟩⟩ := dt
    cases dw <;> cases dss <;> cases dwid <;> cases dsrc <;> simp [loadDoor]
  have hdi : (loadDoor env dt 1).doorID = 1 := by
    obtain ⟨shape, pos, ⟨bw, did, dwid, dw, dss, dsrc, dims⟩⟩ := dt
    cases dw <;> cases dss <;> cases dwid <;> cases dsrc <;> simp [loadDoor]
  have hst : (loadDoor env st (-1)).tile = tilePosition env st := by
    obtain ⟨shape, pos, ⟨bw, did, dwid, dw, dss, dsrc, dims⟩⟩ := st
    cases dw <;> cases dss <;> cases dwid <;> cases dsrc <;> simp [loadDoor]
  have hsi : (loadDoor env st (-1)).doorID = -1 := by
    obtain ⟨shape, pos, ⟨bw, did, dwid, dw, dss, dsrc, dims⟩⟩ := st
    cases dw <;> cases dss <;> cases dwid <;> cases dsrc <;> simp [loadDoor]
  rcases hitems with rfl | rfl <;>
    simp [loadWorlds, loadWorld, loadWorldWithID, getLoadedWorld, WorldLoader.init, hmain,
      hshop, loadItem, hb1, hb2, hd1, hd2, hd3, hs1, hs2, hs3, storeWorld, LoadedWorld.failed,
      loadBuildings, transferBuildingIDs, findDoorBuilding, hin, hdt, modifyDoor,
      discoverAndLoadAllWorlds, discoverDoors, connectDoors, connectDoorsLoop, findPartnerDoor,
      hdi, hsi, hst, emplaceConnection, emptyRoot, WorldTreeNode.value, WorldTreeNode.children,
      WorldTreeNode.parent, List.range, List.range.loop, List.lookup]

/-- Claim C5: the hypotheses hold, and hence the conclusion, for the example maps
"town" and "shop". -/
theorem loadWorlds_shop_scenario_witness :
    2 ≤ 2 ∧ ∃ res, loadWorlds exampleEnv 2 "town" [] emptyRoot WorldLoader.init = .ok res ∧
      res.result = some ⟨0, "world/town.tmx"⟩ ∧
      res.loader.loadedWorlds.map (fun e => (e.1, e.2.world))
        = [(0, some ⟨0, "world/town.tmx"⟩), (1, some ⟨1, "buildings/shop.tmx"⟩)] ∧
      res.connectionLookup = [(⟨0, ⟨3, 6⟩⟩, ⟨1, ⟨1, 2⟩⟩), (⟨1, ⟨1, 2⟩⟩, ⟨0, ⟨3, 6⟩⟩)] ∧
      res.treeRoot = WorldTreeNode.mk none (some ⟨0, "world/town.tmx"⟩)
        [WorldTreeNode.mk (some (some ⟨0, "world/town.tmx"⟩))
          (some ⟨1, "buildings/shop.tmx"⟩) []] :=
  ⟨le_refl 2,
    loadWorlds_shop_scenario exampleEnv 2 "town" "buildings" "buildings"
      [buildingMarker 32 32 64 64 "shop", doorMarker 48 96 1 none none none]
      (buildingMarker 32 32 64 64 "shop") (doorMarker 48 96 1 none none none)
      (doorMarker 16 32 (-1) none none none) (le_refl 2) (by decide) (Or.inl rfl) rfl rfl rfl rfl
      rfl (by decide) (by decide) rfl rfl rfl⟩

/-- Claim C6 fails: a door with both the world-id property (5) and the world-name
property ("shop") gets the named-world tag, and a door with the world-id property and the
share property gets the share tag; neither gets the direct-id tag. -/
theorem loadDoor_world_id_overridden :
    (doorMarker 0 0 1 (some 5) (some "shop") none).property.doorWorldID = some 5 ∧
      (loadDoor exampleEnv (doorMarker 0 0 1 (some 5) (some "shop") none) 1).doorTag
        = DoorTag.DOORTAG_WORLD_NAME ∧
      (loadDoor exampleEnv (doorMarker 0 0 1 (some 5) none (some "alley")) 1).doorTag
        = DoorTag.DOORTAG_WORLD_SHARE := by
  decide

/-- Claim C6, amended. For every door property bundle parsed by `loadWorld`, the tag is
named-world whenever the world-name property is present; otherwise share-tag when the
share property is present; otherwise direct-id when the world-id property is present;
otherwise unknown. -/
theorem loadDoor_doorTag_priority (env : Env) (tile : TileWrapper) (doorID : Int) :
    (loadDoor env tile doorID).doorTag =
      if tile.property.doorWorld.isSome then DoorTag.DOORTAG_WORLD_NAME
      else if tile.property.doorWorldShareSpecifier.isSome then DoorTag.DOORTAG_WORLD_SHARE
      else if tile.property.doorWorldID.isSome then DoorTag.DOORTAG_WORLD_ID
      else DoorTag.DOORTAG_UNKNOWN := by
  obtain ⟨shape, pos, ⟨bw, did, dwid, dw, dss, dsrc, dims⟩⟩ := tile
  cases dw <;> cases dss <;> cases dwid <;> cases dsrc <;> simp [loadDoor]

/-- Claim C7. For all loaded worlds `w1` and `w2` such that the doors of `w1` have
pairwise distinct door IDs, and every door `a` of `w1`: if `findPartnerDoor` finds door `b`
in `w2` for the ID of `a`, then `findPartnerDoor` finds `a` in `w1` for the ID of `b`. (The
distinctness of the door IDs of `w2` is not needed.) -/
theorem findPartnerDoor_symmetric (w1 w2 : LoadedWorld) (a b : UnloadedDoor)
    (hids : (w1.doors.map (fun d => d.doorID)).Nodup) (ha : a ∈ w1.doors)
    (hb : findPartnerDoor w2 a.doorID = some b) :
    findPartnerDoor w1 b.doorID = some a := by
  unfold findPartnerDoor at hb ⊢
  have hid : b.doorID = -a.doorID := by
    have := List.find?_some hb
    simpa using this
  have e : -b.doorID = a.doorID := by omega
  rw [e]
  exact find_partner_self a w1.doors hids ha

/-- Claim C7: the hypotheses hold, and hence the conclusion, for a door of ID 1 in one
world and a door of ID -1 in another. -/
theorem findPartnerDoor_symmetric_witness :
    (([(⟨⟨3, 6⟩, 1, DoorTag.DOORTAG_WORLD_ID, "", "", 1⟩ : UnloadedDoor)].map
        (fun d => d.doorID)).Nodup ∧
      (⟨⟨3, 6⟩, 1, DoorTag.DOORTAG_WORLD_ID, "", "", 1⟩ : UnloadedDoor)
        ∈ [(⟨⟨3, 6⟩, 1, DoorTag.DOORTAG_WORLD_ID, "", "", 1⟩ : UnloadedDoor)] ∧
      findPartnerDoor ⟨some ⟨1, "shop"⟩, [⟨⟨1, 2⟩, -1, DoorTag.DOORTAG_UNKNOWN, "", "", 77⟩], []⟩ 1
        = some ⟨⟨1, 2⟩, -1, DoorTag.DOORTAG_UNKNOWN, "", "", 77⟩) ∧
    findPartnerDoor ⟨some ⟨0, "town"⟩, [⟨⟨3, 6⟩, 1, DoorTag.DOORTAG_WORLD_ID, "", "", 1⟩], []⟩ (-1)
      = some ⟨⟨3, 6⟩, 1, DoorTag.DOORTAG_WORLD_ID, "", "", 1⟩ :=
  ⟨⟨by decide, by decide, by decide⟩,
    findPartnerDoor_symmetric
      ⟨some ⟨0, "town"⟩, [⟨⟨3, 6⟩, 1, DoorTag.DOORTAG_WORLD_ID, "", "", 1⟩], []⟩
      ⟨some ⟨1, "shop"⟩, [⟨⟨1, 2⟩, -1, DoorTag.DOORTAG_UNKNOWN, "", "", 77⟩], []⟩
      ⟨⟨3, 6⟩, 1, DoorTag.DOORTAG_WORLD_ID, "", "", 1⟩
      ⟨⟨1, 2⟩, -1, DoorTag.DOORTAG_UNKNOWN, "", "", 77⟩ (by decide) (by decide) (by decide)⟩

/-- Claim C8 fails on the example map "town_exit", whose interior has the doors -5 and
-1, in this order: the partner of door -1 (door 1 of the parent world 0) exists, but
`connectDoors` returns at door -5, whose partner is missing, so that the connection table
has the single entry of door 1 of the outdoor map and none keyed by the tile of door -1. -/
theorem connectDoors_skips_door_with_partner :
    (loadWorlds exampleEnv 2 "town_exit" [] emptyRoot WorldLoader.init).toOption.map
        (fun res => res.connectionLookup)
      = some [((⟨0, ⟨3, 6⟩⟩ : Location), (⟨1, ⟨1, 2⟩⟩ : Location))] ∧
    (loadWorlds exampleEnv 2 "town_exit" [] emptyRoot WorldLoader.init).toOption.map
        (fun res => (getLoadedWorld res.loader 1).map
          (fun w => w.doors.map (fun d => (d.doorID, d.tile))))
      = some (some [(-5, ⟨4, 2⟩), (-1, ⟨1, 2⟩)]) ∧
    (loadWorlds exampleEnv 2 "town_exit" [] emptyRoot WorldLoader.init).toOption.map
        (fun res => (getLoadedWorld res.loader 0).bind (fun w => findPartnerDoor w (-1)))
      = some (some ⟨⟨3, 6⟩, 1, DoorTag.DOORTAG_WORLD_ID, "", "", 1⟩) := by
  refine ⟨by decide, by decide, by decide⟩

/-- Claim C8, amended. When `loadWorlds` on a fresh loader with an empty connection table
and a root without children returns the main world, no error of `connectDoors` has been
logged (every door reached has its neighbouring world loaded and its partner in it) and no
two doors of a loaded world are on the same tile, then the worlds visited by the connection
pass are, each once, the worlds reachable from the root through doors of positive ID, all
of them loaded; the number of entries of the connection table equals the number of doors
of these worlds; every entry maps the (world ID, tile) of a door of a loaded world to the
(world ID, tile) of its partner door, the first door with the negated ID in the
neighbouring world, which is the world `door.worldID` for a door of positive ID and the
world of the parent node for any other door; and every door of a reachable world has an
entry keyed by its own (world ID, tile). -/
theorem connectionLookup_size_of_no_error (env : Env) (fuel : Nat) (mainWorldName : String)
    (root : WorldTreeNode) (res : LoadResult) (w : World)
    (hroot : root.children = [])
    (hrun : loadWorlds env fuel mainWorldName [] root WorldLoader.init = .ok res)
    (hres : res.result = some w)
    (hnoerr : ∀ e ∈ res.loader.errors, LogError.isConnectError e = false)
    (htiles : ∀ e ∈ res.loader.loadedWorlds, (e.2.doors.map (fun d => d.tile)).Nodup) :
    res.connectVisited.Nodup ∧
      (∀ id, id ∈ res.connectVisited ↔ Reachable res.loader w.id id) ∧
      (∀ id ∈ res.connectVisited, (getLoadedWorld res.loader id).isSome = true) ∧
      res.connectionLookup.length = sumDoors res.loader res.connectVisited ∧
      (∀ e ∈ res.connectionLookup, ValidEntry res.loader res.treeRoot.links e) ∧
      (∀ id ∈ res.connectVisited, ∀ lw, getLoadedWorld res.loader id = some lw →
        ∀ d ∈ lw.doors, ∃ e ∈ res.connectionLookup, e.1 = ⟨id, d.tile⟩) := by
  obtain ⟨rp, rv, rc⟩ := root
  obtain rfl : rc = [] := hroot
  obtain ⟨hw, s2, main2, cs, hm2, hmw, hconn, hl, hvis, htab⟩ :=
    loadWorlds_root_value env fuel mainWorldName [] _ res w hrun hres
  have hwf : WellKeyed s2 := by
    have := (allocated_loadWorlds env fuel mainWorldName [] _ res hrun).2
    rw [hl] at this
    exact this
  -- no error is logged by the connection pass
  have herr : cs.errors = s2.errors := by
    obtain ⟨extra, he, hx⟩ := connectDoors_errors s2 fuel _ _ _ _ hconn
    cases extra with
    | nil => simpa using he
    | cons x extra =>
      exfalso
      have h1 := hx x (List.mem_cons_self _ _)
      have h2 := hnoerr x (by rw [hl]; simp only; rw [he]; simp)
      rw [h1] at h2
      exact absurd h2 (by simp)
  have hloader : res.loader = s2 := by
    rw [hl, herr]
  have hid : w.id = 0 := by rw [hw]
  rw [hloader] at htiles ⊢
  rw [hvis, htab, hid]
  have htiles2 : ∀ k lw, getLoadedWorld s2 k = some lw →
      (lw.doors.map (fun d => d.tile)).Nodup :=
    fun k lw h => htiles (k, lw) (mem_of_lookup k lw _ h)
  obtain ⟨hinv, v, t, hv, ht, hlen, _, _, hcov⟩ :=
    connectDoors_extends s2 hwf htiles2 fuel _ _ _ _ _ hconn hm2 ⟨by simp, by simp⟩ herr
  simp only [List.nil_append, List.append_nil] at hv ht
  obtain ⟨newNodes, hnode, _, h0vis, newV, hnv, hnewv, _, hentries⟩ :=
    connectDoors_links s2 hwf 0 fuel _ main2 _ _ 0 hconn hm2 (by rw [hmw]; rfl)
      Reachable.root
  simp only [WorldTreeNode.parent, WorldTreeNode.value, WorldTreeNode.children,
    List.append_nil, List.nil_append] at hnode hnv hentries
  have hlinks : res.treeRoot.links = (rp, some w) :: linksOfNodes newNodes := by
    rw [hnode]
    rfl
  have hvisited : ∀ e ∈ cs.connectionLookup,
      VisitedEntry s2 res.treeRoot.links cs.visitedWorlds e := by
    intro e he
    rcases hentries e he with h0 | h1
    · simp at h0
    · rw [hlinks]
      exact h1.1
  -- the worlds behind the doors of positive ID of a visited world are visited
  have hclosed : ∀ k lw d, k ∈ cs.visitedWorlds → getLoadedWorld s2 k = some lw →
      d ∈ lw.doors → 0 < d.doorID → d.worldID ∈ cs.visitedWorlds := by
    intro k lw d hk hlw hd hpos
    have hkv : k ∈ v := by rw [← hv]; exact hk
    obtain ⟨e, he, hkey⟩ := hcov k hkv lw hlw d hd
    have he' : e ∈ cs.connectionLookup := by rw [ht]; exact he
    obtain ⟨k', lw', door', c, cw, target, g1, g2, g3, _, g5, _⟩ := hvisited e he'
    rw [hkey] at g3
    have hk' : k = k' := congrArg Location.world g3
    subst hk'
    rw [hlw] at g1
    obtain rfl := Option.some.inj g1
    have hdoor : d = door' :=
      eq_of_tile_eq lw.doors (htiles2 k lw hlw) d door' hd g2 (congrArg Location.tile g3)
    subst hdoor
    obtain ⟨hc, hcv⟩ := g5 hpos
    rw [← hc]
    exact hcv
  refine ⟨hinv.2, ?_, ?_, by rw [ht, hlen, hv]; simp, ?_, ?_⟩
  · intro id
    constructor
    · intro hmem
      rw [hnv] at hmem
      exact (hnewv id hmem).2.1
    · intro hreach
      induction hreach with
      | root => exact h0vis
      | door k lw d _ hlw hd hpos ih => exact hclosed k lw d ih hlw hd hpos
  · intro id hmem
    rw [hnv] at hmem
    exact (hnewv id hmem).2.2
  · intro e he
    exact validEntry_of_visitedEntry s2 _ _ e (hvisited e he)
  · intro id hmem lw hlw d hd
    obtain ⟨e, he, hkey⟩ := hcov id (by rw [← hv]; exact hmem) lw hlw d hd
    exact ⟨e, by rw [ht]; exact he, hkey⟩

/-- Claim C8, amended: the hypotheses hold, and hence the conclusion, for the example maps
"town" and "shop". -/
theorem connectionLookup_size_of_no_error_witness :
    ∃ res w, (emptyRoot.children = [] ∧
        loadWorlds exampleEnv 2 "town" [] emptyRoot WorldLoader.init = .ok res ∧
        res.result = some w ∧
        (∀ e ∈ res.loader.errors, LogError.isConnectError e = false) ∧
        (∀ e ∈ res.loader.loadedWorlds, (e.2.doors.map (fun d => d.tile)).Nodup)) ∧
      (res.connectVisited.Nodup ∧
        (∀ id, id ∈ res.connectVisited ↔ Reachable res.loader w.id id) ∧
        (∀ id ∈ res.connectVisited, (getLoadedWorld res.loader id).isSome = true) ∧
        res.connectionLookup.length = sumDoors res.loader res.connectVisited ∧
        (∀ e ∈ res.connectionLookup, ValidEntry res.loader res.treeRoot.links e) ∧
        (∀ id ∈ res.connectVisited, ∀ lw, getLoadedWorld res.loader id = some lw →
          ∀ d ∈ lw.doors, ∃ e ∈ res.connectionLookup, e.1 = ⟨id, d.tile⟩)) :=
  ⟨_, _, ⟨rfl, rfl, rfl, by decide, by decide⟩,
    connectionLookup_size_of_no_error exampleEnv 2 "town" emptyRoot _ _ rfl rfl rfl
      (by decide) (by decide)⟩

/-- Claim C9 fails on the example map "town_unknown", whose interior has a door of ID 2
without world-id, world-name or share property: the discovery logs that door 2 has no
door tag, and `loadWorlds` still returns the main world, with both worlds registered in
the loader. -/
theorem unknown_tag_load_returns_main_world :
    (loadWorlds exampleEnv 2 "town_unknown" [] emptyRoot WorldLoader.init).toOption.map
        (fun res => (res.result, res.loader.errors, res.loader.loadedWorlds.map Prod.fst))
      = some (some ⟨0, "world/town_unknown.tmx"⟩,
          [LogError.noDoorTag 2, LogError.worldNotLoaded 77], [0, 1]) := by
  decide

/-- Claim C9, amended. When the discovery reaches a door of positive ID whose tag is
unknown, it logs the error and returns from the discovery of that world; and whenever that
error has been logged and `loadWorlds` (on a fresh loader) returns, it returns the main
world, which is still registered in the loader under ID 0. -/
theorem unknown_tag_not_fatal (env : Env) (fuel : Nat) (mainWorldName : String)
    (table : WorldConnectionTable) (root : WorldTreeNode) (res : LoadResult) (doorID : Int)
    (hrun : loadWorlds env fuel mainWorldName table root WorldLoader.init = .ok res)
    (hlog : LogError.noDoorTag doorID ∈ res.loader.errors) :
    (∃ w lw, res.result = some w ∧ getLoadedWorld res.loader 0 = some lw ∧ lw.world = some w) ∧
    (∀ (recurse : WorldID → WorldLoader × List WorldID →
          Except Fault (WorldLoader × List WorldID))
        (key : WorldID) (i : Nat) (rest : List Nat) (s : WorldLoader) (visited : List WorldID)
        (world : LoadedWorld) (door : UnloadedDoor),
      getLoadedWorld s key = some world → world.doors.get? i = some door →
      0 < door.doorID → door.doorTag = DoorTag.DOORTAG_UNKNOWN →
      discoverDoors env recurse key (i :: rest) (s, visited)
        = .ok (s.logError (LogError.noDoorTag door.doorID), visited)) := by
  constructor
  · rcases loadWorlds_cases env fuel mainWorldName table root _ res hrun with h | h
    · exfalso
      rcases h.2 with e | ⟨x, y, e⟩ <;> rw [e] at hlog <;> simp [WorldLoader.init] at hlog
    · exact h
  · intro recurse key i rest s visited world door hw hd hpos htag
    have hnot : ¬ door.doorID ≤ 0 := by omega
    simp only [discoverDoors, hw, hd, hnot, if_false, htag]

/-- Claim C9, amended: the hypotheses hold, and hence the conclusion, for the example map
"town_unknown". -/
theorem unknown_tag_not_fatal_witness :
    ∃ res, (loadWorlds exampleEnv 2 "town_unknown" [] emptyRoot WorldLoader.init = .ok res ∧
        LogError.noDoorTag 2 ∈ res.loader.errors) ∧
      ∃ w lw, res.result = some w ∧ getLoadedWorld res.loader 0 = some lw ∧ lw.world = some w :=
  ⟨_, ⟨rfl, by decide⟩,
    (unknown_tag_not_fatal exampleEnv 2 "town_unknown" [] emptyRoot _ 2 rfl (by decide)).1⟩

/-- Claim C10 fails on the example map "town_alley", whose interior has two doors
sharing the tag "alley" and no door with another tag and that share string: the discovery
logs both doors, and `loadWorlds` still returns the main world. -/
theorem missing_share_load_returns_main_world :
    (loadWorlds exampleEnv 2 "town_alley" [] emptyRoot WorldLoader.init).toOption.map
        (fun res => (res.result, res.loader.errors, res.loader.loadedWorlds.map Prod.fst))
      = some (some ⟨0, "world/town_alley.tmx"⟩,
          [LogError.unknownShareTag 2 "alley", LogError.unknownShareTag 3 "alley",
            LogError.worldNotLoaded 77], [0, 1]) := by
  decide

/-- Claim C10, amended. When the discovery reaches a share-tag door of positive ID and no
door of the same map carries a non-share tag with the same share string, it logs the error
and goes on with the next door of that world; and whenever that error has been logged and
`loadWorlds` (on a fresh loader) returns, it returns the main world, which is registered
in the loader under ID 0. -/
theorem missing_share_not_fatal (env : Env) (fuel : Nat) (mainWorldName : String)
    (table : WorldConnectionTable) (root : WorldTreeNode) (res : LoadResult) (doorID : Int)
    (share : String)
    (hrun : loadWorlds env fuel mainWorldName table root WorldLoader.init = .ok res)
    (hlog : LogError.unknownShareTag doorID share ∈ res.loader.errors) :
    (∃ w lw, res.result = some w ∧ getLoadedWorld res.loader 0 = some lw ∧ lw.world = some w) ∧
    (∀ (recurse : WorldID → WorldLoader × List WorldID →
          Except Fault (WorldLoader × List WorldID))
        (key : WorldID) (i : Nat) (rest : List Nat) (s : WorldLoader) (visited : List WorldID)
        (world : LoadedWorld) (door : UnloadedDoor),
      getLoadedWorld s key = some world → world.doors.get? i = some door →
      0 < door.doorID → door.doorTag = DoorTag.DOORTAG_WORLD_SHARE →
      (∀ d ∈ world.doors,
        d.doorTag = DoorTag.DOORTAG_WORLD_SHARE ∨ d.worldShare ≠ door.worldShare) →
      discoverDoors env recurse key (i :: rest) (s, visited)
        = discoverDoors env recurse key rest
            (s.logError (LogError.unknownShareTag door.doorID door.worldShare), visited)) := by
  constructor
  · rcases loadWorlds_cases env fuel mainWorldName table root _ res hrun with h | h
    · exfalso
      rcases h.2 with e | ⟨x, y, e⟩ <;> rw [e] at hlog <;> simp [WorldLoader.init] at hlog
    · exact h
  · intro recurse key i rest s visited world door hw hd hpos htag hnone
    have hnot : ¬ door.doorID ≤ 0 := by omega
    have hfind : world.doors.find? (fun d =>
        decide (d.doorTag ≠ DoorTag.DOORTAG_WORLD_SHARE) && d.worldShare == door.worldShare)
        = none := by
      rw [List.find?_eq_none]
      intro d hdm
      rcases hnone d hdm with h | h
      · simp [h]
      · simp [h]
    rw [discoverDoors]
    simp only [hw, hd, hnot, if_false, htag, hfind]

/-- Claim C10, amended: the hypotheses hold, and hence the conclusion, for the example map
"town_alley". -/
theorem missing_share_not_fatal_witness :
    ∃ res, (loadWorlds exampleEnv 2 "town_alley" [] emptyRoot WorldLoader.init = .ok res ∧
        LogError.unknownShareTag 2 "alley" ∈ res.loader.errors) ∧
      ∃ w lw, res.result = some w ∧ getLoadedWorld res.loader 0 = some lw ∧ lw.world = some w :=
  ⟨_, ⟨rfl, by decide⟩,
    (missing_share_not_fatal exampleEnv 2 "town_alley" [] emptyRoot _ 2 "alley" rfl
      (by decide)).1⟩

/-- Claim C11 fails on the example map "town_exit", whose interior has a door of ID -5
while the outdoor map has no door of ID 5: the connection pass logs the missing partner,
and `loadWorlds` still returns the main world, with one connection in the table. -/
theorem missing_partner_load_returns_main_world :
    (loadWorlds exampleEnv 2 "town_exit" [] emptyRoot WorldLoader.init).toOption.map
        (fun res => (res.result, res.loader.errors, res.connectionLookup.length))
      = some (some ⟨0, "world/town_exit.tmx"⟩, [LogError.noPartnerDoor 77 (-5) 1], 1) := by
  decide

/-- Claim C11, amended. When `connectDoors` reaches a door whose neighbouring world is
loaded and has no door with the negated ID, it logs the error and returns from the
connection of that world, keeping the children and the table built so far; and whenever
that error has been logged and `loadWorlds` (on a fresh loader) returns, it returns the
main world, which is registered in the loader under ID 0. -/
theorem missing_partner_not_fatal (env : Env) (fuel : Nat) (mainWorldName : String)
    (table : WorldConnectionTable) (root : WorldTreeNode) (res : LoadResult)
    (worldID : WorldID) (doorID : Int) (inWorld : WorldID)
    (hrun : loadWorlds env fuel mainWorldName table root WorldLoader.init = .ok res)
    (hlog : LogError.noPartnerDoor worldID doorID inWorld ∈ res.loader.errors) :
    (∃ w lw, res.result = some w ∧ getLoadedWorld res.loader 0 = some lw ∧ lw.world = some w) ∧
    (∀ (loader : WorldLoader)
        (recurse : WorldTreeNode → LoadedWorld → ConnectState →
          Except Fault (WorldTreeNode × ConnectState))
        (parent : Option (Option World)) (value : Option World) (world : LoadedWorld)
        (door : UnloadedDoor) (rest : List UnloadedDoor) (children : List WorldTreeNode)
        (cs : ConnectState) (nid : WorldID) (childWorld : LoadedWorld) (w : World),
      ((0 < door.doorID ∧ nid = door.worldID) ∨
        (door.doorID ≤ 0 ∧ ∃ p, parent = some (some p) ∧ nid = p.id)) →
      getLoadedWorld loader nid = some childWorld →
      findPartnerDoor childWorld door.doorID = none → world.world = some w →
      connectDoorsLoop loader recurse parent value world (door :: rest) children cs
        = .ok (children, ⟨cs.connectionLookup, cs.visitedWorlds,
            cs.errors ++ [LogError.noPartnerDoor door.worldID door.doorID w.id]⟩)) := by
  constructor
  · rcases loadWorlds_cases env fuel mainWorldName table root _ res hrun with h | h
    · exfalso
      rcases h.2 with e | ⟨x, y, e⟩ <;> rw [e] at hlog <;> simp [WorldLoader.init] at hlog
    · exact h
  · intro loader recurse parent value world door rest children cs nid childWorld w hn hc hp hw
    rcases hn with ⟨hpos, rfl⟩ | ⟨hneg, p, rfl, rfl⟩
    · have hgt : door.doorID > 0 := hpos
      simp only [connectDoorsLoop, hgt, if_true, hc, hp, hw]
    · have hgt : ¬ door.doorID > 0 := by omega
      simp only [connectDoorsLoop, hgt, if_false, hc, hp, hw]

/-- Claim C11, amended: the hypotheses hold, and hence the conclusion, for the example map
"town_exit". -/
theorem missing_partner_not_fatal_witness :
    ∃ res, (loadWorlds exampleEnv 2 "town_exit" [] emptyRoot WorldLoader.init = .ok res ∧
        LogError.noPartnerDoor 77 (-5) 1 ∈ res.loader.errors) ∧
      ∃ w lw, res.result = some w ∧ getLoadedWorld res.loader 0 = some lw ∧ lw.world = some w :=
  ⟨_, ⟨rfl, by decide⟩,
    (missing_partner_not_fatal exampleEnv 2 "town_exit" [] emptyRoot _ 77 (-5) 1 rfl
      (by decide)).1⟩

/-- Claim C17 fails for maps that are not square. For every tile size and map pixel size
the four borders are: left and right of height `worldSize.y`, top and bottom of width
`worldSize.y` as well (not `worldSize.x`); on a map of 64 by 32 pixels with tiles of 32
pixels the top and bottom borders end at x = 32, half the width of the map. -/
theorem worldBorders_width_is_map_height (tileSize : Int) (worldSize : Vector2i) :
    worldBorders tileSize worldSize
      = [⟨-tileSize - Int.tdiv tileSize 4, 0, tileSize, worldSize.y⟩,
          ⟨0, -tileSize - Int.tdiv tileSize 4, worldSize.y, tileSize⟩,
          ⟨worldSize.x + Int.tdiv tileSize 4, 0, tileSize, worldSize.y⟩,
          ⟨0, worldSize.y + Int.tdiv tileSize 4, worldSize.y, tileSize⟩] ∧
    worldBorders 32 ⟨64, 32⟩
      = [⟨-40, 0, 32, 32⟩, ⟨0, -40, 32, 32⟩, ⟨72, 0, 32, 32⟩, ⟨0, 40, 32, 32⟩] :=
  ⟨rfl, by decide⟩

/-- Claim C20 fails on the example map "town_late", whose interior lists a share-tag door
of ID 2 (share string "yard") before its sibling of ID 3, a named-world door that is the
source of that share string. The share door copies the world ID of the sibling before the
sibling is resolved. When the unassigned ID reads as 77, no world is loaded under it and
the discovery dereferences a null pointer; when it reads as 0, door 2 ends with world ID
0 while door 3 leads to world 2. -/
theorem share_door_before_named_sibling :
    (match loadWorlds (districtEnv 77) 3 "town_late" [] emptyRoot WorldLoader.init with
      | .error e => some e
      | .ok _ => none) = some Fault.nullDereference ∧
    (loadWorlds (districtEnv 0) 3 "town_late" [] emptyRoot WorldLoader.init).toOption.map
        (fun res => (getLoadedWorld res.loader 1).map
          (fun lw => lw.doors.map (fun d => (d.doorID, d.doorTag, d.worldShare, d.worldID))))
      = some (some [(-1, DoorTag.DOORTAG_UNKNOWN, "", 0),
          (2, DoorTag.DOORTAG_WORLD_SHARE, "yard", 0),
          (3, DoorTag.DOORTAG_WORLD_NAME, "yard", 2)]) := by
  refine ⟨by decide, by decide⟩

/-- Claim C12, amended. A door is in a building when its tile lies within the bounds of the
building with both ends included (`left ≤ x ≤ left + width`, `top ≤ y ≤ top + height`).
When some door of the outdoor map, as loaded by a fresh loader, lies in no building in
this sense, `findDoorBuilding` finds no building for it and `loadWorlds` returns no main
world, whatever the fuel, after logging a door that is in no building. -/
theorem door_outside_buildings_fatal (env : Env) (fuel : Nat) (mainWorldName : String)
    (table : WorldConnectionTable) (root : WorldTreeNode) (mainWorld : LoadedWorld)
    (door : UnloadedDoor)
    (hmain : getLoadedWorld (loadWorld env mainWorldName false WorldLoader.init).2 0
      = some mainWorld)
    (hdoor : door ∈ mainWorld.doors)
    (hout : ∀ b ∈ mainWorld.buildings,
      ¬ (b.bounds.left ≤ door.tile.x ∧ door.tile.x ≤ b.bounds.left + b.bounds.width ∧
        b.bounds.top ≤ door.tile.y ∧ door.tile.y ≤ b.bounds.top + b.bounds.height)) :
    findDoorBuilding mainWorld door = none ∧
    ∃ res, loadWorlds env fuel mainWorldName table root WorldLoader.init = .ok res ∧
      res.result = none ∧ ∃ x y, res.loader.errors = [LogError.doorNotInBuilding x y] := by
  have hfind : findDoorBuilding mainWorld door = none := by
    unfold findDoorBuilding
    rw [List.find?_eq_none]
    intro b hb
    rw [boundsContain_iff]
    exact hout b hb
  refine ⟨hfind, ?_⟩
  obtain ⟨hkey, lw, hlw, hworld, hids, _, _⟩ := loadWorld_init_entry env mainWorldName false
  rw [hmain] at hlw
  simp only [Option.some.injEq] at hlw
  subst hlw
  have hfailed : mainWorld.failed = false := by simp [LoadedWorld.failed, hworld]
  have hs1 : getLoadedWorld (loadBuildings env mainWorld.buildings
      (loadWorld env mainWorldName false WorldLoader.init).2) 0 = some mainWorld := by
    rw [getLoadedWorld_loadBuildings_ne, hmain]
    intro b hb
    have := (hids b hb).1
    intro h0
    rw [h0] at this
    exact absurd this (by decide)
  obtain ⟨i, hget⟩ := List.mem_iff_get?.mp hdoor
  have hi : i < mainWorld.doors.length := by
    by_contra hge
    rw [List.get?_eq_none.mpr (by omega)] at hget
    simp at hget
  have hfalse := transferBuildingIDs_fails 0 (List.range mainWorld.doors.length) _ mainWorld hs1
    (fun j hj => List.mem_range.mp hj) ⟨i, List.mem_range.mpr hi, door, hget, hfind⟩
  obtain ⟨x, y, herr⟩ := transferBuildingIDs_errors 0 _ _ hfalse
  refine ⟨⟨none, (transferBuildingIDs 0 (List.range mainWorld.doors.length)
      (loadBuildings env mainWorld.buildings
        (loadWorld env mainWorldName false WorldLoader.init).2)).1, table,
    WorldTreeNode.mk root.parent mainWorld.world root.children, []⟩, ?_, rfl, x, y, ?_⟩
  · unfold loadWorlds
    simp only [hkey, hmain, hfailed, hs1, hfalse]
    rfl
  · simp only [herr, loadBuildings_errors, loadWorld_errors]
    rfl

/-- Claim C12, amended: the hypotheses hold, and hence the conclusion, for the example map
"town_far", whose door is on tile (7, 3) while the building has bounds (2, 2, 4, 4). -/
theorem door_outside_buildings_fatal_witness :
    ∃ mainWorld door,
      (getLoadedWorld (loadWorld (districtEnv 77) "town_far" false WorldLoader.init).2 0
          = some mainWorld ∧ door ∈ mainWorld.doors ∧
        ∀ b ∈ mainWorld.buildings,
          ¬ (b.bounds.left ≤ door.tile.x ∧ door.tile.x ≤ b.bounds.left + b.bounds.width ∧
            b.bounds.top ≤ door.tile.y ∧ door.tile.y ≤ b.bounds.top + b.bounds.height)) ∧
      findDoorBuilding mainWorld door = none ∧
      ∃ res, loadWorlds (districtEnv 77) 2 "town_far" [] emptyRoot WorldLoader.init = .ok res ∧
        res.result = none ∧ ∃ x y, res.loader.errors = [LogError.doorNotInBuilding x y] :=
  ⟨⟨some ⟨0, "world/town_far.tmx"⟩,
      [⟨⟨7, 3⟩, 1, DoorTag.DOORTAG_UNKNOWN, "", "", 77⟩], [⟨1, "shop", ⟨2, 2, 4, 4⟩⟩]⟩,
    ⟨⟨7, 3⟩, 1, DoorTag.DOORTAG_UNKNOWN, "", "", 77⟩,
    ⟨by decide, by decide, by decide⟩,
    door_outside_buildings_fatal (districtEnv 77) 2 "town_far" [] emptyRoot _ _
      (by decide) (by decide) (by decide)⟩

/-- Claim C12 fails on the example map "town_edge": the building has bounds (2, 2, 4, 4),
so it takes the tiles with 2 ≤ x < 6, and the door is on tile (6, 3); `loadWorlds` returns
the main world, and the door is given the interior world ID 1 of that building. -/
theorem door_on_far_edge_is_assigned :
    (loadWorlds (districtEnv 77) 2 "town_edge" [] emptyRoot WorldLoader.init).toOption.map
        (fun res => (res.result, res.loader.errors))
      = some (some ⟨0, "world/town_edge.tmx"⟩, []) ∧
    (loadWorlds (districtEnv 77) 2 "town_edge" [] emptyRoot WorldLoader.init).toOption.map
        (fun res => (getLoadedWorld res.loader 0).map (fun lw => lw.buildings))
      = some (some [⟨1, "shop", ⟨2, 2, 4, 4⟩⟩]) ∧
    (loadWorlds (districtEnv 77) 2 "town_edge" [] emptyRoot WorldLoader.init).toOption.map
        (fun res => (getLoadedWorld res.loader 0).map (fun lw => lw.doors))
      = some (some [⟨⟨6, 3⟩, 1, DoorTag.DOORTAG_WORLD_ID, "", "", 1⟩]) := by
  refine ⟨by decide, by decide, by decide⟩

/-- Claim C16 fails on the example map "town_twins", whose interior has two doors of
positive ID that both name the world "back": the map "back" is loaded twice, under the
IDs 2 and 3, and the two doors lead to different worlds. -/
theorem same_name_loaded_twice :
    (loadWorlds (districtEnv 77) 3 "town_twins" [] emptyRoot WorldLoader.init).toOption.map
        (fun res => res.loader.loadedWorlds.map (fun e => e.2.world))
      = some [some ⟨0, "world/town_twins.tmx"⟩, some ⟨1, "buildings/twins.tmx"⟩,
          some ⟨2, "buildings/back.tmx"⟩, some ⟨3, "buildings/back.tmx"⟩] ∧
    (loadWorlds (districtEnv 77) 3 "town_twins" [] emptyRoot WorldLoader.init).toOption.map
        (fun res => (getLoadedWorld res.loader 1).map (fun lw => lw.doors))
      = some (some [⟨⟨1, 2⟩, -1, DoorTag.DOORTAG_UNKNOWN, "", "", 77⟩,
          ⟨⟨4, 2⟩, 2, DoorTag.DOORTAG_WORLD_NAME, "back", "", 2⟩,
          ⟨⟨5, 2⟩, 3, DoorTag.DOORTAG_WORLD_NAME, "back", "", 3⟩]) := by
  refine ⟨by decide, by decide⟩

/-- Claim C18. `isCollidable` holds for exactly the six block types WATER, TREE,
BUILDING_WALL, BUILDING_EDGE, BUILDING_ROOF and BUILDING_ROOF_CORNER. For a positive tile
size, `findCollidableTiles` appends to `rectsRet` a list without repetition that holds
the unit rectangle of tile `(x, y)` exactly for the tiles of the map whose block of the
terrain layer is collidable. -/
theorem findCollidableTiles_one_per_collidable_tile (ts : Int) (hts : 0 < ts)
    (worldTileSize : Vector2i) (getBlockAt : Vector2i → BlockType) (rectsRet : List Rect) :
    (∀ bt, isCollidable bt = true ↔
      (bt = BlockType.WATER ∨ bt = BlockType.TREE ∨ bt = BlockType.BUILDING_WALL ∨
        bt = BlockType.BUILDING_EDGE ∨ bt = BlockType.BUILDING_ROOF ∨
        bt = BlockType.BUILDING_ROOF_CORNER)) ∧
    findCollidableTiles ts worldTileSize getBlockAt rectsRet
      = rectsRet ++ findCollidableTiles ts worldTileSize getBlockAt [] ∧
    (findCollidableTiles ts worldTileSize getBlockAt []).Nodup ∧
    ∀ r, r ∈ findCollidableTiles ts worldTileSize getBlockAt [] ↔
      ∃ x y : Nat, (x : Int) < worldTileSize.x ∧ (y : Int) < worldTileSize.y ∧
        isCollidable (getBlockAt ⟨x, y⟩) = true ∧ r = unitTile ts x y :=
  ⟨isCollidable_iff, findCollidableTiles_append ts worldTileSize getBlockAt rectsRet,
    nodup_findCollidableTiles ts hts worldTileSize getBlockAt,
    mem_findCollidableTiles ts worldTileSize getBlockAt⟩

/-- Claim C18: the hypothesis holds, and hence the conclusion, for tiles of 32 pixels and
a map of two by two tiles with a tree at tile (1, 0), water at tile (0, 1), a fence at
tile (1, 1) and grass elsewhere. -/
theorem findCollidableTiles_one_per_collidable_tile_witness :
    (0 : Int) < 32 ∧
    findCollidableTiles 32 ⟨2, 2⟩
        (fun t => if t = ⟨1, 0⟩ then BlockType.TREE else if t = ⟨0, 1⟩ then BlockType.WATER
          else if t = ⟨1, 1⟩ then BlockType.FENCE else BlockType.GRASS) []
      = [⟨32, 0, 32, 32⟩, ⟨0, 32, 32, 32⟩] ∧
    (findCollidableTiles 32 ⟨2, 2⟩
        (fun t => if t = ⟨1, 0⟩ then BlockType.TREE else if t = ⟨0, 1⟩ then BlockType.WATER
          else if t = ⟨1, 1⟩ then BlockType.FENCE else BlockType.GRASS) []).Nodup :=
  ⟨by decide, by decide,
    (findCollidableTiles_one_per_collidable_tile 32 (by decide) ⟨2, 2⟩
      (fun t => if t = ⟨1, 0⟩ then BlockType.TREE else if t = ⟨0, 1⟩ then BlockType.WATER
        else if t = ⟨1, 1⟩ then BlockType.FENCE else BlockType.GRASS) []).2.2.1⟩

/-- Claim C13. `generateWorldID` returns the counter and adds one to it, starting at 0, and
`loadWorld(name, isBuilding)` loads under the ID so generated. In a loader whose allocation
is sound (`Allocated`: distinct keys, keys and interior IDs of buildings below the counter,
distinct interior IDs), this ID is the key of no loaded world, and the allocation stays
sound. In the loop over the buildings of the main world, every interior is loaded under an
ID that is the key of no world loaded before. When `loadWorlds` on a fresh loader returns,
the allocation is sound and every loaded world has its key as its ID: no two loaded worlds
and no two buildings share a world ID. -/
theorem world_ids_unique (env : Env) (fuel : Nat) (mainWorldName : String)
    (table : WorldConnectionTable) (root : WorldTreeNode) (res : LoadResult)
    (hrun : loadWorlds env fuel mainWorldName table root WorldLoader.init = .ok res) :
    ((generateWorldID WorldLoader.init).1 = 0 ∧
      ∀ s, (generateWorldID s).1 = s.lastWorldID ∧
        (generateWorldID s).2.lastWorldID = s.lastWorldID + 1 ∧
        ∀ name isBuilding, loadWorld env name isBuilding s
          = ((generateWorldID s).1,
              loadWorldWithID env name isBuilding (generateWorldID s).1 (generateWorldID s).2)) ∧
    (∀ s name isBuilding, Allocated s → 0 ≤ s.lastWorldID →
      getLoadedWorld s (loadWorld env name isBuilding s).1 = none ∧
      Allocated (loadWorld env name isBuilding s).2 ∧
      s.lastWorldID < (loadWorld env name isBuilding s).2.lastWorldID) ∧
    (∀ main, getLoadedWorld (loadWorld env mainWorldName false WorldLoader.init).2 0
        = some main →
      ∀ pre b post, main.buildings = pre ++ b :: post →
        getLoadedWorld (loadBuildings env pre
          (loadWorld env mainWorldName false WorldLoader.init).2) b.insideWorldID = none) ∧
    ((loadedKeys res.loader).Nodup ∧ (buildingIDs res.loader).Nodup ∧
      (∀ id ∈ loadedKeys res.loader ++ buildingIDs res.loader,
        0 ≤ id ∧ id < res.loader.lastWorldID) ∧
      Allocated res.loader ∧ WellKeyed res.loader) := by
  refine ⟨⟨rfl, fun s => ⟨rfl, rfl, fun _ _ => rfl⟩⟩, ?_, ?_, ?_⟩
  · intro s name isBuilding h h0
    exact allocated_loadWorld env name isBuilding s h h0
  · intro main hmain pre b post e
    obtain ⟨main0, hmain0, _, hfresh, _⟩ := loadBuildings_init env mainWorldName
    rw [hmain] at hmain0
    obtain rfl := Option.some.inj hmain0
    exact hfresh pre b post e
  · have h := allocated_loadWorlds env fuel mainWorldName table root res hrun
    refine ⟨h.1.1, h.1.2.2.1, ?_, h.1, h.2⟩
    intro id hid
    rcases List.mem_append.mp hid with hid | hid
    · obtain ⟨e, he, rfl⟩ := List.mem_map.mp hid
      exact h.1.2.1 e he
    · exact h.1.2.2.2 id hid

/-- Claim C13: the hypothesis holds, and hence the conclusion, for the example map
"town_twins", where two named-world doors load two further worlds. -/
theorem world_ids_unique_witness :
    ∃ res, loadWorlds (districtEnv 77) 3 "town_twins" [] emptyRoot WorldLoader.init = .ok res ∧
      (loadedKeys res.loader).Nodup ∧ (buildingIDs res.loader).Nodup ∧
      (∀ id ∈ loadedKeys res.loader ++ buildingIDs res.loader,
        0 ≤ id ∧ id < res.loader.lastWorldID) ∧
      Allocated res.loader ∧ WellKeyed res.loader :=
  ⟨_, rfl, (world_ids_unique (districtEnv 77) 3 "town_twins" [] emptyRoot _ rfl).2.2.2⟩

/-- Claim C19. When `loadWorlds` on a fresh loader returns the main world, every door of
the outdoor map (the world registered under ID 0) ends with the direct-world-id tag and
with the interior world ID of the first building of the map's building list whose bounds
contain the tile of the door, and the interior map of that building is the world loaded
under that ID. -/
theorem outdoor_doors_lead_to_buildings (env : Env) (fuel : Nat) (mainWorldName : String)
    (table : WorldConnectionTable) (root : WorldTreeNode) (res : LoadResult) (w : World)
    (hrun : loadWorlds env fuel mainWorldName table root WorldLoader.init = .ok res)
    (hres : res.result = some w) :
    ∃ main, getLoadedWorld res.loader 0 = some main ∧ main.world = some w ∧
      ∀ door ∈ main.doors,
        door.doorTag = DoorTag.DOORTAG_WORLD_ID ∧
        ∃ b, main.buildings.find? (fun b => boundsContain b.bounds door.tile) = some b ∧
          door.worldID = b.insideWorldID ∧
          ∃ interior, getLoadedWorld res.loader b.insideWorldID = some interior ∧
            interior.world
              = some ⟨b.insideWorldID, getWorldFilePath env b.insideWorldName true⟩ := by
  obtain ⟨main0, hmain0, _, _, halloc, hpos, hmain1, hint⟩ :=
    loadBuildings_init env mainWorldName
  obtain ⟨main, hmain, hcase⟩ := loadWorlds_stages env fuel mainWorldName table root _ res hrun
  have hmm : main = main0 := by
    have : getLoadedWorld (loadWorld env mainWorldName false WorldLoader.init).2 0
        = some main := hmain
    rw [hmain0] at this
    exact (Option.some.inj this).symm
  subst hmm
  rcases hcase with ⟨_, hnone, _⟩ | ⟨_, main1, hm1, hcase⟩
  · rw [hnone] at hres; simp at hres
  · have hm1' : main1 = main := by
      have : getLoadedWorld (loadBuildings env main.buildings
          (loadWorld env mainWorldName false WorldLoader.init).2) 0 = some main1 := hm1
      rw [hmain1] at this
      exact (Option.some.inj this).symm
    subst hm1'
    rcases hcase with ⟨_, hnone, _⟩ | ⟨htrue, s2, v2, main2, root1, cs, hdisc, hm2, _, hr, hl, _⟩
    · rw [hnone] at hres; simp at hres
    · -- after the transfer loop
      obtain ⟨w', g1, g2, g3, g4, g5, g6⟩ := transferBuildingIDs_success 0
        (List.range main1.doors.length) _ main1 hmain1
        (fun j hj => List.mem_range.mp hj) htrue
      have hstart : (Allocated (transferBuildingIDs 0 (List.range main1.doors.length)
            (loadBuildings env main1.buildings
              (loadWorld env mainWorldName false WorldLoader.init).2)).1 ∧
          0 ≤ (transferBuildingIDs 0 (List.range main1.doors.length)
            (loadBuildings env main1.buildings
              (loadWorld env mainWorldName false WorldLoader.init).2)).1.lastWorldID) ∧
          MainDoorsResolved env (transferBuildingIDs 0 (List.range main1.doors.length)
            (loadBuildings env main1.buildings
              (loadWorld env mainWorldName false WorldLoader.init).2)).1 := by
        constructor
        · exact transferBuildingIDs_invariant (fun s => Allocated s ∧ 0 ≤ s.lastWorldID)
            (fun s e h => h)
            (fun s k i f h => ⟨allocated_modifyDoor s k i f h.1, by
              rw [lastWorldID_modifyDoor]; exact h.2⟩) 0 _ _ ⟨halloc, hpos⟩
        · refine ⟨w', g1, ?_⟩
          intro door hd
          obtain ⟨j, hj⟩ := List.mem_iff_get?.mp hd
          have hjlt : j < main1.doors.length := by
            rw [← g4]
            by_contra hge
            rw [List.get?_eq_none.mpr (by omega)] at hj
            simp at hj
          obtain ⟨htag, b, hb, hid⟩ := g6 j (Or.inl (List.mem_range.mpr hjlt)) door hj
          refine ⟨htag, b, hb, hid, ?_⟩
          have hbm : b ∈ main1.buildings := by
            rw [← g3]
            exact List.mem_of_find?_eq_some hb
          have hne : b.insideWorldID ≠ 0 := by
            intro e
            have := (hint b hbm).1
            rw [e] at this
            exact absurd this (by decide)
          rw [g5 _ hne]
          exact (hint b hbm).2
      have hfin := discover_invariant_tagged env
        (fun s => (Allocated s ∧ 0 ≤ s.lastWorldID) ∧ MainDoorsResolved env s)
        (fun s e h => h)
        (fun s k i w door x h hw hd htag =>
          ⟨⟨allocated_modifyDoor s k i _ h.1.1, by rw [lastWorldID_modifyDoor]; exact h.1.2⟩,
            mainDoorsResolved_modifyDoor env s k i _ w door h.2 hw hd (by rw [htag]; decide)⟩)
        (fun s k i w door x h hw hd htag => by
          have ha := allocated_loadWorld env door.worldName true s h.1.1 h.1.2
          refine ⟨⟨allocated_modifyDoor _ k i _ ha.2.1, ?_⟩, ?_⟩
          · rw [lastWorldID_modifyDoor]; linarith [ha.2.2, h.1.2]
          · exact mainDoorsResolved_modifyDoor env _ k i _ w door
              (mainDoorsResolved_loadWorld env _ s h.1.1.2.1 h.2)
              (getLoadedWorld_loadWorld_old env _ true s h.1.1.2.1 k w hw) hd
              (by rw [htag]; decide))
        (fun s name h => by
          have ha := allocated_loadWorld env name true s h.1.1 h.1.2
          exact ⟨⟨ha.2.1, by linarith [ha.2.2, h.1.2]⟩,
            mainDoorsResolved_loadWorld env name s h.1.1.2.1 h.2⟩)
        fuel _ _ _ hstart hdisc
      obtain ⟨mainF, hF, hdoors⟩ := hfin.2
      have hF2 : getLoadedWorld s2 0 = some main2 := hm2
      rw [hF] at hF2
      obtain rfl := Option.some.inj hF2
      have hlook : ∀ k, getLoadedWorld res.loader k = getLoadedWorld s2 k := by
        intro k; rw [hl]; rfl
      refine ⟨mainF, by rw [hlook]; exact hF, by rw [← hr]; exact hres, ?_⟩
      intro door hd
      obtain ⟨htag, b, hb, hid, interior, hi, hw⟩ := hdoors door hd
      exact ⟨htag, b, hb, hid, interior, by rw [hlook]; exact hi, hw⟩

/-- Claim C19: the hypotheses hold, and hence the conclusion, for the example map
"town_twins". -/
theorem outdoor_doors_lead_to_buildings_witness :
    ∃ res w, (loadWorlds (districtEnv 77) 3 "town_twins" [] emptyRoot WorldLoader.init
          = .ok res ∧ res.result = some w) ∧
      ∃ main, getLoadedWorld res.loader 0 = some main ∧ main.world = some w ∧
        ∀ door ∈ main.doors,
          door.doorTag = DoorTag.DOORTAG_WORLD_ID ∧
          ∃ b, main.buildings.find? (fun b => boundsContain b.bounds door.tile) = some b ∧
            door.worldID = b.insideWorldID ∧
            ∃ interior, getLoadedWorld res.loader b.insideWorldID = some interior ∧
              interior.world = some ⟨b.insideWorldID,
                getWorldFilePath (districtEnv 77) b.insideWorldName true⟩ :=
  ⟨_, _, ⟨rfl, rfl⟩,
    outdoor_doors_lead_to_buildings (districtEnv 77) 3 "town_twins" [] emptyRoot _ _ rfl rfl⟩

/-- Claim C15 fails on the example map "town_loop", whose interior "loop" has a door that
names the world "loop": every named-world door loads a new world with a new ID, which is
not in the visited set, so the discovery never ends. In the model, whatever the fuel, the
run ends by using up the fuel. -/
theorem self_named_world_never_returns :
    ¬ ∃ fuel : Nat, loadWorlds (districtEnv 77) fuel "town_loop" [] emptyRoot WorldLoader.init
      ≠ .error Fault.outOfFuel := by
  rintro ⟨fuel, h⟩
  apply h
  have h1 : getLoadedWorld (loadWorld (districtEnv 77) "town_loop" false WorldLoader.init).2
      (loadWorld (districtEnv 77) "town_loop" false WorldLoader.init).1
      = some ⟨some ⟨0, "world/town_loop.tmx"⟩,
          [⟨⟨3, 6⟩, 1, DoorTag.DOORTAG_UNKNOWN, "", "", 77⟩], [⟨1, "loop", ⟨2, 2, 4, 4⟩⟩]⟩ := by
    decide
  have h2 : getLoadedWorld (loadBuildings (districtEnv 77) [⟨1, "loop", ⟨2, 2, 4, 4⟩⟩]
      (loadWorld (districtEnv 77) "town_loop" false WorldLoader.init).2)
      (loadWorld (districtEnv 77) "town_loop" false WorldLoader.init).1
      = some ⟨some ⟨0, "world/town_loop.tmx"⟩,
          [⟨⟨3, 6⟩, 1, DoorTag.DOORTAG_UNKNOWN, "", "", 77⟩], [⟨1, "loop", ⟨2, 2, 4, 4⟩⟩]⟩ := by
    decide
  have h3 : (transferBuildingIDs 0 [0]
        (loadBuildings (districtEnv 77) [⟨1, "loop", ⟨2, 2, 4, 4⟩⟩]
          (loadWorld (districtEnv 77) "town_loop" false WorldLoader.init).2)).2 = true := by
    decide
  have h4 : (loadWorld (districtEnv 77) "town_loop" false WorldLoader.init).1 = 0 := rfl
  have h5 := town_loop_discovery fuel (transferBuildingIDs 0 [0]
        (loadBuildings (districtEnv 77) [⟨1, "loop", ⟨2, 2, 4, 4⟩⟩]
          (loadWorld (districtEnv 77) "town_loop" false WorldLoader.init).2)).1
      "world/town_loop.tmx" [⟨1, "loop", ⟨2, 2, 4, 4⟩⟩] (by decide) (by decide) (by decide)
      (by decide)
  unfold loadWorlds
  simp only [h1, LoadedWorld.failed, Option.isNone, h2]
  have h6 : List.range 1 = [0] := rfl
  simp only [h4, List.length_singleton, h6, h3, h5]
  simp


/-- Where the visited set does bound the recursion of the discovery: in a loader
in which every entry has its key as world ID and no door of positive ID has the
named-world tag (doors refer to worlds by world ID or by share tag, cyclically or not), the
discovery ends whenever the fuel exceeds the number of loaded worlds: it returns, with the
same loaded worlds and a visited set without repetition, or it dereferences a null
pointer. Moreover, whatever the doors, a run of the discovery that returns has inserted no
world ID twice into the visited set. -/
theorem discovery_terminates_without_named_doors (env : Env) (fuel : Nat) (key : WorldID)
    (s : WorldLoader) (visited : List WorldID)
    (hwk : WellKeyed s) (hnn : NoNamedDoors s) (hnd : visited.Nodup)
    (hfuel : s.loadedWorlds.length < fuel) :
    ((∃ st, discoverAndLoadAllWorlds env fuel key (s, visited) = .ok st ∧ st.2.Nodup ∧
          loadedKeys st.1 = loadedKeys s ∧ visited ⊆ st.2) ∨
        discoverAndLoadAllWorlds env fuel key (s, visited) = .error Fault.nullDereference) ∧
    (∀ (fuel0 : Nat) (key0 : WorldID) (st st0 : WorldLoader × List WorldID), st.2.Nodup →
      discoverAndLoadAllWorlds env fuel0 key0 st = .ok st0 → st0.2.Nodup) := by
  refine ⟨?_, discover_visited_nodup env⟩
  have h := discover_ends env fuel s.loadedWorlds.length key s visited hwk hnn
    (unvisited_le_length s visited) hfuel
  cases hres : discoverAndLoadAllWorlds env fuel key (s, visited) with
  | error e =>
    rw [hres] at h
    right
    rw [show e = Fault.nullDereference from h]
  | ok st =>
    rw [hres] at h
    left
    exact ⟨st, rfl, discover_visited_nodup env fuel key (s, visited) st hnd hres, h.2.2.1,
      h.2.2.2⟩

/-- The hypotheses of `discovery_terminates_without_named_doors` hold, and hence the
conclusion, for the loader of the example map "town_ring" at the start of the discovery;
the interior "ring" has a door leading back to the outdoor map and a door leading to
itself, both by world ID. -/
theorem discovery_terminates_without_named_doors_witness :
    (WellKeyed (transferBuildingIDs 0 [0]
        (loadBuildings (districtEnv 77) [⟨1, "ring", ⟨2, 2, 4, 4⟩⟩]
          (loadWorld (districtEnv 77) "town_ring" false WorldLoader.init).2)).1 ∧
      NoNamedDoors (transferBuildingIDs 0 [0]
        (loadBuildings (districtEnv 77) [⟨1, "ring", ⟨2, 2, 4, 4⟩⟩]
          (loadWorld (districtEnv 77) "town_ring" false WorldLoader.init).2)).1 ∧
      (transferBuildingIDs 0 [0]
        (loadBuildings (districtEnv 77) [⟨1, "ring", ⟨2, 2, 4, 4⟩⟩]
          (loadWorld (districtEnv 77) "town_ring" false WorldLoader.init).2)).1.loadedWorlds.length
        < 3) ∧
    ((∃ st, discoverAndLoadAllWorlds (districtEnv 77) 3 0 ((transferBuildingIDs 0 [0]
          (loadBuildings (districtEnv 77) [⟨1, "ring", ⟨2, 2, 4, 4⟩⟩]
            (loadWorld (districtEnv 77) "town_ring" false WorldLoader.init).2)).1, []) = .ok st ∧
        st.2.Nodup ∧
        loadedKeys st.1 = loadedKeys (transferBuildingIDs 0 [0]
          (loadBuildings (districtEnv 77) [⟨1, "ring", ⟨2, 2, 4, 4⟩⟩]
            (loadWorld (districtEnv 77) "town_ring" false WorldLoader.init).2)).1 ∧
        [] ⊆ st.2) ∨
      discoverAndLoadAllWorlds (districtEnv 77) 3 0 ((transferBuildingIDs 0 [0]
          (loadBuildings (districtEnv 77) [⟨1, "ring", ⟨2, 2, 4, 4⟩⟩]
            (loadWorld (districtEnv 77) "town_ring" false WorldLoader.init).2)).1, [])
        = .error Fault.nullDereference) :=
  ⟨⟨wellKeyed_transferBuildingIDs _ _ _ (wellKeyed_loadBuildings _ _ _
      (wellKeyed_loadWorld _ _ _ _ wellKeyed_init)), by decide, by decide⟩,
    (discovery_terminates_without_named_doors (districtEnv 77) 3 0 _ []
      (wellKeyed_transferBuildingIDs _ _ _ (wellKeyed_loadBuildings _ _ _
        (wellKeyed_loadWorld _ _ _ _ wellKeyed_init))) (by decide) List.nodup_nil
      (by decide)).1⟩

/-- Claim C16, amended. A named-world door loads its map whether or not a map of that name
is loaded already. When the discovery reaches a named-world door of positive ID in a loader
whose allocation is sound, `loadWorld` loads the map under the current value of the
counter; this ID is the key of no loaded world and larger than the key of every loaded
world, the new world is registered under it with the path of the named map, the door is
given this ID before the discovery recurses into the new world, and the allocation stays
sound with a larger counter (so that a later door with the same world name gets another
ID). -/
theorem named_door_loads_new_world (env : Env)
    (recurse : WorldID → WorldLoader × List WorldID → Except Fault (WorldLoader × List WorldID))
    (key : WorldID) (i : Nat) (rest : List Nat) (s : WorldLoader) (visited : List WorldID)
    (world : LoadedWorld) (door : UnloadedDoor)
    (halloc : Allocated s) (h0 : 0 ≤ s.lastWorldID)
    (hw : getLoadedWorld s key = some world) (hd : world.doors.get? i = some door)
    (hpos : 0 < door.doorID) (htag : door.doorTag = DoorTag.DOORTAG_WORLD_NAME) :
    (loadWorld env door.worldName true s).1 = s.lastWorldID ∧
    getLoadedWorld s s.lastWorldID = none ∧
    (∀ k lw, getLoadedWorld s k = some lw → k < s.lastWorldID) ∧
    (∃ lw, getLoadedWorld (loadWorld env door.worldName true s).2 s.lastWorldID = some lw ∧
      lw.world = some ⟨s.lastWorldID, getWorldFilePath env door.worldName true⟩) ∧
    Allocated (loadWorld env door.worldName true s).2 ∧
    s.lastWorldID < (loadWorld env door.worldName true s).2.lastWorldID ∧
    discoverDoors env recurse key (i :: rest) (s, visited)
      = (match recurse s.lastWorldID
            (modifyDoor (loadWorld env door.worldName true s).2 key i (fun d =>
              ⟨d.tile, d.doorID, d.doorTag, d.worldName, d.worldShare, s.lastWorldID⟩),
              visited) with
          | .error e => .error e
          | .ok st => discoverDoors env recurse key rest st) := by
  have ha := allocated_loadWorld env door.worldName true s halloc h0
  obtain ⟨lw, hlw, hlww⟩ := getLoadedWorld_loadWorldWithID_self env door.worldName true
    s.lastWorldID ⟨s.lastWorldID + 1, s.loadedWorlds, s.errors⟩
  have hlw' : getLoadedWorld (loadWorld env door.worldName true s).2 s.lastWorldID = some lw :=
    hlw
  refine ⟨rfl, ha.1, fun k lw0 hk => (lt_of_lookup s halloc.2.1 k lw0 hk).2, ⟨lw, hlw', hlww⟩,
    ha.2.1, ha.2.2, ?_⟩
  have hnot : ¬ door.doorID ≤ 0 := by omega
  have hr1 : (loadWorld env door.worldName true s).1 = s.lastWorldID := rfl
  rw [discoverDoors]
  simp only [hw, hd, hnot, if_false, htag, hr1, hlw', LoadedWorld.failed, hlww, Option.isNone]
  generalize recurse s.lastWorldID _ = r
  cases r <;> rfl

/-- Claim C16, amended: the hypotheses hold, and hence the conclusion, for the loader of
the example map "town_twins" at the start of the discovery and the first door of the
interior that names the world "back"; the counter is 2 and no world has the key 2. -/
theorem named_door_loads_new_world_witness :
    ∃ world door,
      (Allocated (transferBuildingIDs 0 [0]
          (loadBuildings (districtEnv 77) [⟨1, "twins", ⟨2, 2, 4, 4⟩⟩]
            (loadWorld (districtEnv 77) "town_twins" false WorldLoader.init).2)).1 ∧
        getLoadedWorld (transferBuildingIDs 0 [0]
          (loadBuildings (districtEnv 77) [⟨1, "twins", ⟨2, 2, 4, 4⟩⟩]
            (loadWorld (districtEnv 77) "town_twins" false WorldLoader.init).2)).1 1
          = some world ∧
        world.doors.get? 1 = some door ∧ 0 < door.doorID ∧
        door.doorTag = DoorTag.DOORTAG_WORLD_NAME) ∧
      (loadWorld (districtEnv 77) door.worldName true (transferBuildingIDs 0 [0]
          (loadBuildings (districtEnv 77) [⟨1, "twins", ⟨2, 2, 4, 4⟩⟩]
            (loadWorld (districtEnv 77) "town_twins" false WorldLoader.init).2)).1).1 = 2 ∧
      getLoadedWorld (transferBuildingIDs 0 [0]
          (loadBuildings (districtEnv 77) [⟨1, "twins", ⟨2, 2, 4, 4⟩⟩]
            (loadWorld (districtEnv 77) "town_twins" false WorldLoader.init).2)).1 2 = none :=
  ⟨⟨some ⟨1, "buildings/twins.tmx"⟩,
      [⟨⟨1, 2⟩, -1, DoorTag.DOORTAG_UNKNOWN, "", "", 77⟩,
        ⟨⟨4, 2⟩, 2, DoorTag.DOORTAG_WORLD_NAME, "back", "", 77⟩,
        ⟨⟨5, 2⟩, 3, DoorTag.DOORTAG_WORLD_NAME, "back", "", 77⟩], []⟩,
    ⟨⟨4, 2⟩, 2, DoorTag.DOORTAG_WORLD_NAME, "back", "", 77⟩,
    ⟨by decide, by decide, rfl, by decide, rfl⟩,
    (named_door_loads_new_world (districtEnv 77)
      (discoverAndLoadAllWorlds (districtEnv 77) 2) 1 1 [] _ []
      (⟨some ⟨1, "buildings/twins.tmx"⟩,
        [⟨⟨1, 2⟩, -1, DoorTag.DOORTAG_UNKNOWN, "", "", 77⟩,
          ⟨⟨4, 2⟩, 2, DoorTag.DOORTAG_WORLD_NAME, "back", "", 77⟩,
          ⟨⟨5, 2⟩, 3, DoorTag.DOORTAG_WORLD_NAME, "back", "", 77⟩], []⟩ : LoadedWorld)
      (⟨⟨4, 2⟩, 2, DoorTag.DOORTAG_WORLD_NAME, "back", "", 77⟩ : UnloadedDoor)
      (by decide) (by decide) (by decide) rfl (by decide) rfl).1,
    (named_door_loads_new_world (districtEnv 77)
      (discoverAndLoadAllWorlds (districtEnv 77) 2) 1 1 [] _ []
      (⟨some ⟨1, "buildings/twins.tmx"⟩,
        [⟨⟨1, 2⟩, -1, DoorTag.DOORTAG_UNKNOWN, "", "", 77⟩,
          ⟨⟨4, 2⟩, 2, DoorTag.DOORTAG_WORLD_NAME, "back", "", 77⟩,
          ⟨⟨5, 2⟩, 3, DoorTag.DOORTAG_WORLD_NAME, "back", "", 77⟩], []⟩ : LoadedWorld)
      (⟨⟨4, 2⟩, 2, DoorTag.DOORTAG_WORLD_NAME, "back", "", 77⟩ : UnloadedDoor)
      (by decide) (by decide) (by decide) rfl (by decide) rfl).2.1⟩

/-- Claim C21 fails when the candidate's left or top is smaller than the accumulator's.
The stretch step lowers `left` and `top` first and computes `width` and `height` from the
lowered values, so the right edge becomes the maximum of `min left + width` of the
accumulator and the candidate's right edge (likewise the bottom edge). For the accumulator
(0, 32, 32, 32) and the candidate (32, 0, 32, 32), which the second sweep meets for the
diagonal pair of tiles (0, 1) and (1, 0), the result is (0, 0, 64, 32) and not the
bounding box (0, 0, 64, 64), and this is what `mergeAdjacentTiles` returns for the pair.
When the candidate's left and top are not smaller than the accumulator's, the result is
the bounding box. -/
theorem stretch_is_not_bounding_box :
    stretch ⟨0, 32, 32, 32⟩ ⟨32, 0, 32, 32⟩ = ⟨0, 0, 64, 32⟩ ∧
    boundingBox ⟨0, 32, 32, 32⟩ ⟨32, 0, 32, 32⟩ = ⟨0, 0, 64, 64⟩ ∧
    mergeAdjacentTiles 32 [unitTile 32 0 1, unitTile 32 1 0] = [⟨0, 0, 64, 32⟩] ∧
    (∀ current rect : Rect,
      (stretch current rect).left = min current.left rect.left ∧
      (stretch current rect).top = min current.top rect.top ∧
      (stretch current rect).left + (stretch current rect).width
        = max (min current.left rect.left + current.width) (rect.left + rect.width) ∧
      (stretch current rect).top + (stretch current rect).height
        = max (min current.top rect.top + current.height) (rect.top + rect.height)) ∧
    (∀ current rect : Rect, current.left ≤ rect.left → current.top ≤ rect.top →
      stretch current rect = boundingBox current rect) := by
  refine ⟨by decide, by decide, by decide, ?_, ?_⟩
  · intro current rect
    simp only [stretch]
    refine ⟨trivial, trivial, ?_, ?_⟩ <;> ring
  · intro current rect h1 h2
    simp only [stretch, boundingBox, min_eq_left h1, min_eq_left h2]

/-- Claim C22 fails for the tiles (0, 0) and (0, 1), one above the other: in the order by
(top, left) tile (0, 1) follows tile (0, 0), the distance of their origins is one tile
size, which is not more than one tile size, and the first sweep merges them into one
rectangle of one by two tiles, which is not a run of a single row. -/
theorem phase_one_merges_tile_below (ts : Int) (h0 : 0 < ts) :
    mergeHelper ts (sortRects compareRectsHorizontally [unitTile ts 0 0, unitTile ts 0 1]) true
      = [⟨0, 0, ts, 2 * ts⟩] := by
  have hn : ¬ ts < 0 := by omega
  have hs : sortRects compareRectsHorizontally [unitTile ts 0 0, unitTile ts 0 1]
      = [unitTile ts 0 0, unitTile ts 0 1] := by
    simp [sortRects, orderedInsert, compareRectsHorizontally, unitTile, h0, hn]
  rw [hs]
  have hnear : nextRowFunc ts true (unitTile ts 0 0) (unitTile ts 0 1) = false := by
    simp [nextRowFunc, unitTile]
    nlinarith
  have hfar : nextRowFunc ts true (unitTile ts 0 1) sentinel = true := by
    simp [nextRowFunc, unitTile, sentinel]
    nlinarith
  simp only [mergeHelper, List.cons_append, List.nil_append, sweep, hnear, hfar, if_true]
  simp [stretch, unitTile]
  constructor <;> omega

/-- Claim C22: the hypothesis holds, and hence the conclusion, for tiles of 32 pixels. -/
theorem phase_one_merges_tile_below_witness :
    (0 : Int) < 32 ∧
    mergeHelper 32 (sortRects compareRectsHorizontally [unitTile 32 0 0, unitTile 32 0 1]) true
      = [⟨0, 0, 32, 2 * 32⟩] :=
  ⟨by decide, phase_one_merges_tile_below 32 (by decide)⟩

/-- Claim C23 fails on the example map "town_nested", whose interior "nested" has a
building marker for the map "cellar": `loadWorlds` returns the main world, the building is
recorded in world 1 with the interior ID 2, and no world is loaded under ID 2. -/
theorem interior_building_not_loaded :
    (loadWorlds suburbEnv 3 "town_nested" [] emptyRoot WorldLoader.init).toOption.map
        (fun res => (res.result, res.loader.errors))
      = some (some ⟨0, "world/town_nested.tmx"⟩, []) ∧
    (loadWorlds suburbEnv 3 "town_nested" [] emptyRoot WorldLoader.init).toOption.map
        (fun res => res.loader.loadedWorlds.map (fun e => (e.1, e.2.buildings)))
      = some [(0, [⟨1, "nested", ⟨2, 2, 4, 4⟩⟩]), (1, [⟨2, "cellar", ⟨4, 4, 2, 2⟩⟩])] ∧
    (loadWorlds suburbEnv 3 "town_nested" [] emptyRoot WorldLoader.init).toOption.map
        (fun res => getLoadedWorld res.loader 2) = some none := by
  refine ⟨by decide, by decide, by decide⟩

/-- Claim C23, amended. When `loadWorlds` on a fresh loader returns the main world, every
building recorded in the outdoor map (the world registered under ID 0) has its interior
loaded: its `insideWorldID` is the key of a loaded world, whose `World` has that ID and the
path of the building's interior map. -/
theorem outdoor_buildings_loaded (env : Env) (fuel : Nat) (mainWorldName : String)
    (table : WorldConnectionTable) (root : WorldTreeNode) (res : LoadResult) (w : World)
    (hrun : loadWorlds env fuel mainWorldName table root WorldLoader.init = .ok res)
    (hres : res.result = some w) :
    ∃ main, getLoadedWorld res.loader 0 = some main ∧ main.world = some w ∧
      ∀ b ∈ main.buildings,
        ∃ interior, getLoadedWorld res.loader b.insideWorldID = some interior ∧
          interior.world
            = some ⟨b.insideWorldID, getWorldFilePath env b.insideWorldName true⟩ := by
  obtain ⟨main0, hmain0, _, _, halloc, hpos, hmain1, hint⟩ :=
    loadBuildings_init env mainWorldName
  obtain ⟨main, hmain, hcase⟩ := loadWorlds_stages env fuel mainWorldName table root _ res hrun
  have hmm : main = main0 := by
    have : getLoadedWorld (loadWorld env mainWorldName false WorldLoader.init).2 0
        = some main := hmain
    rw [hmain0] at this
    exact (Option.some.inj this).symm
  subst hmm
  rcases hcase with ⟨_, hnone, _⟩ | ⟨_, main1, hm1, hcase⟩
  · rw [hnone] at hres; simp at hres
  · have hm1' : main1 = main := by
      have : getLoadedWorld (loadBuildings env main.buildings
          (loadWorld env mainWorldName false WorldLoader.init).2) 0 = some main1 := hm1
      rw [hmain1] at this
      exact (Option.some.inj this).symm
    subst hm1'
    rcases hcase with ⟨_, hnone, _⟩ | ⟨htrue, s2, v2, main2, root1, cs, hdisc, hm2, _, hr, hl, _⟩
    · rw [hnone] at hres; simp at hres
    · obtain ⟨w1, g1, _, g3, _, g5, _⟩ := transferBuildingIDs_success 0
        (List.range main1.doors.length) _ main1 hmain1
        (fun j hj => List.mem_range.mp hj) htrue
      have hstart : (Allocated (transferBuildingIDs 0 (List.range main1.doors.length)
            (loadBuildings env main1.buildings
              (loadWorld env mainWorldName false WorldLoader.init).2)).1 ∧
          0 ≤ (transferBuildingIDs 0 (List.range main1.doors.length)
            (loadBuildings env main1.buildings
              (loadWorld env mainWorldName false WorldLoader.init).2)).1.lastWorldID) ∧
          ∃ lw, getLoadedWorld (transferBuildingIDs 0 (List.range main1.doors.length)
            (loadBuildings env main1.buildings
              (loadWorld env mainWorldName false WorldLoader.init).2)).1 0 = some lw ∧
            ∀ b ∈ lw.buildings,
              ∃ interior, getLoadedWorld (transferBuildingIDs 0
                  (List.range main1.doors.length) (loadBuildings env main1.buildings
                    (loadWorld env mainWorldName false WorldLoader.init).2)).1
                  b.insideWorldID = some interior ∧
                interior.world
                  = some ⟨b.insideWorldID, getWorldFilePath env b.insideWorldName true⟩ := by
        refine ⟨transferBuildingIDs_invariant (fun s => Allocated s ∧ 0 ≤ s.lastWorldID)
            (fun s e h => h)
            (fun s k i f h => ⟨allocated_modifyDoor s k i f h.1, by
              rw [lastWorldID_modifyDoor]; exact h.2⟩) 0 _ _ ⟨halloc, hpos⟩, w1, g1, ?_⟩
        intro b hb
        rw [g3] at hb
        have hne : b.insideWorldID ≠ 0 := by
          intro e
          have := (hint b hb).1
          rw [e] at this
          exact absurd this (by decide)
        rw [g5 _ hne]
        exact (hint b hb).2
      have hfin := discover_invariant env
        (fun s => (Allocated s ∧ 0 ≤ s.lastWorldID) ∧
          ∃ lw, getLoadedWorld s 0 = some lw ∧
            ∀ b ∈ lw.buildings,
              ∃ interior, getLoadedWorld s b.insideWorldID = some interior ∧
                interior.world
                  = some ⟨b.insideWorldID, getWorldFilePath env b.insideWorldName true⟩)
        (fun s e h => h)
        (fun s k i f h => by
          refine ⟨⟨allocated_modifyDoor s k i f h.1.1, by
            rw [lastWorldID_modifyDoor]; exact h.1.2⟩, ?_⟩
          obtain ⟨lw, h1, h2⟩ := h.2
          have hkeep : ∀ (x : WorldID) (lx : LoadedWorld), getLoadedWorld s x = some lx →
              ∃ ly, getLoadedWorld (modifyDoor s k i f) x = some ly ∧ ly.world = lx.world ∧
                ly.buildings = lx.buildings := by
            intro x lx hx
            rw [getLoadedWorld_modifyDoor]
            by_cases e : x = k
            · subst e
              rw [if_pos rfl, hx]
              exact ⟨_, rfl, rfl, rfl⟩
            · rw [if_neg e]
              exact ⟨lx, hx, rfl, rfl⟩
          obtain ⟨ly, e1, _, e3⟩ := hkeep 0 lw h1
          refine ⟨ly, e1, ?_⟩
          intro b hb
          rw [e3] at hb
          obtain ⟨interior, i1, i2⟩ := h2 b hb
          obtain ⟨iy, j1, j2, _⟩ := hkeep _ interior i1
          exact ⟨iy, j1, by rw [j2]; exact i2⟩)
        (fun s name h => by
          have ha := allocated_loadWorld env name true s h.1.1 h.1.2
          obtain ⟨lw, h1, h2⟩ := h.2
          refine ⟨⟨ha.2.1, by linarith [ha.2.2, h.1.2]⟩, lw,
            getLoadedWorld_loadWorld_old env name true s h.1.1.2.1 0 lw h1, ?_⟩
          intro b hb
          obtain ⟨interior, i1, i2⟩ := h2 b hb
          exact ⟨interior, getLoadedWorld_loadWorld_old env name true s h.1.1.2.1 _ interior i1,
            i2⟩)
        fuel _ _ _ hstart hdisc
      obtain ⟨mainF, hF, hb⟩ := hfin.2
      have hF2 : getLoadedWorld s2 0 = some main2 := hm2
      rw [hF] at hF2
      obtain rfl := Option.some.inj hF2
      have hlook : ∀ k, getLoadedWorld res.loader k = getLoadedWorld s2 k := by
        intro k; rw [hl]; rfl
      refine ⟨mainF, by rw [hlook]; exact hF, by rw [← hr]; exact hres, ?_⟩
      intro b hbm
      obtain ⟨interior, i1, i2⟩ := hb b hbm
      exact ⟨interior, by rw [hlook]; exact i1, i2⟩

/-- Claim C23, amended: the hypotheses hold, and hence the conclusion, for the example map
"town_nested". -/
theorem outdoor_buildings_loaded_witness :
    ∃ res w, (loadWorlds suburbEnv 3 "town_nested" [] emptyRoot WorldLoader.init = .ok res ∧
        res.result = some w) ∧
      ∃ main, getLoadedWorld res.loader 0 = some main ∧ main.world = some w ∧
        ∀ b ∈ main.buildings,
          ∃ interior, getLoadedWorld res.loader b.insideWorldID = some interior ∧
            interior.world
              = some ⟨b.insideWorldID, getWorldFilePath suburbEnv b.insideWorldName true⟩ :=
  ⟨_, _, ⟨rfl, rfl⟩,
    outdoor_buildings_loaded suburbEnv 3 "town_nested" [] emptyRoot _ _ rfl rfl⟩

/-- Claim C24 fails on the example map "town_back", whose outdoor map has, inside the
building, a door of ID -2 next to the door of ID 1: the connection pass starts at the root,
which has no parent, and for the door of ID -2 it reads the world of the parent node. In
general, for a node without parent, every door whose ID is not positive makes
`connectDoors` dereference the null parent pointer. -/
theorem root_door_reads_missing_parent :
    (match loadWorlds suburbEnv 3 "town_back" [] emptyRoot WorldLoader.init with
      | .error e => some e
      | .ok _ => none) = some Fault.nullDereference ∧
    (∀ (loader : WorldLoader)
        (recurse : WorldTreeNode → LoadedWorld → ConnectState →
          Except Fault (WorldTreeNode × ConnectState))
        (value : Option World) (world : LoadedWorld) (door : UnloadedDoor)
        (rest : List UnloadedDoor) (children : List WorldTreeNode) (cs : ConnectState),
      door.doorID ≤ 0 →
      connectDoorsLoop loader recurse none value world (door :: rest) children cs
        = .error Fault.nullDereference) := by
  refine ⟨by decide, ?_⟩
  intro loader recurse value world door rest children cs hneg
  have hgt : ¬ door.doorID > 0 := by omega
  simp only [connectDoorsLoop, hgt, if_false]

/-- Claim C25 fails on the example map "town_stray", whose interior has a door of ID 2 with
the world-id property 9 while no world is loaded under ID 9: `getLoadedWorld` returns the
null pointer and the recursive call dereferences it. In general, when the discovery reaches
a direct-id door of positive ID whose world ID is the key of no loaded world, it
dereferences a null pointer. -/
theorem direct_id_door_to_missing_world :
    (match loadWorlds suburbEnv 3 "town_stray" [] emptyRoot WorldLoader.init with
      | .error e => some e
      | .ok _ => none) = some Fault.nullDereference ∧
    (∀ (env : Env)
        (recurse : WorldID → WorldLoader × List WorldID →
          Except Fault (WorldLoader × List WorldID))
        (key : WorldID) (i : Nat) (rest : List Nat) (s : WorldLoader) (visited : List WorldID)
        (world : LoadedWorld) (door : UnloadedDoor),
      getLoadedWorld s key = some world → world.doors.get? i = some door →
      0 < door.doorID → door.doorTag = DoorTag.DOORTAG_WORLD_ID →
      getLoadedWorld s door.worldID = none →
      discoverDoors env recurse key (i :: rest) (s, visited)
        = .error Fault.nullDereference) := by
  refine ⟨by decide, ?_⟩
  intro env recurse key i rest s visited world door hw hd hpos htag hnone
  have hnot : ¬ door.doorID ≤ 0 := by omega
  rw [discoverDoors]
  simp only [hw, hd, hnot, if_false, htag, hnone]

/-- Claim C26. A solid block of `w` by `h` collidable unit tiles (`1 ≤ w`, `1 ≤ h`) whose
top-left tile is at the non-negative grid position `(x0, y0)`, given to
`mergeAdjacentTiles` in any order as the only content, comes back as exactly one rectangle:
its origin is the top-left tile's origin and its size is `w` by `h` tiles. The tile size
is a positive parameter with `ts * ts < 20000`, the range in which the sentinel appended
by `mergeHelper` is far from every tile. -/
theorem solid_block_merges_to_one_rectangle (ts : Int) (h0 : 0 < ts)
    (h1 : ts * ts < 20000) (x0 y0 w h : Nat) (hw : 1 ≤ w) (hh : 1 ≤ h) (rects : List Rect)
    (hperm : rects.Perm (blockTiles ts x0 y0 w h)) :
    mergeAdjacentTiles ts rects
      = [⟨(x0 : Int) * ts, (y0 : Int) * ts, (w : Int) * ts, (h : Int) * ts⟩] := by
  obtain ⟨h, rfl⟩ : ∃ n, h = n + 1 := ⟨h - 1, by omega⟩
  simp only [mergeAdjacentTiles]
  rw [sortRects_block ts h0 x0 y0 w (h + 1) rects hperm]
  rcases Nat.lt_or_ge w 2 with hlt | hge
  · obtain rfl : w = 1 := by omega
    rw [phase1_block_column ts h0 h1, phase2_column ts h0 _ rfl]
    simp
  · obtain ⟨m, rfl⟩ : ∃ m, w = m + 2 := ⟨w - 2, by omega⟩
    rw [phase1_block_wide ts h0 h1, phase2_rows ts h0 x0 y0 (m + 2) h hw]

theorem solid_block_merges_to_one_rectangle_witness :
    (0 : Int) < 32 ∧ (32 : Int) * 32 < 20000 ∧ 1 ≤ 3 ∧ 1 ≤ 2 ∧
      [unitTile 32 3 3, unitTile 32 1 2, unitTile 32 2 3, unitTile 32 3 2, unitTile 32 1 3,
        unitTile 32 2 2].Perm (blockTiles 32 1 2 3 2) ∧
      mergeAdjacentTiles 32
          [unitTile 32 3 3, unitTile 32 1 2, unitTile 32 2 3, unitTile 32 3 2, unitTile 32 1 3,
            unitTile 32 2 2]
        = [⟨(1 : Nat) * 32, (2 : Nat) * 32, (3 : Nat) * 32, (2 : Nat) * 32⟩] :=
  ⟨by decide, by decide, by decide, by decide, by decide,
    solid_block_merges_to_one_rectangle 32 (by decide) (by decide) 1 2 3 2 (by decide)
      (by decide) _ (by decide)⟩

end CitySimulator
